import Mathlib

/-!
# Verification of the `quoin` block-device stack

A shallow embedding of the `quoin` crates (block devices, binary codec, GPT
partition tables, the single-block journal, and the fault-injection wrappers)
together with proofs and refutations of the specification claims.

Machine integers (`u8`, `u16`, `u32`, `u64`) are modelled as `Nat` with
explicit bounds where they matter; blocks are `List Nat` of bytes; devices are
`List` of blocks.  Randomness (fault probabilities, fresh UUIDs) is replaced by
explicit parameters.
-/

namespace Quoin

/-! ## Little-endian byte encoding (`quoin-codec`, `implint`)

The codec writes fixed-width integers as little-endian bytes
(`to_le_bytes` / `from_le_bytes` in `src/quoin-codec/src/lib.rs`). -/

/-- `w` little-endian bytes of `n` (the model of `to_le_bytes`). -/
def leBytes : Nat → Nat → List Nat
  | 0, _ => []
  | w + 1, n => n % 256 :: leBytes w (n / 256)

/-- Read a little-endian byte list back as a number (`from_le_bytes`). -/
def fromLe : List Nat → Nat
  | [] => 0
  | b :: bs => b + 256 * fromLe bs

theorem leBytes_length (w n : Nat) : (leBytes w n).length = w := by
  induction w generalizing n with
  | zero => rfl
  | succ w ih => simp [leBytes, ih]

theorem leBytes_lt (w n : Nat) : ∀ b ∈ leBytes w n, b < 256 := by
  induction w generalizing n with
  | zero => simp [leBytes]
  | succ w ih =>
    intro b hb
    simp only [leBytes, List.mem_cons] at hb
    rcases hb with rfl | hb
    · exact Nat.mod_lt _ (by norm_num)
    · exact ih _ b hb

theorem fromLe_leBytes (w n : Nat) (h : n < 256 ^ w) : fromLe (leBytes w n) = n := by
  induction w generalizing n with
  | zero =>
    simp only [Nat.pow_zero, Nat.lt_one_iff] at h
    simp [h, leBytes, fromLe]
  | succ w ih =>
    have hdiv : n / 256 < 256 ^ w := by
      rw [Nat.div_lt_iff_lt_mul (by norm_num)]
      calc n < 256 ^ (w + 1) := h
        _ = 256 ^ w * 256 := by ring
    simp [leBytes, fromLe, ih _ hdiv, Nat.mod_add_div]

theorem leBytes_fromLe (w : Nat) (bs : List Nat) (hlen : bs.length = w)
    (hlt : ∀ b ∈ bs, b < 256) : leBytes w (fromLe bs) = bs := by
  induction w generalizing bs with
  | zero =>
    have : bs = [] := List.length_eq_zero.mp hlen
    simp [this, leBytes]
  | succ w ih =>
    match bs with
    | [] => simp at hlen
    | b :: bs =>
      have hb : b < 256 := hlt b (by simp)
      have h1 : (b + 256 * fromLe bs) % 256 = b := by
        simp [Nat.add_mul_mod_self_left, Nat.mod_eq_of_lt hb]
      have h2 : (b + 256 * fromLe bs) / 256 = fromLe bs := by
        rw [Nat.add_mul_div_left _ _ (by norm_num : 0 < 256),
          Nat.div_eq_of_lt hb, Nat.zero_add]
      simp only [fromLe, leBytes, h1, h2]
      have := ih bs (by simpa using hlen) (fun x hx => hlt x (by simp [hx]))
      simp [this]

theorem fromLe_lt (bs : List Nat) (hlt : ∀ b ∈ bs, b < 256) :
    fromLe bs < 256 ^ bs.length := by
  induction bs with
  | nil => simp [fromLe]
  | cons b bs ih =>
    have hb : b < 256 := hlt b (by simp)
    have hrec := ih (fun x hx => hlt x (by simp [hx]))
    simp only [fromLe, List.length_cons, pow_succ]
    calc b + 256 * fromLe bs < 256 + 256 * fromLe bs := by omega
      _ = 256 * (fromLe bs + 1) := by ring
      _ ≤ 256 * 256 ^ bs.length := by
          exact Nat.mul_le_mul_left _ (Nat.succ_le_of_lt hrec)
      _ = 256 ^ bs.length * 256 := by ring

/-- Little-endian decoding is injective on byte lists of the same length. -/
theorem fromLe_injective (bs cs : List Nat) (hlen : bs.length = cs.length)
    (hbs : ∀ b ∈ bs, b < 256) (hcs : ∀ b ∈ cs, b < 256)
    (h : fromLe bs = fromLe cs) : bs = cs := by
  have := leBytes_fromLe bs.length bs rfl hbs
  rw [h, hlen] at this
  rw [← this, leBytes_fromLe cs.length cs rfl hcs]

/-! ## The codec proper (`quoin-codec`)

`implint` gives every fixed-width integer a little-endian codec; `[T; N]`
encodes as the concatenation of element encodings; the `codec!` macro encodes
a struct as the concatenation of its field encodings in declaration order.
Decoders are modelled as functions of the remaining byte stream; a struct
decoder reads each field at its declaration offset. -/

/-- Unsigned fixed-width integer encoding (`uN::encode`): `w` little-endian
bytes. -/
def encU (w n : Nat) : List Nat := leBytes w n

/-- Unsigned fixed-width integer decoding (`uN::decode`): read `w` bytes
little-endian. -/
def decU (w : Nat) (bs : List Nat) : Nat := fromLe (bs.take w)

/-- Signed fixed-width integer encoding (`iN::encode`): two's complement,
little-endian. -/
def encI (w : Nat) (v : Int) : List Nat := leBytes w (v % (256 ^ w : Nat)).toNat

/-- Signed fixed-width integer decoding (`iN::decode`). -/
def decI (w : Nat) (bs : List Nat) : Int :=
  let n := fromLe (bs.take w)
  if n < 256 ^ w / 2 then (n : Int) else (n : Int) - (256 ^ w : Nat)

/-- Array-of-integers encoding (`[uN; K]::encode` as used by `[u8; K]` and
`[u16; 36]` fields): concatenation of the element encodings. -/
def encNats (w : Nat) (xs : List Nat) : List Nat := (xs.map (leBytes w)).flatten

/-- Array-of-integers decoding: `n` successive `w`-byte little-endian reads. -/
def decNats (w : Nat) : Nat → List Nat → List Nat
  | 0, _ => []
  | n + 1, bs => fromLe (bs.take w) :: decNats w n (bs.drop w)

theorem encNats_length (w : Nat) (xs : List Nat) :
    (encNats w xs).length = w * xs.length := by
  induction xs with
  | nil => simp [encNats]
  | cons x xs ih =>
    simp only [encNats, List.map_cons, List.flatten_cons, List.length_append,
      leBytes_length, List.length_cons] at ih ⊢
    rw [ih, Nat.mul_succ]
    omega

theorem decNats_encNats (w : Nat) (xs rest : List Nat)
    (h : ∀ x ∈ xs, x < 256 ^ w) :
    decNats w xs.length (encNats w xs ++ rest) = xs := by
  induction xs generalizing rest with
  | nil => simp [decNats]
  | cons x xs ih =>
    have hx : x < 256 ^ w := h x (by simp)
    have hlen : (leBytes w x).length = w := leBytes_length w x
    simp only [encNats, List.map_cons, List.flatten_cons, List.length_cons,
      decNats, List.append_assoc]
    rw [List.take_append_of_le_length (by omega), List.take_of_length_le (by omega),
      List.drop_append_of_le_length (by omega), List.drop_of_length_le (by omega),
      List.nil_append, fromLe_leBytes w x hx]
    exact congrArg _ (ih rest fun y hy => h y (by simp [hy]))

theorem decNats_eq_of_take (w n : Nat) (bs cs : List Nat)
    (h : bs.take (w * n) = cs.take (w * n)) : decNats w n bs = decNats w n cs := by
  induction n generalizing bs cs with
  | zero => rfl
  | succ n ih =>
    have hw : w ≤ w * (n + 1) := by rw [Nat.mul_succ]; omega
    have htake : bs.take w = cs.take w := by
      have h1 : (bs.take (w * (n + 1))).take w = (cs.take (w * (n + 1))).take w := by
        rw [h]
      rwa [List.take_take, List.take_take, Nat.min_eq_left hw] at h1
    have hdrop : (bs.drop w).take (w * n) = (cs.drop w).take (w * n) := by
      have h1 : (bs.take (w * (n + 1))).drop w = (cs.take (w * (n + 1))).drop w := by
        rw [h]
      have e : w * (n + 1) - w = w * n := by rw [Nat.mul_succ]; omega
      rwa [List.drop_take, List.drop_take, e] at h1
    simp only [decNats, htake, ih _ _ hdrop]

theorem encNats_decNats (w n : Nat) (bs : List Nat) (hlen : w * n ≤ bs.length)
    (hlt : ∀ b ∈ bs, b < 256) : encNats w (decNats w n bs) = bs.take (w * n) := by
  induction n generalizing bs with
  | zero => simp [decNats, encNats]
  | succ n ih =>
    have hsucc : w * (n + 1) = w + w * n := by rw [Nat.mul_succ]; omega
    have hw : w ≤ bs.length := by omega
    have h1 : leBytes w (fromLe (bs.take w)) = bs.take w := by
      refine leBytes_fromLe w (bs.take w) (by simp [Nat.min_eq_left hw]) ?_
      exact fun b hb => hlt b (List.mem_of_mem_take hb)
    have h2 := ih (bs.drop w) (by simp; omega)
      (fun b hb => hlt b (List.mem_of_mem_drop hb))
    have hcons : ∀ (x : Nat) (xs : List Nat),
        encNats w (x :: xs) = leBytes w x ++ encNats w xs := fun _ _ => rfl
    simp only [decNats, hcons, h1]
    rw [h2, hsucc, List.take_add]

theorem decI_encI (w : Nat) (hw : 1 ≤ w) (v : Int)
    (hlo : -(256 ^ w / 2 : Nat) ≤ v) (hhi : v < (256 ^ w / 2 : Nat)) :
    decI w (encI w v) = v := by
  have hpow : (0 : Int) < (256 ^ w : Nat) := by positivity
  have hhalf : (256 ^ w / 2 : Nat) * 2 = 256 ^ w := by
    have : 256 ^ w = 256 ^ (w - 1) * 256 := by
      conv_lhs => rw [show w = (w - 1) + 1 by omega]
      ring
    omega
  have hmod : (0 : Int) ≤ v % (256 ^ w : Nat) :=
    Int.emod_nonneg v (by omega)
  have hmodlt : v % (256 ^ w : Nat) < (256 ^ w : Nat) :=
    Int.emod_lt_of_pos v hpow
  have htn : ((v % (256 ^ w : Nat)).toNat : Int) = v % (256 ^ w : Nat) :=
    Int.toNat_of_nonneg hmod
  have htlt : (v % (256 ^ w : Nat)).toNat < 256 ^ w := by omega
  simp only [decI, encI, List.take_of_length_le (le_of_eq (leBytes_length _ _)),
    fromLe_leBytes w _ htlt]
  rcases le_or_lt 0 v with hv | hv
  · have hself : v % (256 ^ w : Nat) = v := Int.emod_eq_of_lt hv (by omega)
    rw [hself] at htn ⊢
    rw [if_pos (by omega)]
    omega
  · have hshift : v % (256 ^ w : Nat) = v + (256 ^ w : Nat) := by
      have h1 : (v + (256 ^ w : Nat)) % (256 ^ w : Nat) = v % (256 ^ w : Nat) :=
        Int.add_mul_emod_self_left (a := v) (b := ((256 ^ w : Nat) : Int)) (c := 1) ▸
          (by rw [mul_one])
      have h2 : (v + (256 ^ w : Nat)) % (256 ^ w : Nat) = v + (256 ^ w : Nat) :=
        Int.emod_eq_of_lt (by omega) (by omega)
      omega
    rw [hshift] at htn ⊢
    rw [if_neg (by omega), htn]
    ring

theorem encI_decI (w : Nat) (bs : List Nat) (hlen : bs.length = w)
    (hlt : ∀ b ∈ bs, b < 256) : encI w (decI w bs) = bs := by
  have htk : bs.take w = bs := List.take_of_length_le (le_of_eq hlen)
  have hfl : fromLe bs < 256 ^ w := hlen ▸ fromLe_lt bs hlt
  have hkey : decI w bs % (256 ^ w : Nat) = (fromLe bs : Int) := by
    simp only [decI, htk]
    split
    · exact Int.emod_eq_of_lt (by positivity) (by exact_mod_cast hfl)
    · rw [Int.sub_emod, Int.emod_self, sub_zero, Int.emod_emod_of_dvd _ dvd_rfl]
      exact Int.emod_eq_of_lt (by positivity) (by exact_mod_cast hfl)
  simp only [encI, hkey, Int.toNat_natCast]
  exact leBytes_fromLe w bs hlen hlt

/-! ## GPT data structures (`quoin-gpt`: `range.rs`, `entry.rs`, `header.rs`)

All three are `codec!` structs: encoding is field encodings concatenated in
declaration order; decoding reads the fields back in order.  `u64` fields are
`Nat` (bounds carried in well-formedness predicates), byte/`u16` arrays are
`List Nat`. -/

/-- `Range`: a pair of inclusive block indices (`src/quoin-gpt/src/range.rs`). -/
structure Range where
  first : Nat
  last : Nat
deriving Repr, DecidableEq

/-- `Range::includes`. -/
def Range.includes (r : Range) (block : Nat) : Bool :=
  block ≥ r.first && block ≤ r.last

/-- `Range::contains`. -/
def Range.contains (r : Range) (range : Range) : Bool :=
  r.includes range.first && r.includes range.last

/-- `Range::overlaps`. -/
def Range.overlaps (r : Range) (range : Range) : Bool :=
  r.includes range.first || r.includes range.last

/-- `Range` encoding: two little-endian `u64`s. -/
def encRange (r : Range) : List Nat := leBytes 8 r.first ++ leBytes 8 r.last

/-- `Range` decoding. -/
def decRange (bs : List Nat) : Range :=
  { first := fromLe (bs.take 8), last := fromLe ((bs.drop 8).take 8) }

def Range.WF (r : Range) : Prop := r.first < 2 ^ 64 ∧ r.last < 2 ^ 64

/-- `Entry`: one 128-byte partition descriptor (`src/quoin-gpt/src/entry.rs`). -/
structure Entry where
  kind : List Nat
  guid : List Nat
  data : Range
  attr : Nat
  name : List Nat
deriving Repr, DecidableEq

/-- `Entry::EMPTY`: the all-zero type GUID. -/
def Entry.EMPTY : List Nat := List.replicate 16 0

/-- `Entry::SIZE = 128`. -/
def Entry.SIZE : Nat := 128

/-- `Entry` encoding: kind, guid, data range, attributes, then the name as 36
little-endian `u16`s. -/
def encEntry (e : Entry) : List Nat :=
  encNats 1 e.kind ++ encNats 1 e.guid ++ encRange e.data ++ leBytes 8 e.attr ++
    encNats 2 e.name

/-- `Entry` decoding at the declared offsets. -/
def decEntry (bs : List Nat) : Entry :=
  { kind := decNats 1 16 bs
    guid := decNats 1 16 (bs.drop 16)
    data := decRange (bs.drop 32)
    attr := fromLe ((bs.drop 48).take 8)
    name := decNats 2 36 (bs.drop 56) }

def Entry.WF (e : Entry) : Prop :=
  e.kind.length = 16 ∧ (∀ b ∈ e.kind, b < 256) ∧
  e.guid.length = 16 ∧ (∀ b ∈ e.guid, b < 256) ∧
  e.data.WF ∧ e.attr < 2 ^ 64 ∧
  e.name.length = 36 ∧ (∀ b ∈ e.name, b < 2 ^ 16)

/-- `Header`: the 92-byte GPT header (`src/quoin-gpt/src/header.rs`). -/
structure Header where
  signature : List Nat
  revision : List Nat
  size : Nat
  crc32 : Nat
  reserved : Nat
  this_lba : Nat
  other_lba : Nat
  usable : Range
  guid : List Nat
  elba : Nat
  ecount : Nat
  esize : Nat
  ecrc32 : Nat
deriving Repr, DecidableEq

/-- `Header::SIGNATURE = *b"EFI PART"`. -/
def Header.SIGNATURE : List Nat := [69, 70, 73, 32, 80, 65, 82, 84]

/-- `Header::REVISION = [0, 0, 1, 0]`. -/
def Header.REVISION : List Nat := [0, 0, 1, 0]

/-- `Header::SIZE = 92`. -/
def Header.SIZE : Nat := 92

/-- `Header` encoding: the thirteen fields concatenated in declaration order
(92 bytes). -/
def encHeader (h : Header) : List Nat :=
  encNats 1 h.signature ++ encNats 1 h.revision ++ leBytes 4 h.size ++
    leBytes 4 h.crc32 ++ leBytes 4 h.reserved ++ leBytes 8 h.this_lba ++
    leBytes 8 h.other_lba ++ encRange h.usable ++ encNats 1 h.guid ++
    leBytes 8 h.elba ++ leBytes 4 h.ecount ++ leBytes 4 h.esize ++
    leBytes 4 h.ecrc32

/-- `Header` decoding at the declared offsets. -/
def decHeader (bs : List Nat) : Header :=
  { signature := decNats 1 8 bs
    revision := decNats 1 4 (bs.drop 8)
    size := fromLe ((bs.drop 12).take 4)
    crc32 := fromLe ((bs.drop 16).take 4)
    reserved := fromLe ((bs.drop 20).take 4)
    this_lba := fromLe ((bs.drop 24).take 8)
    other_lba := fromLe ((bs.drop 32).take 8)
    usable := decRange (bs.drop 40)
    guid := decNats 1 16 (bs.drop 56)
    elba := fromLe ((bs.drop 72).take 8)
    ecount := fromLe ((bs.drop 80).take 4)
    esize := fromLe ((bs.drop 84).take 4)
    ecrc32 := fromLe ((bs.drop 88).take 4) }

def Header.WF (h : Header) : Prop :=
  h.signature.length = 8 ∧ (∀ b ∈ h.signature, b < 256) ∧
  h.revision.length = 4 ∧ (∀ b ∈ h.revision, b < 256) ∧
  h.size < 2 ^ 32 ∧ h.crc32 < 2 ^ 32 ∧ h.reserved < 2 ^ 32 ∧
  h.this_lba < 2 ^ 64 ∧ h.other_lba < 2 ^ 64 ∧ h.usable.WF ∧
  h.guid.length = 16 ∧ (∀ b ∈ h.guid, b < 256) ∧
  h.elba < 2 ^ 64 ∧ h.ecount < 2 ^ 32 ∧ h.esize < 2 ^ 32 ∧ h.ecrc32 < 2 ^ 32

theorem encRange_length (r : Range) : (encRange r).length = 16 := by
  simp [encRange, leBytes_length]

theorem encEntry_length (e : Entry) (he : e.WF) : (encEntry e).length = 128 := by
  obtain ⟨h1, _, h2, _, _, _, h3, _⟩ := he
  simp [encEntry, encNats_length, encRange_length, leBytes_length, h1, h2, h3]

theorem encHeader_length (h : Header) (hw : h.WF) : (encHeader h).length = 92 := by
  obtain ⟨h1, _, h2, _, _, _, _, _, _, _, h3, _⟩ := hw
  simp [encHeader, encNats_length, encRange_length, leBytes_length, h1, h2, h3]

theorem decRange_encRange_append (r : Range) (rest : List Nat) (hr : r.WF) :
    decRange (encRange r ++ rest) = r := by
  obtain ⟨h1, h2⟩ := hr
  have l1 : (leBytes 8 r.first).length = 8 := leBytes_length _ _
  have l2 : (leBytes 8 r.last).length = 8 := leBytes_length _ _
  have e1 : 2 ^ 64 = 256 ^ 8 := by norm_num
  simp only [decRange, encRange, List.append_assoc]
  rw [List.take_append_of_le_length (by omega), List.take_of_length_le (by omega),
    List.drop_append_of_le_length (by omega), List.drop_of_length_le (by omega),
    List.nil_append, List.take_append_of_le_length (by omega),
    List.take_of_length_le (by omega)]
  rw [fromLe_leBytes 8 _ (by omega), fromLe_leBytes 8 _ (by omega)]

theorem drop_append_len {α : Type} (a b : List α) {n : Nat} (h : a.length = n) :
    (a ++ b).drop n = b := by
  rw [List.drop_append_of_le_length (by omega), List.drop_of_length_le (by omega),
    List.nil_append]

theorem take_append_len {α : Type} (a b : List α) {n : Nat} (h : a.length = n) :
    (a ++ b).take n = a := by
  rw [List.take_append_of_le_length (by omega), List.take_of_length_le (by omega)]

theorem decEntry_encEntry_append (e : Entry) (rest : List Nat) (he : e.WF) :
    decEntry (encEntry e ++ rest) = e := by
  obtain ⟨hk, hkb, hg, hgb, hd, ha, hn, hnb⟩ := he
  have lk : (encNats 1 e.kind).length = 16 := by simp [encNats_length, hk]
  have lg : (encNats 1 e.guid).length = 16 := by simp [encNats_length, hg]
  have lr : (encRange e.data).length = 16 := encRange_length _
  have la : (leBytes 8 e.attr).length = 8 := leBytes_length _ _
  simp only [encEntry, List.append_assoc]
  have d16 : ((encNats 1 e.kind ++ (encNats 1 e.guid ++ (encRange e.data ++
      (leBytes 8 e.attr ++ (encNats 2 e.name ++ rest))))).drop 16) =
      encNats 1 e.guid ++ (encRange e.data ++ (leBytes 8 e.attr ++
        (encNats 2 e.name ++ rest))) := drop_append_len _ _ lk
  have d32 : ((encNats 1 e.kind ++ (encNats 1 e.guid ++ (encRange e.data ++
      (leBytes 8 e.attr ++ (encNats 2 e.name ++ rest))))).drop 32) =
      encRange e.data ++ (leBytes 8 e.attr ++ (encNats 2 e.name ++ rest)) := by
    rw [show (32 : Nat) = 16 + 16 by norm_num, ← List.drop_drop, d16]
    exact drop_append_len _ _ lg
  have d48 : ((encNats 1 e.kind ++ (encNats 1 e.guid ++ (encRange e.data ++
      (leBytes 8 e.attr ++ (encNats 2 e.name ++ rest))))).drop 48) =
      leBytes 8 e.attr ++ (encNats 2 e.name ++ rest) := by
    rw [show (48 : Nat) = 32 + 16 by norm_num, ← List.drop_drop, d32]
    exact drop_append_len _ _ lr
  have d56 : ((encNats 1 e.kind ++ (encNats 1 e.guid ++ (encRange e.data ++
      (leBytes 8 e.attr ++ (encNats 2 e.name ++ rest))))).drop 56) =
      encNats 2 e.name ++ rest := by
    rw [show (56 : Nat) = 48 + 8 by norm_num, ← List.drop_drop, d48]
    exact drop_append_len _ _ la
  simp only [decEntry, d16, d32, d48, d56]
  have hkind : decNats 1 16 (encNats 1 e.kind ++ (encNats 1 e.guid ++
      (encRange e.data ++ (leBytes 8 e.attr ++ (encNats 2 e.name ++ rest))))) =
      e.kind := by
    rw [show (16 : Nat) = e.kind.length from hk.symm]
    exact decNats_encNats 1 _ _ (by simpa using hkb)
  have hguid : decNats 1 16 (encNats 1 e.guid ++ (encRange e.data ++
      (leBytes 8 e.attr ++ (encNats 2 e.name ++ rest)))) = e.guid := by
    rw [show (16 : Nat) = e.guid.length from hg.symm]
    exact decNats_encNats 1 _ _ (by simpa using hgb)
  have hdata : decRange (encRange e.data ++ (leBytes 8 e.attr ++
      (encNats 2 e.name ++ rest))) = e.data := decRange_encRange_append _ _ hd
  have hattr : fromLe ((leBytes 8 e.attr ++ (encNats 2 e.name ++ rest)).take 8) =
      e.attr := by
    rw [take_append_len _ _ la, fromLe_leBytes 8 _ (by norm_num at ha ⊢; omega)]
  have hname : decNats 2 36 (encNats 2 e.name ++ rest) = e.name := by
    rw [show (36 : Nat) = e.name.length from hn.symm]
    exact decNats_encNats 2 _ _ (by norm_num at hnb ⊢; exact hnb)
  rw [hkind, hguid, hdata, hattr, hname]

theorem decHeader_encHeader_append (h : Header) (rest : List Nat) (hw : h.WF) :
    decHeader (encHeader h ++ rest) = h := by
  obtain ⟨l1, b1, l2, b2, hsize, hcrc, hres, hthis, hoth, husable, l3, b3, helba, hec, hes, hecrc⟩ := hw
  have q1 : (encNats 1 h.signature).length = 8 := by simp [encNats_length, l1]
  have q2 : (encNats 1 h.revision).length = 4 := by simp [encNats_length, l2]
  have q3 : (encNats 1 h.guid).length = 16 := by simp [encNats_length, l3]
  have qr : (encRange h.usable).length = 16 := encRange_length _
  simp only [encHeader, List.append_assoc]
  have d8 : (encNats 1 h.signature ++ (encNats 1 h.revision ++ (leBytes 4 h.size ++ (leBytes 4 h.crc32 ++ (leBytes 4 h.reserved ++ (leBytes 8 h.this_lba ++ (leBytes 8 h.other_lba ++ (encRange h.usable ++ (encNats 1 h.guid ++ (leBytes 8 h.elba ++ (leBytes 4 h.ecount ++ (leBytes 4 h.esize ++ (leBytes 4 h.ecrc32 ++ (rest)))))))))))))).drop 8 =
      encNats 1 h.revision ++ (leBytes 4 h.size ++ (leBytes 4 h.crc32 ++ (leBytes 4 h.reserved ++ (leBytes 8 h.this_lba ++ (leBytes 8 h.other_lba ++ (encRange h.usable ++ (encNats 1 h.guid ++ (leBytes 8 h.elba ++ (leBytes 4 h.ecount ++ (leBytes 4 h.esize ++ (leBytes 4 h.ecrc32 ++ (rest)))))))))))) := by
    exact drop_append_len _ _ q1
  have d12 : (encNats 1 h.signature ++ (encNats 1 h.revision ++ (leBytes 4 h.size ++ (leBytes 4 h.crc32 ++ (leBytes 4 h.reserved ++ (leBytes 8 h.this_lba ++ (leBytes 8 h.other_lba ++ (encRange h.usable ++ (encNats 1 h.guid ++ (leBytes 8 h.elba ++ (leBytes 4 h.ecount ++ (leBytes 4 h.esize ++ (leBytes 4 h.ecrc32 ++ (rest)))))))))))))).drop 12 =
      leBytes 4 h.size ++ (leBytes 4 h.crc32 ++ (leBytes 4 h.reserved ++ (leBytes 8 h.this_lba ++ (leBytes 8 h.other_lba ++ (encRange h.usable ++ (encNats 1 h.guid ++ (leBytes 8 h.elba ++ (leBytes 4 h.ecount ++ (leBytes 4 h.esize ++ (leBytes 4 h.ecrc32 ++ (rest))))))))))) := by
    rw [show (12 : Nat) = 8 + 4 by norm_num, ← List.drop_drop, d8]
    exact drop_append_len _ _ q2
  have d16 : (encNats 1 h.signature ++ (encNats 1 h.revision ++ (leBytes 4 h.size ++ (leBytes 4 h.crc32 ++ (leBytes 4 h.reserved ++ (leBytes 8 h.this_lba ++ (leBytes 8 h.other_lba ++ (encRange h.usable ++ (encNats 1 h.guid ++ (leBytes 8 h.elba ++ (leBytes 4 h.ecount ++ (leBytes 4 h.esize ++ (leBytes 4 h.ecrc32 ++ (rest)))))))))))))).drop 16 =
      leBytes 4 h.crc32 ++ (leBytes 4 h.reserved ++ (leBytes 8 h.this_lba ++ (leBytes 8 h.other_lba ++ (encRange h.usable ++ (encNats 1 h.guid ++ (leBytes 8 h.elba ++ (leBytes 4 h.ecount ++ (leBytes 4 h.esize ++ (leBytes 4 h.ecrc32 ++ (rest)))))))))) := by
    rw [show (16 : Nat) = 12 + 4 by norm_num, ← List.drop_drop, d12]
    exact drop_append_len _ _ (leBytes_length 4 _)
  have d20 : (encNats 1 h.signature ++ (encNats 1 h.revision ++ (leBytes 4 h.size ++ (leBytes 4 h.crc32 ++ (leBytes 4 h.reserved ++ (leBytes 8 h.this_lba ++ (leBytes 8 h.other_lba ++ (encRange h.usable ++ (encNats 1 h.guid ++ (leBytes 8 h.elba ++ (leBytes 4 h.ecount ++ (leBytes 4 h.esize ++ (leBytes 4 h.ecrc32 ++ (rest)))))))))))))).drop 20 =
      leBytes 4 h.reserved ++ (leBytes 8 h.this_lba ++ (leBytes 8 h.other_lba ++ (encRange h.usable ++ (encNats 1 h.guid ++ (leBytes 8 h.elba ++ (leBytes 4 h.ecount ++ (leBytes 4 h.esize ++ (leBytes 4 h.ecrc32 ++ (rest))))))))) := by
    rw [show (20 : Nat) = 16 + 4 by norm_num, ← List.drop_drop, d16]
    exact drop_append_len _ _ (leBytes_length 4 _)
  have d24 : (encNats 1 h.signature ++ (encNats 1 h.revision ++ (leBytes 4 h.size ++ (leBytes 4 h.crc32 ++ (leBytes 4 h.reserved ++ (leBytes 8 h.this_lba ++ (leBytes 8 h.other_lba ++ (encRange h.usable ++ (encNats 1 h.guid ++ (leBytes 8 h.elba ++ (leBytes 4 h.ecount ++ (leBytes 4 h.esize ++ (leBytes 4 h.ecrc32 ++ (rest)))))))))))))).drop 24 =
      leBytes 8 h.this_lba ++ (leBytes 8 h.other_lba ++ (encRange h.usable ++ (encNats 1 h.guid ++ (leBytes 8 h.elba ++ (leBytes 4 h.ecount ++ (leBytes 4 h.esize ++ (leBytes 4 h.ecrc32 ++ (rest)))))))) := by
    rw [show (24 : Nat) = 20 + 4 by norm_num, ← List.drop_drop, d20]
    exact drop_append_len _ _ (leBytes_length 4 _)
  have d32 : (encNats 1 h.signature ++ (encNats 1 h.revision ++ (leBytes 4 h.size ++ (leBytes 4 h.crc32 ++ (leBytes 4 h.reserved ++ (leBytes 8 h.this_lba ++ (leBytes 8 h.other_lba ++ (encRange h.usable ++ (encNats 1 h.guid ++ (leBytes 8 h.elba ++ (leBytes 4 h.ecount ++ (leBytes 4 h.esize ++ (leBytes 4 h.ecrc32 ++ (rest)))))))))))))).drop 32 =
      leBytes 8 h.other_lba ++ (encRange h.usable ++ (encNats 1 h.guid ++ (leBytes 8 h.elba ++ (leBytes 4 h.ecount ++ (leBytes 4 h.esize ++ (leBytes 4 h.ecrc32 ++ (rest))))))) := by
    rw [show (32 : Nat) = 24 + 8 by norm_num, ← List.drop_drop, d24]
    exact drop_append_len _ _ (leBytes_length 8 _)
  have d40 : (encNats 1 h.signature ++ (encNats 1 h.revision ++ (leBytes 4 h.size ++ (leBytes 4 h.crc32 ++ (leBytes 4 h.reserved ++ (leBytes 8 h.this_lba ++ (leBytes 8 h.other_lba ++ (encRange h.usable ++ (encNats 1 h.guid ++ (leBytes 8 h.elba ++ (leBytes 4 h.ecount ++ (leBytes 4 h.esize ++ (leBytes 4 h.ecrc32 ++ (rest)))))))))))))).drop 40 =
      encRange h.usable ++ (encNats 1 h.guid ++ (leBytes 8 h.elba ++ (leBytes 4 h.ecount ++ (leBytes 4 h.esize ++ (leBytes 4 h.ecrc32 ++ (rest)))))) := by
    rw [show (40 : Nat) = 32 + 8 by norm_num, ← List.drop_drop, d32]
    exact drop_append_len _ _ (leBytes_length 8 _)
  have d56 : (encNats 1 h.signature ++ (encNats 1 h.revision ++ (leBytes 4 h.size ++ (leBytes 4 h.crc32 ++ (leBytes 4 h.reserved ++ (leBytes 8 h.this_lba ++ (leBytes 8 h.other_lba ++ (encRange h.usable ++ (encNats 1 h.guid ++ (leBytes 8 h.elba ++ (leBytes 4 h.ecount ++ (leBytes 4 h.esize ++ (leBytes 4 h.ecrc32 ++ (rest)))))))))))))).drop 56 =
      encNats 1 h.guid ++ (leBytes 8 h.elba ++ (leBytes 4 h.ecount ++ (leBytes 4 h.esize ++ (leBytes 4 h.ecrc32 ++ (rest))))) := by
    rw [show (56 : Nat) = 40 + 16 by norm_num, ← List.drop_drop, d40]
    exact drop_append_len _ _ qr
  have d72 : (encNats 1 h.signature ++ (encNats 1 h.revision ++ (leBytes 4 h.size ++ (leBytes 4 h.crc32 ++ (leBytes 4 h.reserved ++ (leBytes 8 h.this_lba ++ (leBytes 8 h.other_lba ++ (encRange h.usable ++ (encNats 1 h.guid ++ (leBytes 8 h.elba ++ (leBytes 4 h.ecount ++ (leBytes 4 h.esize ++ (leBytes 4 h.ecrc32 ++ (rest)))))))))))))).drop 72 =
      leBytes 8 h.elba ++ (leBytes 4 h.ecount ++ (leBytes 4 h.esize ++ (leBytes 4 h.ecrc32 ++ (rest)))) := by
    rw [show (72 : Nat) = 56 + 16 by norm_num, ← List.drop_drop, d56]
    exact drop_append_len _ _ q3
  have d80 : (encNats 1 h.signature ++ (encNats 1 h.revision ++ (leBytes 4 h.size ++ (leBytes 4 h.crc32 ++ (leBytes 4 h.reserved ++ (leBytes 8 h.this_lba ++ (leBytes 8 h.other_lba ++ (encRange h.usable ++ (encNats 1 h.guid ++ (leBytes 8 h.elba ++ (leBytes 4 h.ecount ++ (leBytes 4 h.esize ++ (leBytes 4 h.ecrc32 ++ (rest)))))))))))))).drop 80 =
      leBytes 4 h.ecount ++ (leBytes 4 h.esize ++ (leBytes 4 h.ecrc32 ++ (rest))) := by
    rw [show (80 : Nat) = 72 + 8 by norm_num, ← List.drop_drop, d72]
    exact drop_append_len _ _ (leBytes_length 8 _)
  have d84 : (encNats 1 h.signature ++ (encNats 1 h.revision ++ (leBytes 4 h.size ++ (leBytes 4 h.crc32 ++ (leBytes 4 h.reserved ++ (leBytes 8 h.this_lba ++ (leBytes 8 h.other_lba ++ (encRange h.usable ++ (encNats 1 h.guid ++ (leBytes 8 h.elba ++ (leBytes 4 h.ecount ++ (leBytes 4 h.esize ++ (leBytes 4 h.ecrc32 ++ (rest)))))))))))))).drop 84 =
      leBytes 4 h.esize ++ (leBytes 4 h.ecrc32 ++ (rest)) := by
    rw [show (84 : Nat) = 80 + 4 by norm_num, ← List.drop_drop, d80]
    exact drop_append_len _ _ (leBytes_length 4 _)
  have d88 : (encNats 1 h.signature ++ (encNats 1 h.revision ++ (leBytes 4 h.size ++ (leBytes 4 h.crc32 ++ (leBytes 4 h.reserved ++ (leBytes 8 h.this_lba ++ (leBytes 8 h.other_lba ++ (encRange h.usable ++ (encNats 1 h.guid ++ (leBytes 8 h.elba ++ (leBytes 4 h.ecount ++ (leBytes 4 h.esize ++ (leBytes 4 h.ecrc32 ++ (rest)))))))))))))).drop 88 =
      leBytes 4 h.ecrc32 ++ (rest) := by
    rw [show (88 : Nat) = 84 + 4 by norm_num, ← List.drop_drop, d84]
    exact drop_append_len _ _ (leBytes_length 4 _)
  simp only [decHeader, d8, d12, d16, d20, d24, d32, d40, d56, d72, d80, d84, d88]
  have f_signature : decNats 1 8 (encNats 1 h.signature ++ (encNats 1 h.revision ++ (leBytes 4 h.size ++ (leBytes 4 h.crc32 ++ (leBytes 4 h.reserved ++ (leBytes 8 h.this_lba ++ (leBytes 8 h.other_lba ++ (encRange h.usable ++ (encNats 1 h.guid ++ (leBytes 8 h.elba ++ (leBytes 4 h.ecount ++ (leBytes 4 h.esize ++ (leBytes 4 h.ecrc32 ++ (rest)))))))))))))) = h.signature := by
    rw [show (8 : Nat) = h.signature.length from l1.symm]
    exact decNats_encNats 1 _ _ (by simpa using b1)
  have f_revision : decNats 1 4 (encNats 1 h.revision ++ (leBytes 4 h.size ++ (leBytes 4 h.crc32 ++ (leBytes 4 h.reserved ++ (leBytes 8 h.this_lba ++ (leBytes 8 h.other_lba ++ (encRange h.usable ++ (encNats 1 h.guid ++ (leBytes 8 h.elba ++ (leBytes 4 h.ecount ++ (leBytes 4 h.esize ++ (leBytes 4 h.ecrc32 ++ (rest))))))))))))) = h.revision := by
    rw [show (4 : Nat) = h.revision.length from l2.symm]
    exact decNats_encNats 1 _ _ (by simpa using b2)
  have f_size : fromLe ((leBytes 4 h.size ++ (leBytes 4 h.crc32 ++ (leBytes 4 h.reserved ++ (leBytes 8 h.this_lba ++ (leBytes 8 h.other_lba ++ (encRange h.usable ++ (encNats 1 h.guid ++ (leBytes 8 h.elba ++ (leBytes 4 h.ecount ++ (leBytes 4 h.esize ++ (leBytes 4 h.ecrc32 ++ (rest)))))))))))).take 4) = h.size := by
    rw [take_append_len _ _ (leBytes_length 4 _)]
    exact fromLe_leBytes 4 _ (by norm_num at hsize ⊢; omega)
  have f_crc32 : fromLe ((leBytes 4 h.crc32 ++ (leBytes 4 h.reserved ++ (leBytes 8 h.this_lba ++ (leBytes 8 h.other_lba ++ (encRange h.usable ++ (encNats 1 h.guid ++ (leBytes 8 h.elba ++ (leBytes 4 h.ecount ++ (leBytes 4 h.esize ++ (leBytes 4 h.ecrc32 ++ (rest))))))))))).take 4) = h.crc32 := by
    rw [take_append_len _ _ (leBytes_length 4 _)]
    exact fromLe_leBytes 4 _ (by norm_num at hcrc ⊢; omega)
  have f_reserved : fromLe ((leBytes 4 h.reserved ++ (leBytes 8 h.this_lba ++ (leBytes 8 h.other_lba ++ (encRange h.usable ++ (encNats 1 h.guid ++ (leBytes 8 h.elba ++ (leBytes 4 h.ecount ++ (leBytes 4 h.esize ++ (leBytes 4 h.ecrc32 ++ (rest)))))))))).take 4) = h.reserved := by
    rw [take_append_len _ _ (leBytes_length 4 _)]
    exact fromLe_leBytes 4 _ (by norm_num at hres ⊢; omega)
  have f_this_lba : fromLe ((leBytes 8 h.this_lba ++ (leBytes 8 h.other_lba ++ (encRange h.usable ++ (encNats 1 h.guid ++ (leBytes 8 h.elba ++ (leBytes 4 h.ecount ++ (leBytes 4 h.esize ++ (leBytes 4 h.ecrc32 ++ (rest))))))))).take 8) = h.this_lba := by
    rw [take_append_len _ _ (leBytes_length 8 _)]
    exact fromLe_leBytes 8 _ (by norm_num at hthis ⊢; omega)
  have f_other_lba : fromLe ((leBytes 8 h.other_lba ++ (encRange h.usable ++ (encNats 1 h.guid ++ (leBytes 8 h.elba ++ (leBytes 4 h.ecount ++ (leBytes 4 h.esize ++ (leBytes 4 h.ecrc32 ++ (rest)))))))).take 8) = h.other_lba := by
    rw [take_append_len _ _ (leBytes_length 8 _)]
    exact fromLe_leBytes 8 _ (by norm_num at hoth ⊢; omega)
  have f_usable : decRange (encRange h.usable ++ (encNats 1 h.guid ++ (leBytes 8 h.elba ++ (leBytes 4 h.ecount ++ (leBytes 4 h.esize ++ (leBytes 4 h.ecrc32 ++ (rest))))))) = h.usable :=
    decRange_encRange_append _ _ husable
  have f_guid : decNats 1 16 (encNats 1 h.guid ++ (leBytes 8 h.elba ++ (leBytes 4 h.ecount ++ (leBytes 4 h.esize ++ (leBytes 4 h.ecrc32 ++ (rest)))))) = h.guid := by
    rw [show (16 : Nat) = h.guid.length from l3.symm]
    exact decNats_encNats 1 _ _ (by simpa using b3)
  have f_elba : fromLe ((leBytes 8 h.elba ++ (leBytes 4 h.ecount ++ (leBytes 4 h.esize ++ (leBytes 4 h.ecrc32 ++ (rest))))).take 8) = h.elba := by
    rw [take_append_len _ _ (leBytes_length 8 _)]
    exact fromLe_leBytes 8 _ (by norm_num at helba ⊢; omega)
  have f_ecount : fromLe ((leBytes 4 h.ecount ++ (leBytes 4 h.esize ++ (leBytes 4 h.ecrc32 ++ (rest)))).take 4) = h.ecount := by
    rw [take_append_len _ _ (leBytes_length 4 _)]
    exact fromLe_leBytes 4 _ (by norm_num at hec ⊢; omega)
  have f_esize : fromLe ((leBytes 4 h.esize ++ (leBytes 4 h.ecrc32 ++ (rest))).take 4) = h.esize := by
    rw [take_append_len _ _ (leBytes_length 4 _)]
    exact fromLe_leBytes 4 _ (by norm_num at hes ⊢; omega)
  have f_ecrc32 : fromLe ((leBytes 4 h.ecrc32 ++ (rest)).take 4) = h.ecrc32 := by
    rw [take_append_len _ _ (leBytes_length 4 _)]
    exact fromLe_leBytes 4 _ (by norm_num at hecrc ⊢; omega)
  rw [f_signature, f_revision, f_size, f_crc32, f_reserved, f_this_lba, f_other_lba, f_usable, f_guid, f_elba, f_ecount, f_esize, f_ecrc32]

theorem take_glue {α : Type} (bs : List α) (o w r : Nat) :
    (bs.drop o).take w ++ (bs.drop (o + w)).take r = (bs.drop o).take (w + r) := by
  rw [List.take_add, List.drop_drop]

theorem encRange_decRange (bs : List Nat) (hlen : 16 ≤ bs.length)
    (hlt : ∀ b ∈ bs, b < 256) : encRange (decRange bs) = bs.take 16 := by
  have hmem : ∀ (o w : Nat), ∀ b ∈ (bs.drop o).take w, b < 256 := fun o w b hb =>
    hlt b (List.mem_of_mem_drop (List.mem_of_mem_take hb))
  have hmemd : ∀ (o : Nat), ∀ b ∈ bs.drop o, b < 256 := fun o b hb =>
    hlt b (List.mem_of_mem_drop hb)
  have hlen2 : ∀ (o w : Nat), o + w ≤ 16 → ((bs.drop o).take w).length = w := by
    intro o w hw
    simp only [List.length_take, List.length_drop]
    omega
  simp only [encRange, decRange]
  have f0 : leBytes 8 (fromLe (bs.take 8)) = bs.take 8 := by
    refine leBytes_fromLe 8 _ ?_ (fun b hb => hlt b (List.mem_of_mem_take hb))
    simp only [List.length_take]
    omega
  have f1 : leBytes 8 (fromLe ((bs.drop 8).take 8)) = (bs.drop 8).take 8 :=
    leBytes_fromLe 8 _ (hlen2 8 8 (by norm_num)) (hmem 8 8)
  rw [f0, f1]
  have s0 : (bs.drop 0).take 8 ++ (bs.drop 8).take 8 = (bs.drop 0).take 16 := by
    have e1 := take_glue bs 0 8 8
    norm_num at e1
    exact e1
  have g0 : bs.take 8 = (bs.drop 0).take 8 := by rw [List.drop_zero]
  rw [g0, s0, List.drop_zero]

theorem encEntry_decEntry (bs : List Nat) (hlen : 128 ≤ bs.length)
    (hlt : ∀ b ∈ bs, b < 256) : encEntry (decEntry bs) = bs.take 128 := by
  have hmem : ∀ (o w : Nat), ∀ b ∈ (bs.drop o).take w, b < 256 := fun o w b hb =>
    hlt b (List.mem_of_mem_drop (List.mem_of_mem_take hb))
  have hmemd : ∀ (o : Nat), ∀ b ∈ bs.drop o, b < 256 := fun o b hb =>
    hlt b (List.mem_of_mem_drop hb)
  have hlen2 : ∀ (o w : Nat), o + w ≤ 128 → ((bs.drop o).take w).length = w := by
    intro o w hw
    simp only [List.length_take, List.length_drop]
    omega
  simp only [encEntry, decEntry, encRange, decRange]
  rw [List.drop_drop]
  norm_num
  have f0 : encNats 1 (decNats 1 16 bs) = bs.take 16 :=
    (encNats_decNats 1 16 bs (by omega) hlt).trans (by norm_num)
  have f1 : encNats 1 (decNats 1 16 (bs.drop 16)) = (bs.drop 16).take 16 :=
    (encNats_decNats 1 16 (bs.drop 16) (by simp only [List.length_drop]; omega)
      (hmemd 16)).trans (by norm_num)
  have f2 : leBytes 8 (fromLe ((bs.drop 32).take 8)) = (bs.drop 32).take 8 :=
    leBytes_fromLe 8 _ (hlen2 32 8 (by norm_num)) (hmem 32 8)
  have f3 : leBytes 8 (fromLe ((bs.drop 40).take 8)) = (bs.drop 40).take 8 :=
    leBytes_fromLe 8 _ (hlen2 40 8 (by norm_num)) (hmem 40 8)
  have f4 : leBytes 8 (fromLe ((bs.drop 48).take 8)) = (bs.drop 48).take 8 :=
    leBytes_fromLe 8 _ (hlen2 48 8 (by norm_num)) (hmem 48 8)
  have f5 : encNats 2 (decNats 2 36 (bs.drop 56)) = (bs.drop 56).take 72 :=
    (encNats_decNats 2 36 (bs.drop 56) (by simp only [List.length_drop]; omega)
      (hmemd 56)).trans (by norm_num)
  rw [f0, f1, f2, f3, f4, f5]
  have s0 : (bs.drop 48).take 8 ++ (bs.drop 56).take 72 = (bs.drop 48).take 80 := by
    have e1 := take_glue bs 48 8 72
    norm_num at e1
    exact e1
  have s1 : (bs.drop 40).take 8 ++ (bs.drop 48).take 80 = (bs.drop 40).take 88 := by
    have e1 := take_glue bs 40 8 80
    norm_num at e1
    exact e1
  have s2 : (bs.drop 32).take 8 ++ (bs.drop 40).take 88 = (bs.drop 32).take 96 := by
    have e1 := take_glue bs 32 8 88
    norm_num at e1
    exact e1
  have s3 : (bs.drop 16).take 16 ++ (bs.drop 32).take 96 = (bs.drop 16).take 112 := by
    have e1 := take_glue bs 16 16 96
    norm_num at e1
    exact e1
  have s4 : (bs.drop 0).take 16 ++ (bs.drop 16).take 112 = (bs.drop 0).take 128 := by
    have e1 := take_glue bs 0 16 112
    norm_num at e1
    exact e1
  have g0 : bs.take 16 = (bs.drop 0).take 16 := by rw [List.drop_zero]
  rw [g0, s0, s1, s2, s3, s4, List.drop_zero]

theorem encHeader_decHeader (bs : List Nat) (hlen : 92 ≤ bs.length)
    (hlt : ∀ b ∈ bs, b < 256) : encHeader (decHeader bs) = bs.take 92 := by
  have hmem : ∀ (o w : Nat), ∀ b ∈ (bs.drop o).take w, b < 256 := fun o w b hb =>
    hlt b (List.mem_of_mem_drop (List.mem_of_mem_take hb))
  have hmemd : ∀ (o : Nat), ∀ b ∈ bs.drop o, b < 256 := fun o b hb =>
    hlt b (List.mem_of_mem_drop hb)
  have hlen2 : ∀ (o w : Nat), o + w ≤ 92 → ((bs.drop o).take w).length = w := by
    intro o w hw
    simp only [List.length_take, List.length_drop]
    omega
  simp only [encHeader, decHeader, encRange, decRange]
  rw [List.drop_drop]
  norm_num
  have f0 : encNats 1 (decNats 1 8 bs) = bs.take 8 :=
    (encNats_decNats 1 8 bs (by omega) hlt).trans (by norm_num)
  have f1 : encNats 1 (decNats 1 4 (bs.drop 8)) = (bs.drop 8).take 4 :=
    (encNats_decNats 1 4 (bs.drop 8) (by simp only [List.length_drop]; omega)
      (hmemd 8)).trans (by norm_num)
  have f2 : leBytes 4 (fromLe ((bs.drop 12).take 4)) = (bs.drop 12).take 4 :=
    leBytes_fromLe 4 _ (hlen2 12 4 (by norm_num)) (hmem 12 4)
  have f3 : leBytes 4 (fromLe ((bs.drop 16).take 4)) = (bs.drop 16).take 4 :=
    leBytes_fromLe 4 _ (hlen2 16 4 (by norm_num)) (hmem 16 4)
  have f4 : leBytes 4 (fromLe ((bs.drop 20).take 4)) = (bs.drop 20).take 4 :=
    leBytes_fromLe 4 _ (hlen2 20 4 (by norm_num)) (hmem 20 4)
  have f5 : leBytes 8 (fromLe ((bs.drop 24).take 8)) = (bs.drop 24).take 8 :=
    leBytes_fromLe 8 _ (hlen2 24 8 (by norm_num)) (hmem 24 8)
  have f6 : leBytes 8 (fromLe ((bs.drop 32).take 8)) = (bs.drop 32).take 8 :=
    leBytes_fromLe 8 _ (hlen2 32 8 (by norm_num)) (hmem 32 8)
  have f7 : leBytes 8 (fromLe ((bs.drop 40).take 8)) = (bs.drop 40).take 8 :=
    leBytes_fromLe 8 _ (hlen2 40 8 (by norm_num)) (hmem 40 8)
  have f8 : leBytes 8 (fromLe ((bs.drop 48).take 8)) = (bs.drop 48).take 8 :=
    leBytes_fromLe 8 _ (hlen2 48 8 (by norm_num)) (hmem 48 8)
  have f9 : encNats 1 (decNats 1 16 (bs.drop 56)) = (bs.drop 56).take 16 :=
    (encNats_decNats 1 16 (bs.drop 56) (by simp only [List.length_drop]; omega)
      (hmemd 56)).trans (by norm_num)
  have f10 : leBytes 8 (fromLe ((bs.drop 72).take 8)) = (bs.drop 72).take 8 :=
    leBytes_fromLe 8 _ (hlen2 72 8 (by norm_num)) (hmem 72 8)
  have f11 : leBytes 4 (fromLe ((bs.drop 80).take 4)) = (bs.drop 80).take 4 :=
    leBytes_fromLe 4 _ (hlen2 80 4 (by norm_num)) (hmem 80 4)
  have f12 : leBytes 4 (fromLe ((bs.drop 84).take 4)) = (bs.drop 84).take 4 :=
    leBytes_fromLe 4 _ (hlen2 84 4 (by norm_num)) (hmem 84 4)
  have f13 : leBytes 4 (fromLe ((bs.drop 88).take 4)) = (bs.drop 88).take 4 :=
    leBytes_fromLe 4 _ (hlen2 88 4 (by norm_num)) (hmem 88 4)
  rw [f0, f1, f2, f3, f4, f5, f6, f7, f8, f9, f10, f11, f12, f13]
  have s0 : (bs.drop 84).take 4 ++ (bs.drop 88).take 4 = (bs.drop 84).take 8 := by
    have e1 := take_glue bs 84 4 4
    norm_num at e1
    exact e1
  have s1 : (bs.drop 80).take 4 ++ (bs.drop 84).take 8 = (bs.drop 80).take 12 := by
    have e1 := take_glue bs 80 4 8
    norm_num at e1
    exact e1
  have s2 : (bs.drop 72).take 8 ++ (bs.drop 80).take 12 = (bs.drop 72).take 20 := by
    have e1 := take_glue bs 72 8 12
    norm_num at e1
    exact e1
  have s3 : (bs.drop 56).take 16 ++ (bs.drop 72).take 20 = (bs.drop 56).take 36 := by
    have e1 := take_glue bs 56 16 20
    norm_num at e1
    exact e1
  have s4 : (bs.drop 48).take 8 ++ (bs.drop 56).take 36 = (bs.drop 48).take 44 := by
    have e1 := take_glue bs 48 8 36
    norm_num at e1
    exact e1
  have s5 : (bs.drop 40).take 8 ++ (bs.drop 48).take 44 = (bs.drop 40).take 52 := by
    have e1 := take_glue bs 40 8 44
    norm_num at e1
    exact e1
  have s6 : (bs.drop 32).take 8 ++ (bs.drop 40).take 52 = (bs.drop 32).take 60 := by
    have e1 := take_glue bs 32 8 52
    norm_num at e1
    exact e1
  have s7 : (bs.drop 24).take 8 ++ (bs.drop 32).take 60 = (bs.drop 24).take 68 := by
    have e1 := take_glue bs 24 8 60
    norm_num at e1
    exact e1
  have s8 : (bs.drop 20).take 4 ++ (bs.drop 24).take 68 = (bs.drop 20).take 72 := by
    have e1 := take_glue bs 20 4 68
    norm_num at e1
    exact e1
  have s9 : (bs.drop 16).take 4 ++ (bs.drop 20).take 72 = (bs.drop 16).take 76 := by
    have e1 := take_glue bs 16 4 72
    norm_num at e1
    exact e1
  have s10 : (bs.drop 12).take 4 ++ (bs.drop 16).take 76 = (bs.drop 12).take 80 := by
    have e1 := take_glue bs 12 4 76
    norm_num at e1
    exact e1
  have s11 : (bs.drop 8).take 4 ++ (bs.drop 12).take 80 = (bs.drop 8).take 84 := by
    have e1 := take_glue bs 8 4 80
    norm_num at e1
    exact e1
  have s12 : (bs.drop 0).take 8 ++ (bs.drop 8).take 84 = (bs.drop 0).take 92 := by
    have e1 := take_glue bs 0 8 84
    norm_num at e1
    exact e1
  have g0 : bs.take 8 = (bs.drop 0).take 8 := by rw [List.drop_zero]
  rw [g0, s0, s1, s2, s3, s4, s5, s6, s7, s8, s9, s10, s11, s12, List.drop_zero]

/-- C9.  Codec round-trip: for fixed-width little-endian integers (unsigned
and signed/two's-complement), fixed-size arrays of them, and the `codec!`
structs `Range`, `Entry` and `Header`, `decode (encode v) = v` for every
well-formed value, and `encode (decode bs) = bs` for every byte buffer of the
exact serialized length. -/
theorem C9_codec_roundtrip :
    (∀ w n, n < 256 ^ w → decU w (encU w n) = n) ∧
    (∀ w bs, bs.length = w → (∀ b ∈ bs, b < 256) → encU w (decU w bs) = bs) ∧
    (∀ (w : Nat) (v : Int), 1 ≤ w → -(256 ^ w / 2 : Nat) ≤ v →
      v < (256 ^ w / 2 : Nat) → decI w (encI w v) = v) ∧
    (∀ w bs, bs.length = w → (∀ b ∈ bs, b < 256) → encI w (decI w bs) = bs) ∧
    (∀ w xs, (∀ x ∈ xs, x < 256 ^ w) → decNats w xs.length (encNats w xs) = xs) ∧
    (∀ w n bs, bs.length = w * n → (∀ b ∈ bs, b < 256) →
      encNats w (decNats w n bs) = bs) ∧
    (∀ r : Range, r.WF → decRange (encRange r) = r) ∧
    (∀ bs, bs.length = 16 → (∀ b ∈ bs, b < 256) → encRange (decRange bs) = bs) ∧
    (∀ e : Entry, e.WF → decEntry (encEntry e) = e) ∧
    (∀ bs, bs.length = 128 → (∀ b ∈ bs, b < 256) → encEntry (decEntry bs) = bs) ∧
    (∀ h : Header, h.WF → decHeader (encHeader h) = h) ∧
    (∀ bs, bs.length = 92 → (∀ b ∈ bs, b < 256) → encHeader (decHeader bs) = bs) := by
  refine ⟨?_, ?_, ?_, ?_, ?_, ?_, ?_, ?_, ?_, ?_, ?_, ?_⟩
  · intro w n hn
    simp only [decU, encU, List.take_of_length_le (le_of_eq (leBytes_length w n))]
    exact fromLe_leBytes w n hn
  · intro w bs hlen hlt
    simp only [decU, encU, List.take_of_length_le (le_of_eq hlen)]
    exact leBytes_fromLe w bs hlen hlt
  · intro w v hw hlo hhi
    exact decI_encI w hw v hlo hhi
  · intro w bs hlen hlt
    exact encI_decI w bs hlen hlt
  · intro w xs hx
    have := decNats_encNats w xs [] hx
    simpa using this
  · intro w n bs hlen hlt
    have := encNats_decNats w n bs (le_of_eq hlen.symm) hlt
    rw [this, List.take_of_length_le (le_of_eq hlen)]
  · intro r hr
    have := decRange_encRange_append r [] hr
    simpa using this
  · intro bs hlen hlt
    rw [encRange_decRange bs (le_of_eq hlen.symm) hlt,
      List.take_of_length_le (le_of_eq hlen)]
  · intro e he
    have := decEntry_encEntry_append e [] he
    simpa using this
  · intro bs hlen hlt
    rw [encEntry_decEntry bs (le_of_eq hlen.symm) hlt,
      List.take_of_length_le (le_of_eq hlen)]
  · intro h hw
    have := decHeader_encHeader_append h [] hw
    simpa using this
  · intro bs hlen hlt
    rw [encHeader_decHeader bs (le_of_eq hlen.symm) hlt,
      List.take_of_length_le (le_of_eq hlen)]

/-- Witness for C9 at concrete inputs: a `u32`, a signed `i16`, and a 92-byte
header buffer. -/
theorem C9_codec_roundtrip_witness :
    decU 4 (encU 4 305419896) = 305419896 ∧
    decI 2 (encI 2 (-129)) = -129 ∧
    encHeader (decHeader (List.replicate 92 7)) = List.replicate 92 7 := by
  refine ⟨C9_codec_roundtrip.1 4 305419896 (by norm_num),
    C9_codec_roundtrip.2.2.1 2 (-129) (by norm_num) (by norm_num) (by norm_num),
    C9_codec_roundtrip.2.2.2.2.2.2.2.2.2.2.2 (List.replicate 92 7) (by simp) ?_⟩
  intro b hb
  have := List.eq_of_mem_replicate hb
  omega

/-! ## In-memory backing device (`quoin-memory`)

`Memory<SIZE, COUNT>` stores `COUNT` zero-initialized blocks.  Both `get` and
`set` assert `index <= COUNT as u64` and then index `self.0[index as usize]`;
a failed assertion and an out-of-bounds array index are both Rust panics,
modelled as `.panik`.  A panicking `set` leaves the stored blocks unchanged. -/

inductive PRes (α : Type) where
  | ok (val : α)
  | panik
deriving Repr, DecidableEq

/-- `Memory::get`: `assert!(index <= COUNT)`, then `self.0[index]`. -/
def Memory.get (COUNT : Nat) (blocks : List (List Nat)) (index : Nat) :
    PRes (List Nat) :=
  if index ≤ COUNT then
    match blocks.get? index with
    | some b => .ok b
    | none => .panik
  else .panik

/-- `Memory::set`: `assert!(index <= COUNT)`, then
`self.0[index].copy_from_slice(block)`. -/
def Memory.set (COUNT : Nat) (blocks : List (List Nat)) (index : Nat)
    (block : List Nat) : PRes Unit × List (List Nat) :=
  if index ≤ COUNT then
    if index < blocks.length then (.ok (), blocks.set index block)
    else (.panik, blocks)
  else (.panik, blocks)

/-- C8.  Every `Memory::get`/`Memory::set` with `index ≥ COUNT` panics — the
boundary `index = COUNT` passes the device's own `index <= COUNT` assertion
and then panics on the array index — and no such call returns block data or
modifies any stored block. -/
theorem C8_memory_out_of_bounds (COUNT : Nat) (blocks : List (List Nat))
    (index : Nat) (block : List Nat) (hlen : blocks.length = COUNT)
    (hidx : COUNT ≤ index) :
    Memory.get COUNT blocks index = .panik ∧
    Memory.set COUNT blocks index block = (.panik, blocks) := by
  constructor
  · simp only [Memory.get]
    split
    · have : blocks.get? index = none := by
        rw [List.get?_eq_none]
        omega
      rw [this]
    · rfl
  · simp only [Memory.set]
    split
    · rw [if_neg (by omega)]
    · rfl

/-- Witness for C8: a two-block memory probed at the boundary index `2`. -/
theorem C8_memory_out_of_bounds_witness :
    Memory.get 2 [[0], [0]] 2 = .panik ∧
    Memory.set 2 [[0], [0]] 2 [9] = (.panik, [[0], [0]]) :=
  C8_memory_out_of_bounds 2 [[0], [0]] 2 [9] (by decide) (by decide)

/-! ## Write-tearing fault injector (`quoin-poweroff`)

`Tear::set` first reads the current block into `tmp`; outside the fault branch
it writes `block` through.  Inside the fault branch (probability `odds`,
modelled by the explicit `fault` flag, with the random prefix length as the
explicit `tear` parameter) it copies `block[..tear]` over `tmp[..tear]` — and
then writes the full `block` to the backing device anyway (`tmp` is never
used again) before returning `Torn`. -/

inductive TearErr where
  | torn
deriving Repr, DecidableEq

/-- The `tmp` buffer the fault branch computes: the new block's prefix
`[0, tear)` followed by the stored block's tail — never written by the
source. -/
def tornPrefix (stored block : List Nat) (tear : Nat) : List Nat :=
  block.take tear ++ stored.drop tear

/-- `Tear::set` on a backing block `stored`: the returned pair is
(result, bytes now in the backing device). -/
def Tear.set (stored block : List Nat) (fault : Bool) (tear : Nat) :
    Option TearErr × List Nat :=
  if !fault then (none, block)
  else
    -- the source computes `tmp = tornPrefix stored block tear` here, then
    -- executes `self.device.set(index, block)` and returns `Err(Torn)`
    (some .torn, block)

/-- C5.  The claim says the fault branch stores only the prefix `[0, tear)` of
the new block and keeps the old tail; the code instead writes the full new
block to the backing device (the computed torn prefix `tmp` is discarded),
while still returning `Torn`.  At `stored = [0,0,0,0]`, `block = [1,1,1,1]`,
`tear = 2` the backing ends up as `[1,1,1,1]`, not the claimed `[1,1,0,0]`. -/
theorem C5_tear_writes_full_block :
    Tear.set [0, 0, 0, 0] [1, 1, 1, 1] true 2 = (some .torn, [1, 1, 1, 1]) ∧
    tornPrefix [0, 0, 0, 0] [1, 1, 1, 1] 2 = [1, 1, 0, 0] ∧
    ([1, 1, 1, 1] : List Nat) ≠ [1, 1, 0, 0] := by
  refine ⟨rfl, rfl, by decide⟩

/-! ## Partition-name encoding inside `Disk::add` (`quoin-gpt/src/lib.rs`)

`add` serializes `name` into `buff = [0u16; 36]` with
`for c in name.encode_utf16() { if i > buff.len() { return OutOfBounds };
buff[i] = c; i += 1 }`.  Since the guard is `i > 36` rather than `i >= 36`,
the 37th code unit reaches `buff[36]`, a Rust index-out-of-bounds panic, so
the `OutOfBounds` return is unreachable. -/

inductive NameRes where
  | ok (buff : List Nat)
  | err
  | panik
deriving Repr, DecidableEq

/-- The `for c in name.encode_utf16()` loop of `Disk::add` (`buff.len() = 36`;
indexing `buff[i]` with `i ≥ 36` panics). -/
def encodeNameLoop : List Nat → Nat → List Nat → NameRes
  | [], _, buff => .ok buff
  | c :: rest, i, buff =>
    if i > 36 then .err
    else if i < buff.length then encodeNameLoop rest (i + 1) (buff.set i c)
    else .panik

/-- Name serialization in `Disk::add`, on the UTF-16 code units of `name`. -/
def encodeName (units : List Nat) : NameRes :=
  encodeNameLoop units 0 (List.replicate 36 0)

/-- C4.  A name encoding to more than 36 UTF-16 code units does not produce
`Err(OutOfBounds)`: the 37th unit panics at `buff[36]` (the `i > buff.len()`
guard is off by one and unreachable).  Evaluated at 37 units. -/
theorem C4_long_name_panics : encodeName (List.replicate 37 97) = .panik := by
  decide

/-! ## GPT error type and entry-table validation (`quoin-gpt`)

`Error<T>` without the `Parent` case — the in-memory device model is
infallible, so only the structural errors can arise. -/

inductive GErr where
  | corrupted
  | mismatch
  | unsupported
  | outOfBounds
  | conflict
deriving Repr, DecidableEq

/-- Inner loop of `EntriesExt::validate`: compare `entry` (at position `j`)
against every other entry (`core::ptr::eq` skips the same slice position). -/
def validateInner (entry : Entry) (j : Nat) : List (Nat × Entry) → Option GErr
  | [] => none
  | (k, e) :: rest =>
    if k = j then validateInner entry j rest
    else if e.data.overlaps entry.data then some .outOfBounds
    else if e.guid = entry.guid then some .conflict
    else validateInner entry j rest

/-- Outer loop of `EntriesExt::validate`. -/
def validateOuter (all : List (Nat × Entry)) (urange : Range) :
    List (Nat × Entry) → Option GErr
  | [] => none
  | (j, entry) :: rest =>
    if entry.data.first > entry.data.last then some .outOfBounds
    else if !(urange.contains entry.data) then some .outOfBounds
    else
      match validateInner entry j all with
      | some e => some e
      | none => validateOuter all urange rest

/-- `EntriesExt::validate`: `none` is `Ok(())`, `some e` the first error. -/
def validate (entries : List Entry) (urange : Range) : Option GErr :=
  validateOuter entries.enum urange entries.enum

/-! ## `Disk` and `holes` (`quoin-gpt/src/lib.rs`)

The in-memory `Disk` (the `device: Rc<T>` field carries no logical state in
the model; randomness of `Uuid::new_v4` becomes explicit parameters). -/

structure Disk where
  guid : List Nat
  usable : Range
  entries : List Entry
deriving Repr, DecidableEq

/-- The loop of `Disk::holes`: `current` is a half-open `start..end` pair;
after consuming each entry the candidate gap is pushed unless
`start == end`. -/
def holesGo : Nat × Nat → List Entry → List (Nat × Nat)
  | cur, [] => if cur.1 ≠ cur.2 then [cur] else []
  | cur, entry :: rest =>
    let next := (cur.1, entry.data.first)
    let cur' := (entry.data.last + 1, cur.2)
    if next.1 ≠ next.2 then next :: holesGo cur' rest else holesGo cur' rest

/-- `Disk::holes`, starting from `usable.first..usable.last + 1`. -/
def Disk.holes (d : Disk) : List (Nat × Nat) :=
  holesGo (d.usable.first, d.usable.last + 1) d.entries

/-- A sample entry with the given data range (concrete kind/guid/name). -/
def sampleEntry (first last g : Nat) : Entry :=
  { kind := List.replicate 16 1
    guid := g :: List.replicate 15 2
    data := { first := first, last := last }
    attr := 0
    name := List.replicate 36 0 }

/-- A disk whose two entries are valid (disjoint, inside `usable`) but stored
out of positional order, as `load` preserves them. -/
def outOfOrderDisk : Disk :=
  { guid := List.replicate 16 3
    usable := { first := 2, last := 30 }
    entries := [sampleEntry 10 20 7, sampleEntry 5 8 8] }

/-- C6 counterexample: on a `Disk` whose (individually valid, mutually
disjoint) entries are out of positional order, `holes` emits the reversed
interval `21..5`; only empty intervals are skipped, not negative ones.  The
entry vector passes `validate`, so such a Disk is reachable via `load`. -/
theorem C6_counterexample :
    (21, 5) ∈ outOfOrderDisk.holes ∧ ¬ (21 < 5) ∧
    validate outOfOrderDisk.entries outOfOrderDisk.usable = none := by
  refine ⟨?_, by decide, by decide⟩
  decide

/-- Entries listed in ascending positional order starting no earlier than `s`
and ending before `e`: the ordering hypothesis for the amended C6. -/
def chainOK : Nat → Nat → List Entry → Bool
  | s, e, [] => s ≤ e
  | s, e, entry :: rest =>
    s ≤ entry.data.first && entry.data.first ≤ entry.data.last &&
      chainOK (entry.data.last + 1) e rest

theorem holesGo_pos (entries : List Entry) (s e : Nat)
    (h : chainOK s e entries = true) :
    ∀ p ∈ holesGo (s, e) entries, p.1 < p.2 := by
  induction entries generalizing s e with
  | nil =>
    intro p hp
    simp only [chainOK, decide_eq_true_eq] at h
    simp only [holesGo] at hp
    split at hp
    · rename_i hne
      simp only [List.mem_singleton] at hp
      subst hp
      simp only at hne ⊢
      omega
    · simp at hp
  | cons entry rest ih =>
    intro p hp
    simp only [chainOK, Bool.and_eq_true, decide_eq_true_eq] at h
    obtain ⟨⟨h1, h2⟩, h3⟩ := h
    simp only [holesGo] at hp
    split at hp
    · rename_i hne
      simp only [List.mem_cons] at hp
      rcases hp with rfl | hp
      · simp only at hne ⊢
        omega
      · exact ih _ _ h3 p hp
    · exact ih _ _ h3 p hp

/-- C6 amended: `holes` skips exactly the empty gaps, so a disk with
out-of-order entries can receive reversed intervals (see the counterexample);
for every `Disk` whose entries are in ascending positional order within a
well-formed `usable` range, every emitted hole is positive. -/
theorem C6_holes_positive (d : Disk)
    (h : chainOK d.usable.first (d.usable.last + 1) d.entries = true) :
    ∀ p ∈ d.holes, p.1 < p.2 :=
  holesGo_pos d.entries _ _ h

/-- Witness for the amended C6: the same two entries in ascending order; every
emitted hole is positive. -/
theorem C6_holes_positive_witness :
    ((Disk.holes { guid := List.replicate 16 3
                   usable := { first := 2, last := 30 }
                   entries := [sampleEntry 5 8 8, sampleEntry 10 20 7] }).all
      fun p => decide (p.1 < p.2)) = true :=
  List.all_eq_true.mpr fun p hp =>
    decide_eq_true (C6_holes_positive _ (by decide) p hp)

/-! ## Cyclic redundancy checks (`crc` crate, as used by `quoin-gpt` and
`quoin-journal`)

The reflected (LSB-first) bitwise CRC: one step shifts right and conditionally
xors the reflected polynomial; a byte is folded in by xoring it into the low
bits and running eight steps (the crate's `make_table`/`update` are the
table-driven form of exactly this).  `checksum_ieee` (CRC-32) and the CRC-64
`Digest` both use init and xorout `!0`. -/

/-- One bit-step of a reflected CRC with polynomial `P`. -/
def crcStep (P r : Nat) : Nat := (r / 2) ^^^ (if r % 2 = 1 then P else 0)

/-- Eight bit-steps: folds one byte's worth of shifting. -/
def crcByte (P : Nat) : Nat → Nat := (crcStep P)^[8]

/-- Fold one byte into the running value (`value = table[(value ^ byte) & 0xff]
^ (value >> 8)` in the crate). -/
def crcUpdate (P r b : Nat) : Nat := crcByte P (r ^^^ b)

/-- Run a byte list through the CRC from the given initial value. -/
def crcFold (P init : Nat) (m : List Nat) : Nat := m.foldl (crcUpdate P) init

/-- `crc::crc32::checksum_ieee`: polynomial `0xEDB88320` (reflected IEEE),
init and xorout `0xFFFFFFFF`. -/
def crc32 (m : List Nat) : Nat := crcFold 0xEDB88320 0xFFFFFFFF m ^^^ 0xFFFFFFFF

/-- `crc::crc64` with `ISO = 0xD800000000000000`, via `Digest::new(ISO)`:
init and xorout `!0u64`. -/
def crc64 (m : List Nat) : Nat :=
  crcFold 0xD800000000000000 0xFFFFFFFFFFFFFFFF m ^^^ 0xFFFFFFFFFFFFFFFF

theorem xor_div_two (a b : Nat) : (a ^^^ b) / 2 = a / 2 ^^^ b / 2 := by
  apply Nat.eq_of_testBit_eq
  intro i
  rw [← Nat.testBit_succ, Nat.testBit_xor, Nat.testBit_xor, ← Nat.testBit_succ,
    ← Nat.testBit_succ]

theorem xor_mod_two (a b : Nat) : (a ^^^ b) % 2 = a % 2 ^^^ b % 2 := by
  have := Nat.testBit_xor a b 0
  simp only [Nat.testBit_zero] at this
  rcases Nat.mod_two_eq_zero_or_one a with h1 | h1 <;>
    rcases Nat.mod_two_eq_zero_or_one b with h2 | h2 <;>
      simp [h1, h2] at this ⊢ <;> omega

theorem crcStep_zero (P : Nat) : crcStep P 0 = 0 := by
  simp [crcStep]

theorem crcStep_xor (P a b : Nat) : crcStep P (a ^^^ b) = crcStep P a ^^^ crcStep P b := by
  simp only [crcStep, xor_div_two, xor_mod_two]
  rcases Nat.mod_two_eq_zero_or_one a with h1 | h1 <;>
    rcases Nat.mod_two_eq_zero_or_one b with h2 | h2
  · simp [h1, h2]
  · simp [h1, h2, Nat.xor_assoc]
  · simp [h1, h2, Nat.xor_assoc]
    rw [Nat.xor_comm (b / 2) P]
  · simp [h1, h2, Nat.xor_assoc]
    rw [Nat.xor_comm (b / 2) P, ← Nat.xor_assoc, Nat.xor_self, Nat.zero_xor]

theorem crcStep_lt {W P : Nat} (hP : P < 2 ^ W) {r : Nat} (hr : r < 2 ^ W) :
    crcStep P r < 2 ^ W := by
  have hdiv : r / 2 < 2 ^ W := lt_of_le_of_lt (Nat.div_le_self r 2) hr
  unfold crcStep
  split
  · exact Nat.xor_lt_two_pow hdiv hP
  · simpa using hdiv

theorem crcStep_eq_zero {W P : Nat} (hW : 1 ≤ W) (hPlo : 2 ^ (W - 1) ≤ P)
    {c : Nat} (hc : c < 2 ^ W) (h : crcStep P c = 0) : c = 0 := by
  rcases Nat.mod_two_eq_zero_or_one c with hpar | hpar
  · simp only [crcStep, hpar] at h
    norm_num at h
    omega
  · simp only [crcStep, hpar, if_pos rfl] at h
    have : c / 2 = P := Nat.xor_eq_zero.mp h
    have hsplit : 2 ^ W = 2 * 2 ^ (W - 1) := by
      conv_lhs => rw [show W = 1 + (W - 1) by omega]
      ring
    omega

theorem crcIter_zero (P n : Nat) : (crcStep P)^[n] 0 = 0 :=
  Function.iterate_fixed (crcStep_zero P) n

theorem crcIter_xor (P n a b : Nat) :
    (crcStep P)^[n] (a ^^^ b) = (crcStep P)^[n] a ^^^ (crcStep P)^[n] b := by
  induction n with
  | zero => simp
  | succ n ih => simp only [Function.iterate_succ_apply', ih, crcStep_xor]

theorem crcIter_lt {W P : Nat} (hP : P < 2 ^ W) (n : Nat) {r : Nat}
    (hr : r < 2 ^ W) : (crcStep P)^[n] r < 2 ^ W := by
  induction n with
  | zero => simpa
  | succ n ih => rw [Function.iterate_succ_apply']; exact crcStep_lt hP ih

theorem crcIter_eq_zero {W P : Nat} (hW : 1 ≤ W) (hPlo : 2 ^ (W - 1) ≤ P)
    (hPhi : P < 2 ^ W) (n : Nat) {c : Nat} (hc : c < 2 ^ W)
    (h : (crcStep P)^[n] c = 0) : c = 0 := by
  induction n generalizing c with
  | zero => simpa using h
  | succ n ih =>
    rw [Function.iterate_succ_apply] at h
    exact crcStep_eq_zero hW hPlo hc (ih (crcStep_lt hPhi hc) h)

theorem crcByte_zero (P : Nat) : crcByte P 0 = 0 := crcIter_zero P 8

theorem crcByte_xor (P a b : Nat) :
    crcByte P (a ^^^ b) = crcByte P a ^^^ crcByte P b := crcIter_xor P 8 a b

theorem crcByte_lt {W P : Nat} (hP : P < 2 ^ W) {r : Nat} (hr : r < 2 ^ W) :
    crcByte P r < 2 ^ W := crcIter_lt hP 8 hr

theorem crcByte_eq_zero {W P : Nat} (hW : 1 ≤ W) (hPlo : 2 ^ (W - 1) ≤ P)
    (hPhi : P < 2 ^ W) {c : Nat} (hc : c < 2 ^ W) (h : crcByte P c = 0) :
    c = 0 := crcIter_eq_zero hW hPlo hPhi 8 hc h

theorem crcByte_inj {W P : Nat} (hW : 1 ≤ W) (hPlo : 2 ^ (W - 1) ≤ P)
    (hPhi : P < 2 ^ W) {a b : Nat} (ha : a < 2 ^ W) (hb : b < 2 ^ W)
    (h : crcByte P a = crcByte P b) : a = b := by
  have hx : crcByte P (a ^^^ b) = 0 := by
    rw [crcByte_xor, h, Nat.xor_self]
  have := crcByte_eq_zero hW hPlo hPhi (Nat.xor_lt_two_pow ha hb) hx
  exact Nat.xor_eq_zero.mp this

theorem crcFold_lt {W P : Nat} (hP : P < 2 ^ W) (init : Nat) (hinit : init < 2 ^ W)
    (m : List Nat) (hm : ∀ b ∈ m, b < 2 ^ W) : crcFold P init m < 2 ^ W := by
  induction m generalizing init with
  | nil => simpa [crcFold]
  | cons b bs ih =>
    have hb : b < 2 ^ W := hm b (by simp)
    have : crcUpdate P init b < 2 ^ W :=
      crcByte_lt hP (Nat.xor_lt_two_pow hinit hb)
    exact ih _ this (fun x hx => hm x (by simp [hx]))

theorem crcFold_inj {W P : Nat} (hW : 1 ≤ W) (hPlo : 2 ^ (W - 1) ≤ P)
    (hPhi : P < 2 ^ W) (m : List Nat) (hm : ∀ b ∈ m, b < 2 ^ W) {r s : Nat}
    (hr : r < 2 ^ W) (hs : s < 2 ^ W) (h : crcFold P r m = crcFold P s m) :
    r = s := by
  induction m generalizing r s with
  | nil => simpa [crcFold] using h
  | cons b bs ih =>
    have hb : b < 2 ^ W := hm b (by simp)
    have h1 : crcUpdate P r b = crcUpdate P s b := by
      refine ih (fun x hx => hm x (by simp [hx])) ?_ ?_ h
      · exact crcByte_lt hPhi (Nat.xor_lt_two_pow hr hb)
      · exact crcByte_lt hPhi (Nat.xor_lt_two_pow hs hb)
    have h2 : r ^^^ b = s ^^^ b :=
      crcByte_inj hW hPlo hPhi (Nat.xor_lt_two_pow hr hb)
        (Nat.xor_lt_two_pow hs hb) h1
    have := congrArg (fun x => x ^^^ b) h2
    simpa [Nat.xor_assoc, Nat.xor_self] using this

theorem crcFold_set_ne {W P : Nat} (hW : 1 ≤ W) (hPlo : 2 ^ (W - 1) ≤ P)
    (hPhi : P < 2 ^ W) (m : List Nat) (hm : ∀ b ∈ m, b < 2 ^ W) (init : Nat)
    (hinit : init < 2 ^ W) (p : Nat) (hp : p < m.length) (v : Nat)
    (hv : v < 2 ^ W) (hne : v ≠ m.getD p 0) :
    crcFold P init (m.set p v) ≠ crcFold P init m := by
  induction m generalizing p init with
  | nil => simp at hp
  | cons b bs ih =>
    have hb : b < 2 ^ W := hm b (by simp)
    match p with
    | 0 =>
      intro hcon
      simp only [List.set_cons_zero] at hcon
      have hfold : ∀ x, crcFold P init (x :: bs) = crcFold P (crcUpdate P init x) bs :=
        fun x => rfl
      rw [hfold, hfold] at hcon
      have h1 : crcUpdate P init v = crcUpdate P init b := by
        refine crcFold_inj hW hPlo hPhi bs (fun x hx => hm x (by simp [hx])) ?_ ?_ hcon
        · exact crcByte_lt hPhi (Nat.xor_lt_two_pow hinit hv)
        · exact crcByte_lt hPhi (Nat.xor_lt_two_pow hinit hb)
      have h2 : init ^^^ v = init ^^^ b :=
        crcByte_inj hW hPlo hPhi (Nat.xor_lt_two_pow hinit hv)
          (Nat.xor_lt_two_pow hinit hb) h1
      have h3 : v = b := by
        have := congrArg (fun x => init ^^^ x) h2
        simpa [← Nat.xor_assoc, Nat.xor_self] using this
      exact hne (by simpa using h3)
    | q + 1 =>
      intro hcon
      simp only [List.set_cons_succ] at hcon
      have hfold : ∀ (x : Nat) (l : List Nat),
          crcFold P init (x :: l) = crcFold P (crcUpdate P init x) l := fun _ _ => rfl
      rw [hfold, hfold] at hcon
      refine ih (fun x hx => hm x (by simp [hx])) _
        (crcByte_lt hPhi (Nat.xor_lt_two_pow hinit hb)) q (by simpa using hp)
        (by simpa using hne) hcon

/-- Changing exactly one byte of a message always changes its CRC-32. -/
theorem crc32_set_ne (m : List Nat) (hm : ∀ b ∈ m, b < 256) (p : Nat)
    (hp : p < m.length) (v : Nat) (hv : v < 256) (hne : v ≠ m.getD p 0) :
    crc32 (m.set p v) ≠ crc32 m := by
  intro hcon
  have hbnd : ∀ b ∈ m, b < 2 ^ 32 := fun b hb => lt_trans (hm b hb) (by norm_num)
  have hfold : crcFold 0xEDB88320 0xFFFFFFFF (m.set p v) =
      crcFold 0xEDB88320 0xFFFFFFFF m := by
    have h1 := congrArg (fun x => x ^^^ 0xFFFFFFFF) hcon
    simpa [crc32, Nat.xor_assoc, Nat.xor_self] using h1
  exact crcFold_set_ne (W := 32) (by norm_num) (by norm_num) (by norm_num) m hbnd
    0xFFFFFFFF (by norm_num) p hp v (lt_trans hv (by norm_num)) hne hfold

/-! ## Block devices and the GPT table codec (`quoin-gpt/src/table.rs`)

A device is a list of blocks; `get` out of range yields `[]` and `set` out of
range is the identity (every use below is guarded by length facts). -/

/-- Device contents: one byte list per block. -/
def Dev : Type := List (List Nat)

/-- `Device::get`. -/
def dget (d : Dev) (i : Nat) : List Nat := List.getD d i []

/-- `Device::set`. -/
def dset (d : Dev) (i : Nat) (b : List Nat) : Dev := List.set d i b

/-- Number of blocks (`Device::len`). -/
def dlen (d : Dev) : Nat := List.length d

/-- Apply a sequence of writes in order. -/
def applyWrites (d : Dev) (ws : List (Nat × List Nat)) : Dev :=
  ws.foldl (fun d w => dset d w.1 w.2) d

/-- Split a byte buffer into `w`-byte chunks (`align_to` / `chunks`; all
callers use buffers whose length is a multiple of `w`). -/
def chunksOf (w : Nat) (bs : List Nat) : List (List Nat) :=
  (List.range (bs.length / w)).map fun i => (bs.drop (i * w)).take w

/-- The entry-buffer length after `save`'s padding loop
(`while len < MIN_SIZE || len % SIZE != 0 { push 0 }`): the smallest multiple
of `S` that is at least `max 16384 elen`. -/
def paddedLen (S elen : Nat) : Nat := S * ((max 16384 elen + S - 1) / S)

/-- Encode a header into a zeroed `SIZE`-byte block buffer
(`let mut hbuf = [0u8; SIZE]; h.encode(&mut hbuf[..])`). -/
def hblockOf (S : Nat) (h : Header) : List Nat :=
  (encHeader h ++ List.replicate S 0).take S

/-- `Table`: a parsed header plus its non-empty entries. -/
structure Table where
  header : Header
  entries : List Entry
deriving Repr, DecidableEq

/-- `DeviceExt::save` without the parametrized writes: the header pair and the
entry blocks it computes.  Returns the write list, or the error raised before
any write. -/
def savePlan (S : Nat) (L : Nat) (guid : List Nat) (usable : Option Range)
    (entries : List Entry) : GErr ⊕ List (Nat × List Nat) :=
  let ebytes := (entries.map encEntry).flatten
  let ecrc32 := crc32 ebytes
  let ebuffer := ebytes ++ List.replicate (paddedLen S ebytes.length - ebytes.length) 0
  let eblocks := chunksOf S ebuffer
  let K := eblocks.length
  if L ≤ 3 + K * 2 then .inl .outOfBounds
  else
    let mrange : Range := { first := 2 + K, last := L - 2 - K }
    let urange := usable.getD mrange
    if !(mrange.contains urange) then .inl .outOfBounds
    else
      match validate entries urange with
      | some e => .inl e
      | none =>
        let head0 : Header :=
          { signature := Header.SIGNATURE, revision := Header.REVISION
            size := Header.SIZE, crc32 := 0, reserved := 0
            this_lba := 1, other_lba := L - 1, usable := urange, guid := guid
            elba := 2, ecount := entries.length, esize := Entry.SIZE
            ecrc32 := ecrc32 }
        let tail0 : Header :=
          { signature := Header.SIGNATURE, revision := Header.REVISION
            size := Header.SIZE, crc32 := 0, reserved := 0
            this_lba := L - 1, other_lba := 1, usable := urange, guid := guid
            elba := L - 1 - K, ecount := entries.length, esize := Entry.SIZE
            ecrc32 := ecrc32 }
        let head := { head0 with crc32 := crc32 ((hblockOf S head0).take 92) }
        let tail := { tail0 with crc32 := crc32 ((hblockOf S tail0).take 92) }
        .inr ((1, hblockOf S head) ::
          ((List.range K).map fun i => (2 + i, eblocks.getD i [])) ++
          ((List.range K).map fun i => (L - 1 - K + i, eblocks.getD i [])) ++
          [(L - 1, hblockOf S tail)])

/-- `DeviceExt::save`: validate, then perform the writes in order (primary
header, primary entries, secondary entries, secondary header). -/
def saveDev (S : Nat) (dev : Dev) (guid : List Nat) (usable : Option Range)
    (entries : List Entry) : GErr ⊕ Dev :=
  match savePlan S (dlen dev) guid usable entries with
  | .inl e => .inl e
  | .inr ws => .inr (applyWrites dev ws)

/-- `DeviceExt::load(index)`: per-copy GPT validation. -/
def loadTable (S : Nat) (dev : Dev) (index : Nat) : GErr ⊕ Option Table :=
  let L := dlen dev
  let erange : Range := { first := 0 + 2, last := (L - 1) - 1 }
  let epb := S / Entry.SIZE
  let other := if index = 1 then L - 1 else 1
  let block := dget dev index
  let header := decHeader block
  if header.signature ≠ Header.SIGNATURE then .inr none
  else if header.revision ≠ Header.REVISION then .inl .unsupported
  else if header.size ≠ Header.SIZE then .inl .unsupported
  else if header.esize ≠ Entry.SIZE then .inl .unsupported
  else if header.reserved ≠ 0 then .inl .unsupported
  else if crc32 (encHeader { header with crc32 := 0 }) ≠ header.crc32 then
    .inl .corrupted
  else if header.this_lba ≠ index then .inl .outOfBounds
  else if header.other_lba ≠ other then .inl .outOfBounds
  else
    let bc := (header.ecount + epb - 1) / epb
    let urange : Range := { first := erange.first + bc, last := erange.last - bc }
    if header.usable.first > header.usable.last then .inl .outOfBounds
    else if !(urange.contains header.usable) then .inl .outOfBounds
    else if !(erange.includes header.elba) then .inl .outOfBounds
    else if bc > 0 && urange.includes header.elba then .inl .outOfBounds
    else
      let buffer := ((List.range bc).map fun i => dget dev (header.elba + i)).flatten
      let length := header.ecount * Entry.SIZE
      if crc32 (buffer.take length) ≠ header.ecrc32 then .inl .corrupted
      else
        let entries := ((chunksOf Entry.SIZE buffer).map decEntry).filter
          fun e => e.kind ≠ Entry.EMPTY
        match validate entries urange with
        | some e => .inl e
        | none => .inr (some { header := header, entries := entries })

/-- Build the in-memory `Disk` from the chosen table. -/
def diskOf (t : Table) : Disk :=
  { guid := t.header.guid, usable := t.header.usable, entries := t.entries }

inductive LoadRes where
  | panik
  | err (e : GErr)
  | ok (d : Option Disk)
deriving Repr, DecidableEq

/-- `Disk::load`: assert `SIZE % 128 == 0`, read both copies, resolve. -/
def diskLoad (S : Nat) (dev : Dev) : LoadRes :=
  if S % Entry.SIZE ≠ 0 then .panik
  else
    let tail := loadTable S dev (dlen dev - 1)
    let head := loadTable S dev 1
    match head, tail with
    | .inr none, .inr none => .ok none
    | .inr (some h), .inr (some t) =>
      if h.header.guid ≠ t.header.guid then .err .conflict
      else if h.header.ecrc32 ≠ t.header.ecrc32 then .err .conflict
      else .ok (some (diskOf h))
    | .inr (some h), _ => .ok (some (diskOf h))
    | _, .inr (some t) => .ok (some (diskOf t))
    | .inl e, _ => .err e
    | _, .inl e => .err e

inductive FmtRes where
  | panik
  | err (e : GErr)
  | ok (d : Disk)
deriving Repr, DecidableEq

/-- `Disk::format` (the fresh `Uuid::new_v4` is the explicit `guid`
parameter): assert, `save`, reload, unwrap. -/
def diskFormat (S : Nat) (guid : List Nat) (dev : Dev) : FmtRes × Dev :=
  if S % Entry.SIZE ≠ 0 then (.panik, dev)
  else
    match saveDev S dev guid none [] with
    | .inl e => (.err e, dev)
    | .inr d2 =>
      match diskLoad S d2 with
      | .panik => (.panik, d2)
      | .err e => (.err e, d2)
      | .ok none => (.panik, d2)
      | .ok (some d) => (.ok d, d2)

inductive AddRes where
  | panik
  | err (e : GErr)
  | ok
deriving Repr, DecidableEq

/-- `Disk::add` (the fresh partition GUID is the explicit `newGuid`
parameter; `blocks` is the half-open `start..end` range; `nameUnits` the
UTF-16 code units of `name`).  The source pushes the new entry, saves, and
pops it again if the save failed; the returned `Disk` is the net in-memory
state. -/
def diskAdd (S : Nat) (disk : Disk) (dev : Dev) (kind : List Nat)
    (blocks : Nat × Nat) (attr : Nat) (nameUnits : List Nat)
    (newGuid : List Nat) : AddRes × Disk × Dev :=
  match encodeName nameUnits with
  | .err => (.err .outOfBounds, disk, dev)
  | .panik => (.panik, disk, dev)
  | .ok buff =>
    let entry : Entry :=
      { kind := kind, guid := newGuid
        data := { first := blocks.1, last := blocks.2 - 1 }
        attr := attr, name := buff }
    let entries2 := disk.entries ++ [entry]
    match saveDev S dev disk.guid (some disk.usable) entries2 with
    | .inl e => (.err e, disk, dev)
    | .inr d2 => (.ok, { disk with entries := entries2 }, d2)

/-! ## C3: the usable-range bound enforced by `load_table` -/

/-- A header claiming `ecount = 0` with `usable = [2, 68]` on a 70-block
device of 512-byte blocks — valid for `load_table`, although the 16 KiB
minimum would give an entry-array reservation of 32 blocks and a usable range
of only `[34, 36]`. -/
def wideHeader0 : Header :=
  { signature := Header.SIGNATURE, revision := Header.REVISION
    size := 92, crc32 := 0, reserved := 0
    this_lba := 1, other_lba := 69, usable := { first := 2, last := 68 }
    guid := List.replicate 16 5, elba := 2, ecount := 0, esize := 128
    ecrc32 := 0 }

/-- The same header with its CRC-32 field filled in. -/
def wideHeader : Header := { wideHeader0 with crc32 := crc32 (encHeader wideHeader0) }

/-- A 70-block device carrying `wideHeader` at block 1. -/
def wideDev : Dev := dset (List.replicate 70 (List.replicate 512 0)) 1 (hblockOf 512 wideHeader)

set_option maxRecDepth 100000 in
/-- C3 counterexample: `load_table` accepts `wideHeader`, whose `usable`
range `[2, 68]` lies far outside the claimed bound `[2 + K, L - 2 - K]` with
`K = ceil(max(16 KiB, n·128) / S) = 32`: the code's bound has no 16 KiB
minimum. -/
theorem C3_counterexample :
    loadTable 512 wideDev 1 = .inr (some { header := wideHeader, entries := [] }) ∧
    (max 16384 (wideHeader.ecount * 128) + 512 - 1) / 512 = 32 ∧
    Range.contains { first := 2 + 32, last := 70 - 2 - 32 } wideHeader.usable = false := by
  refine ⟨by decide, by decide, by decide⟩

theorem ceil_div_mul (n m c : Nat) (hm : 0 < m) (hc : 0 < c) :
    (n + m - 1) / m = (n * c + m * c - 1) / (m * c) := by
  have hmc : 0 < m * c := Nat.mul_pos hm hc
  rcases Nat.eq_zero_or_pos n with rfl | hn
  · rw [Nat.div_eq_of_lt (by omega), Nat.div_eq_of_lt (by omega)]
  · have hq := Nat.div_add_mod (n + m - 1) m
    have hr : (n + m - 1) % m < m := Nat.mod_lt _ hm
    set q := (n + m - 1) / m with hqdef
    have h1 : m * q ≤ n + m - 1 := by omega
    have h2 : n + m - 1 < m * q + m := by omega
    have h2n : n ≤ m * q := by omega
    have e3 : (n + m - 1) * c = n * c + m * c - c := by
      calc (n + m - 1) * c = (n + m) * c - 1 * c := by rw [← Nat.sub_mul]
        _ = n * c + m * c - c := by rw [Nat.add_mul, one_mul]
    have hlow : q * (m * c) ≤ n * c + m * c - 1 := by
      have e1 : q * (m * c) = (m * q) * c := by ring
      have e2 : (m * q) * c ≤ (n + m - 1) * c := Nat.mul_le_mul_right c h1
      have e4 : 0 < n * c := Nat.mul_pos hn hc
      omega
    have hhigh : n * c + m * c - 1 < (q + 1) * (m * c) := by
      have e1 : n * c ≤ (m * q) * c := Nat.mul_le_mul_right c h2n
      have e2 : (q + 1) * (m * c) = (m * q) * c + m * c := by ring
      have e4 : 0 < n * c := Nat.mul_pos hn hc
      omega
    exact (Nat.div_eq_of_lt_le hlow hhigh).symm

theorem loadTable_ok_usable (S : Nat) (dev : Dev) (i : Nat) (t : Table)
    (h : loadTable S dev i = .inr (some t)) :
    t.header = decHeader (dget dev i) ∧
    t.header.usable.first ≤ t.header.usable.last ∧
    Range.contains
      { first := 2 + ((t.header.ecount + S / 128 - 1) / (S / 128))
        last := ((dlen dev - 1) - 1) - ((t.header.ecount + S / 128 - 1) / (S / 128)) }
      t.header.usable = true := by
  delta loadTable at h
  dsimp only at h
  generalize hH : decHeader (dget dev i) = H at h
  generalize hBC : (H.ecount + S / Entry.SIZE - 1) / (S / Entry.SIZE) = bc at h
  by_cases hc1 : H.signature ≠ Header.SIGNATURE
  · rw [if_pos hc1] at h
    exact Option.noConfusion (Sum.inr.inj h)
  rw [if_neg hc1] at h
  by_cases hc2 : H.revision ≠ Header.REVISION
  · rw [if_pos hc2] at h
    exact Sum.noConfusion h
  rw [if_neg hc2] at h
  by_cases hc3 : H.size ≠ Header.SIZE
  · rw [if_pos hc3] at h
    exact Sum.noConfusion h
  rw [if_neg hc3] at h
  by_cases hc4 : H.esize ≠ Entry.SIZE
  · rw [if_pos hc4] at h
    exact Sum.noConfusion h
  rw [if_neg hc4] at h
  by_cases hc5 : H.reserved ≠ 0
  · rw [if_pos hc5] at h
    exact Sum.noConfusion h
  rw [if_neg hc5] at h
  by_cases hc6 : crc32 (encHeader
      { signature := H.signature, revision := H.revision, size := H.size,
        crc32 := 0, reserved := H.reserved, this_lba := H.this_lba,
        other_lba := H.other_lba, usable := H.usable, guid := H.guid,
        elba := H.elba, ecount := H.ecount, esize := H.esize,
        ecrc32 := H.ecrc32 }) ≠ H.crc32
  · rw [if_pos hc6] at h
    exact Sum.noConfusion h
  rw [if_neg hc6] at h
  by_cases hc7 : H.this_lba ≠ i
  · rw [if_pos hc7] at h
    exact Sum.noConfusion h
  rw [if_neg hc7] at h
  by_cases hc8 : H.other_lba ≠ (if i = 1 then dlen dev - 1 else 1)
  · rw [if_pos hc8] at h
    exact Sum.noConfusion h
  rw [if_neg hc8] at h
  by_cases hc9 : H.usable.first > H.usable.last
  · rw [if_pos hc9] at h
    exact Sum.noConfusion h
  rw [if_neg hc9] at h
  by_cases hc10 : (!(Range.contains
      { first := 0 + 2 + bc, last := dlen dev - 1 - 1 - bc } H.usable)) = true
  · rw [if_pos hc10] at h
    exact Sum.noConfusion h
  rw [if_neg hc10] at h
  by_cases hc11 : (!(Range.includes
      { first := 0 + 2, last := dlen dev - 1 - 1 } H.elba)) = true
  · rw [if_pos hc11] at h
    exact Sum.noConfusion h
  rw [if_neg hc11] at h
  by_cases hc12 : (decide (bc > 0) && Range.includes
      { first := 0 + 2 + bc, last := dlen dev - 1 - 1 - bc } H.elba) = true
  · rw [if_pos hc12] at h
    exact Sum.noConfusion h
  rw [if_neg hc12] at h
  by_cases hc13 : crc32 (List.take (H.ecount * Entry.SIZE)
      (List.map (fun j => dget dev (H.elba + j)) (List.range bc)).flatten) ≠ H.ecrc32
  · rw [if_pos hc13] at h
    exact Sum.noConfusion h
  rw [if_neg hc13] at h
  split at h
  · exact Sum.noConfusion h
  have h14 := Option.some.inj (Sum.inr.inj h)
  have hhd : t.header = H := by rw [← h14]
  refine ⟨by rw [hhd, ← hH], by rw [hhd]; omega, ?_⟩
  rw [hhd]
  simp only [Entry.SIZE] at hBC
  rw [hBC]
  simpa using hc10

/-- C3 amended: the usable-range bound `load_table` enforces is
`[2 + K', L - 2 - K']` with `K' = ceil(n·128 / S)` — no 16 KiB minimum (the
16 KiB minimum exists only in `save`'s on-disk layout); a header whose
`usable` falls outside that (wider) range is rejected. -/
theorem C3_loadTable_urange (S : Nat) (dev : Dev) (i : Nat) (t : Table)
    (hmod : S % 128 = 0) (hpos : 0 < S)
    (h : loadTable S dev i = .inr (some t)) :
    t.header.usable.first ≤ t.header.usable.last ∧
    Range.contains
      { first := 2 + (t.header.ecount * 128 + S - 1) / S
        last := ((dlen dev - 1) - 1) - (t.header.ecount * 128 + S - 1) / S }
      t.header.usable = true := by
  obtain ⟨_, h1, h2⟩ := loadTable_ok_usable S dev i t h
  have hm : 0 < S / 128 := Nat.div_pos (by omega) (by norm_num)
  have hdvd : 128 ∣ S := Nat.dvd_of_mod_eq_zero hmod
  have he : (t.header.ecount + S / 128 - 1) / (S / 128) =
      (t.header.ecount * 128 + S - 1) / S := by
    have hc := ceil_div_mul t.header.ecount (S / 128) 128 hm (by norm_num)
    rwa [Nat.div_mul_cancel hdvd] at hc
  rw [← he]
  exact ⟨h1, h2⟩

set_option maxRecDepth 100000 in
/-- Witness for the amended C3 at the concrete 70-block device. -/
theorem C3_loadTable_urange_witness :
    wideHeader.usable.first ≤ wideHeader.usable.last ∧
    Range.contains
      { first := 2 + (wideHeader.ecount * 128 + 512 - 1) / 512
        last := ((dlen wideDev - 1) - 1) - (wideHeader.ecount * 128 + 512 - 1) / 512 }
      wideHeader.usable = true := by
  have := C3_loadTable_urange 512 wideDev 1 { header := wideHeader, entries := [] }
    (by norm_num) (by norm_num) (by decide)
  simpa using this

/-- C10.  `Disk::load` and `Disk::format` assert `SIZE % 128 == 0` as their
first action: with `SIZE % 128 ≠ 0` both panic before any device read or
write — `format` returns the device exactly as it was. -/
theorem C10_blocksize_assert (S : Nat) (dev : Dev) (guid : List Nat)
    (h : S % 128 ≠ 0) :
    diskLoad S dev = .panik ∧ diskFormat S guid dev = (.panik, dev) := by
  constructor
  · simp only [diskLoad, Entry.SIZE]
    rw [if_pos h]
  · simp only [diskFormat, Entry.SIZE]
    rw [if_pos h]

/-- Witness for C10 at `SIZE = 100`. -/
theorem C10_blocksize_assert_witness :
    diskLoad 100 [[1]] = .panik ∧ diskFormat 100 [9] [[1]] = (.panik, [[1]]) :=
  C10_blocksize_assert 100 [[1]] [9] (by norm_num)

/-! ## C7: `add` is atomic when entry validation fails -/

theorem encodeNameLoop_ok (units : List Nat) (i : Nat) (buff : List Nat)
    (hbuff : buff.length = 36) (hlen : i + units.length ≤ 36) :
    ∃ b, encodeNameLoop units i buff = .ok b := by
  induction units generalizing i buff with
  | nil => exact ⟨buff, rfl⟩
  | cons c rest ih =>
    simp only [List.length_cons] at hlen
    have h1 : ¬ i > 36 := by omega
    have h2 : i < buff.length := by omega
    simp only [encodeNameLoop, if_neg h1, if_pos h2]
    exact ih (i + 1) (buff.set i c) (by simpa using hbuff) (by omega)

theorem validateInner_no_conflict (entry : Entry) (j : Nat)
    (l : List (Nat × Entry))
    (hg : ∀ p ∈ l, p.1 ≠ j → p.2.guid ≠ entry.guid) :
    validateInner entry j l = none ∨ validateInner entry j l = some .outOfBounds := by
  induction l with
  | nil => exact Or.inl rfl
  | cons p rest ih =>
    have hrec := ih fun q hq => hg q (by simp [hq])
    match p with
    | (k, e) =>
      by_cases hk : k = j
      · simpa [validateInner, hk] using hrec
      · by_cases hov : e.data.overlaps entry.data
        · simp [validateInner, hk, hov]
        · have hne : e.guid ≠ entry.guid := hg (k, e) (by simp) hk
          simpa [validateInner, hk, hov, hne] using hrec

theorem validateOuter_no_conflict (all : List (Nat × Entry)) (urange : Range)
    (l : List (Nat × Entry))
    (hg : ∀ p ∈ l, ∀ q ∈ all, q.1 ≠ p.1 → q.2.guid ≠ p.2.guid) :
    validateOuter all urange l = none ∨
    validateOuter all urange l = some .outOfBounds := by
  induction l with
  | nil => exact Or.inl rfl
  | cons p rest ih =>
    have hrec := ih fun q hq => hg q (by simp [hq])
    match p with
    | (j, entry) =>
      by_cases h1 : entry.data.first > entry.data.last
      · simp [validateOuter, h1]
      · by_cases h2 : urange.contains entry.data
        · have hinner := validateInner_no_conflict entry j all
            fun q hq hqj => hg (j, entry) (by simp) q hq hqj
          rcases hinner with hi | hi
          · simpa [validateOuter, h1, h2, hi] using hrec
          · simp [validateOuter, h1, h2, hi]
        · simp [validateOuter, h1, h2]

theorem validateInner_none_no_overlap (entry : Entry) (j : Nat)
    (l : List (Nat × Entry)) (h : validateInner entry j l = none) :
    ∀ p ∈ l, p.1 ≠ j → p.2.data.overlaps entry.data = false := by
  induction l with
  | nil => simp
  | cons p rest ih =>
    intro q hq hqj
    match p with
    | (k, e) =>
      by_cases hk : k = j
      · rw [validateInner, if_pos hk] at h
        rcases List.mem_cons.mp hq with rfl | hq2
        · simp at hqj
          exact absurd hk hqj
        · exact ih h q hq2 hqj
      · rw [validateInner, if_neg hk] at h
        by_cases hov : e.data.overlaps entry.data
        · rw [if_pos hov] at h
          exact Option.noConfusion h
        · rw [if_neg hov] at h
          by_cases hgv : e.guid = entry.guid
          · rw [if_pos hgv] at h
            exact Option.noConfusion h
          · rw [if_neg hgv] at h
            rcases List.mem_cons.mp hq with rfl | hq2
            · simpa using hov
            · exact ih h q hq2 hqj

theorem validateOuter_none_no_overlap (all : List (Nat × Entry)) (urange : Range)
    (l : List (Nat × Entry)) (h : validateOuter all urange l = none) :
    ∀ p ∈ l, ∀ q ∈ all, q.1 ≠ p.1 → q.2.data.overlaps p.2.data = false := by
  induction l with
  | nil => simp
  | cons p rest ih =>
    intro r hr q hq hqr
    match p with
    | (j, entry) =>
      by_cases h1 : entry.data.first > entry.data.last
      · rw [validateOuter, if_pos h1] at h
        exact Option.noConfusion h
      rw [validateOuter, if_neg h1] at h
      by_cases h2 : urange.contains entry.data
      · rw [if_neg (by simp [h2])] at h
        rcases hv : validateInner entry j all with _ | e
        · rw [hv] at h
          rcases List.mem_cons.mp hr with rfl | hr2
          · exact validateInner_none_no_overlap entry j all hv q hq hqr
          · exact ih h r hr2 q hq hqr
        · rw [hv] at h
          exact Option.noConfusion h
      · rw [if_pos (by simp [h2])] at h
        exact Option.noConfusion h

theorem pairwise_guid_enum (l : List Entry)
    (hp : l.Pairwise (fun a b => a.guid ≠ b.guid)) :
    ∀ p ∈ l.enum, ∀ q ∈ l.enum, q.1 ≠ p.1 → q.2.guid ≠ p.2.guid := by
  rw [List.pairwise_iff_get] at hp
  rintro ⟨j, ej⟩ hj ⟨k, ek⟩ hk hne
  rw [List.mk_mem_enum_iff_get?, List.get?_eq_some] at hj hk
  obtain ⟨hj1, hj2⟩ := hj
  obtain ⟨hk1, hk2⟩ := hk
  simp only at hne ⊢
  rcases Nat.lt_or_ge k j with hlt | hge
  · have := hp ⟨k, hk1⟩ ⟨j, hj1⟩ hlt
    rw [hk2, hj2] at this
    exact this
  · have hlt : j < k := by omega
    have := hp ⟨j, hj1⟩ ⟨k, hk1⟩ hlt
    rw [hj2, hk2] at this
    exact this.symm

theorem validate_result (es : List Entry) (urange : Range)
    (hp : es.Pairwise (fun a b => a.guid ≠ b.guid)) :
    validate es urange = none ∨ validate es urange = some .outOfBounds :=
  validateOuter_no_conflict es.enum urange es.enum
    (fun p hp2 q hq hqp => pairwise_guid_enum es hp p hp2 q hq hqp)

theorem validate_none_no_overlap (es : List Entry) (urange : Range)
    (h : validate es urange = none) :
    ∀ p ∈ es.enum, ∀ q ∈ es.enum, q.1 ≠ p.1 →
      q.2.data.overlaps p.2.data = false :=
  validateOuter_none_no_overlap es.enum urange es.enum h

/-- C7.  `add` with a block range that overlaps an existing partition's data
range (all partition GUIDs distinct, name within 36 UTF-16 units) returns
`OutOfBounds`, and the in-memory entry list and the device are exactly what
they were before the call — `save` validates before its first write, and
`add` pops the pushed entry on error. -/
theorem C7_add_overlap_atomic (S : Nat) (disk : Disk) (dev : Dev)
    (kind : List Nat) (bs be : Nat) (attr : Nat) (nameUnits : List Nat)
    (newGuid : List Nat) (e0 : Entry) (hmem : e0 ∈ disk.entries)
    (hwf : e0.data.first ≤ e0.data.last)
    (hx : ∃ x, e0.data.first ≤ x ∧ x ≤ e0.data.last ∧ bs ≤ x ∧ x ≤ be - 1)
    (hname : nameUnits.length ≤ 36)
    (hg1 : disk.entries.Pairwise (fun a b => a.guid ≠ b.guid))
    (hg2 : ∀ a ∈ disk.entries, a.guid ≠ newGuid) :
    diskAdd S disk dev kind (bs, be) attr nameUnits newGuid =
      (.err .outOfBounds, disk, dev) := by
  obtain ⟨buff, hbuff⟩ := encodeNameLoop_ok nameUnits 0 (List.replicate 36 0)
    (by simp) (by omega)
  have hEN : encodeName nameUnits = .ok buff := hbuff
  set entryNew : Entry :=
    { kind := kind, guid := newGuid
      data := { first := bs, last := be - 1 }
      attr := attr, name := buff } with hENdef
  set entries2 := disk.entries ++ [entryNew] with hE2
  have hp2 : entries2.Pairwise (fun a b => a.guid ≠ b.guid) := by
    rw [hE2, List.pairwise_append]
    exact ⟨hg1, List.pairwise_singleton _ _,
      fun a ha b hb => by
        rw [List.mem_singleton] at hb
        rw [hb]
        exact hg2 a ha⟩
  -- the overlapping pair defeats validation
  have hoverlap : ∀ urange, validate entries2 urange ≠ none := by
    intro urange hval
    have hno := validate_none_no_overlap entries2 urange hval
    obtain ⟨j, hj⟩ := List.mem_iff_get?.mp hmem
    have hjlt : j < disk.entries.length := by
      rw [List.get?_eq_some] at hj
      exact hj.1
    have hj2 : entries2.get? j = some e0 := by
      rw [hE2, List.get?_append hjlt]
      exact hj
    have hn2 : entries2.get? disk.entries.length = some entryNew := by
      rw [hE2, List.get?_concat_length]
    have hmem1 : (j, e0) ∈ entries2.enum := List.mk_mem_enum_iff_get?.mpr hj2
    have hmem2 : (disk.entries.length, entryNew) ∈ entries2.enum :=
      List.mk_mem_enum_iff_get?.mpr hn2
    obtain ⟨x, hx1, hx2, hx3, hx4⟩ := hx
    rcases Nat.lt_or_ge bs e0.data.first with hc | hc
    · -- new range includes e0.data.first: pair (outer = e0, inner = new)
      have := hno (j, e0) hmem1 (disk.entries.length, entryNew) hmem2
        (by simp only; omega)
      simp only [hENdef, Range.overlaps, Range.includes] at this
      rw [Bool.or_eq_false_iff] at this
      have h1 := this.1
      rw [Bool.and_eq_false_iff] at h1
      rcases h1 with h1 | h1 <;> simp only [decide_eq_false_iff_not] at h1 <;> omega
    · -- e0 includes bs: pair (outer = new, inner = e0)
      have := hno (disk.entries.length, entryNew) hmem2 (j, e0) hmem1
        (by simp only; omega)
      simp only [hENdef, Range.overlaps, Range.includes] at this
      rw [Bool.or_eq_false_iff] at this
      have h1 := this.1
      rw [Bool.and_eq_false_iff] at h1
      rcases h1 with h1 | h1 <;> simp only [decide_eq_false_iff_not] at h1 <;> omega
  -- every failing path of savePlan yields OutOfBounds
  have hsp : savePlan S (dlen dev) disk.guid (some disk.usable) entries2 =
      .inl .outOfBounds := by
    delta savePlan
    dsimp only [Option.getD]
    split
    · rfl
    split
    · rfl
    rcases validate_result entries2 disk.usable hp2 with hv | hv
    · exact absurd hv (hoverlap disk.usable)
    · rw [hv]
  -- assemble
  rw [diskAdd, hEN]
  dsimp only
  rw [saveDev, ← hE2, hsp]

/-- Witness for C7: adding `8..12` over an existing partition `[5, 10]`. -/
theorem C7_add_overlap_atomic_witness :
    diskAdd 512
      { guid := List.replicate 16 3, usable := { first := 2, last := 30 }
        entries := [sampleEntry 5 10 7] }
      [] (List.replicate 16 9) (8, 12) 0 [102, 111, 111] (List.replicate 16 4) =
      (.err .outOfBounds,
        { guid := List.replicate 16 3, usable := { first := 2, last := 30 }
          entries := [sampleEntry 5 10 7] }, []) :=
  C7_add_overlap_atomic 512 _ [] (List.replicate 16 9) 8 12 0 [102, 111, 111]
    (List.replicate 16 4) (sampleEntry 5 10 7) (by decide) (by decide)
    ⟨8, by decide, by decide, by decide, by decide⟩ (by decide)
    (by decide) (by decide)

/-! ## C2 infrastructure: device write plumbing and saved-header facts -/

theorem take_set_of_le (l : List Nat) (p v n : Nat) (h : n ≤ p) :
    (l.set p v).take n = l.take n := by
  apply List.ext_get?
  intro i
  rcases Nat.lt_or_ge i n with hi | hi
  · rw [List.get?_take hi, List.get?_take hi, List.get?_set_ne _ _ (by omega)]
  · rw [List.get?_take_eq_none hi, List.get?_take_eq_none hi]

theorem drop_set_of_le (l : List Nat) (p v n : Nat) (h : n ≤ p) :
    (l.set p v).drop n = (l.drop n).set (p - n) v := by
  apply List.ext_get?
  intro i
  rw [List.get?_drop]
  by_cases hip : n + i = p
  · rcases Nat.lt_or_ge p l.length with hpl | hpl
    · have hi2 : i < (l.drop n).length := by
        simp only [List.length_drop]
        omega
      have hpn : p - n = i := by omega
      rw [hip, List.get?_set_eq_of_lt _ hpl, hpn, List.get?_set_eq_of_lt _ hi2]
    · rw [List.set_eq_of_length_le (by omega),
        List.set_eq_of_length_le (by simp only [List.length_drop]; omega),
        List.get?_drop, hip]
  · rw [List.get?_set_ne _ _ (by omega), List.get?_set_ne _ _ (by omega), List.get?_drop]

theorem dlen_dset (d : Dev) (i : Nat) (b : List Nat) : dlen (dset d i b) = dlen d :=
  List.length_set d i b

theorem dget_dset_self (d : Dev) (i : Nat) (b : List Nat) (h : i < dlen d) :
    dget (dset d i b) i = b := by
  simp only [dget, dset, List.getD_eq_getD_get?, List.get?_set_eq_of_lt b h]
  rfl

theorem dget_dset_ne (d : Dev) (i j : Nat) (b : List Nat) (h : j ≠ i) :
    dget (dset d j b) i = dget d i := by
  simp only [dget, dset, List.getD_eq_getD_get?, List.get?_set_ne _ _ h]

theorem dlen_applyWrites (d : Dev) (ws : List (Nat × List Nat)) :
    dlen (applyWrites d ws) = dlen d := by
  induction ws generalizing d with
  | nil => rfl
  | cons w ws ih =>
    show dlen (applyWrites (dset d w.1 w.2) ws) = dlen d
    rw [ih, dlen_dset]

theorem dget_applyWrites_not_mem (d : Dev) (ws : List (Nat × List Nat)) (i : Nat)
    (h : ∀ w ∈ ws, w.1 ≠ i) : dget (applyWrites d ws) i = dget d i := by
  induction ws generalizing d with
  | nil => rfl
  | cons w ws ih =>
    show dget (applyWrites (dset d w.1 w.2) ws) i = dget d i
    rw [ih _ fun x hx => h x (by simp [hx]),
      dget_dset_ne _ _ _ _ (h w (by simp))]

theorem dget_applyWrites_last (d : Dev) (ws1 ws2 : List (Nat × List Nat))
    (i : Nat) (b : List Nat) (hi : i < dlen d) (h2 : ∀ w ∈ ws2, w.1 ≠ i) :
    dget (applyWrites d (ws1 ++ (i, b) :: ws2)) i = b := by
  have happ : applyWrites d (ws1 ++ (i, b) :: ws2) =
      applyWrites (dset (applyWrites d ws1) i b) ws2 := by
    simp only [applyWrites, List.foldl_append, List.foldl_cons]
  rw [happ, dget_applyWrites_not_mem _ _ _ h2, dget_dset_self]
  rw [dlen_applyWrites]
  exact hi

theorem encNats_mem_lt (w : Nat) (xs : List Nat) : ∀ b ∈ encNats w xs, b < 256 := by
  intro b hb
  simp only [encNats, List.mem_flatten, List.mem_map] at hb
  obtain ⟨l, ⟨x, _, rfl⟩, hbl⟩ := hb
  exact leBytes_lt w x b hbl

theorem encRange_mem_lt (r : Range) : ∀ b ∈ encRange r, b < 256 := by
  intro b hb
  simp only [encRange, List.mem_append] at hb
  rcases hb with hb | hb
  · exact leBytes_lt _ _ b hb
  · exact leBytes_lt _ _ b hb

theorem encHeader_mem_lt (h : Header) : ∀ b ∈ encHeader h, b < 256 := by
  intro b hb
  simp only [encHeader, List.mem_append] at hb
  rcases hb with ((((((((((((hb | hb) | hb) | hb) | hb) | hb) | hb) | hb) | hb) | hb)
    | hb) | hb) | hb) <;>
    first
      | exact encNats_mem_lt _ _ b hb
      | exact encRange_mem_lt _ b hb
      | exact leBytes_lt _ _ b hb

theorem crc32_bound (m : List Nat) (hm : ∀ b ∈ m, b < 256) : crc32 m < 2 ^ 32 := by
  have h1 : crcFold 0xEDB88320 0xFFFFFFFF m < 2 ^ 32 := by
    refine crcFold_lt (W := 32) (by norm_num) _ (by norm_num) m ?_
    intro b hb
    exact lt_trans (hm b hb) (by norm_num)
  exact Nat.xor_lt_two_pow h1 (by norm_num)

theorem encHeader_parts (h : Header) (c : Nat) :
    encHeader { h with crc32 := c } =
      (encNats 1 h.signature ++ encNats 1 h.revision ++ leBytes 4 h.size) ++
      leBytes 4 c ++
      (leBytes 4 h.reserved ++ leBytes 8 h.this_lba ++ leBytes 8 h.other_lba ++
        encRange h.usable ++ encNats 1 h.guid ++ leBytes 8 h.elba ++
        leBytes 4 h.ecount ++ leBytes 4 h.esize ++ leBytes 4 h.ecrc32) := by
  simp only [encHeader, List.append_assoc]

theorem encHeader_eta (h : Header) :
    encHeader h =
      (encNats 1 h.signature ++ encNats 1 h.revision ++ leBytes 4 h.size) ++
      leBytes 4 h.crc32 ++
      (leBytes 4 h.reserved ++ leBytes 8 h.this_lba ++ leBytes 8 h.other_lba ++
        encRange h.usable ++ encNats 1 h.guid ++ leBytes 8 h.elba ++
        leBytes 4 h.ecount ++ leBytes 4 h.esize ++ leBytes 4 h.ecrc32) := by
  simp only [encHeader, List.append_assoc]

theorem encHeader_take16 (h : Header) (hs : h.signature.length = 8)
    (hr : h.revision.length = 4) :
    (encHeader h).take 16 =
      encNats 1 h.signature ++ encNats 1 h.revision ++ leBytes 4 h.size := by
  rw [encHeader_eta h, List.append_assoc]
  refine take_append_len _ _ ?_
  simp [encNats_length, leBytes_length, hs, hr]

theorem encHeader_drop20 (h : Header) (hs : h.signature.length = 8)
    (hr : h.revision.length = 4) :
    (encHeader h).drop 20 =
      leBytes 4 h.reserved ++ leBytes 8 h.this_lba ++ leBytes 8 h.other_lba ++
        encRange h.usable ++ encNats 1 h.guid ++ leBytes 8 h.elba ++
        leBytes 4 h.ecount ++ leBytes 4 h.esize ++ leBytes 4 h.ecrc32 := by
  rw [encHeader_eta h]
  refine drop_append_len _ _ ?_
  simp [encNats_length, leBytes_length, hs, hr]

theorem encHeader_with_crc (h : Header) (hs : h.signature.length = 8)
    (hr : h.revision.length = 4) (c : Nat) :
    encHeader { h with crc32 := c } =
      (encHeader h).take 16 ++ leBytes 4 c ++ (encHeader h).drop 20 := by
  rw [encHeader_parts h c, encHeader_take16 h hs hr, encHeader_drop20 h hs hr]

theorem encHeader_crc_slice (h : Header) (hs : h.signature.length = 8)
    (hr : h.revision.length = 4) :
    ((encHeader h).drop 16).take 4 = leBytes 4 h.crc32 := by
  have hd : (encHeader h).drop 16 = leBytes 4 h.crc32 ++
      (leBytes 4 h.reserved ++ leBytes 8 h.this_lba ++ leBytes 8 h.other_lba ++
        encRange h.usable ++ encNats 1 h.guid ++ leBytes 8 h.elba ++
        leBytes 4 h.ecount ++ leBytes 4 h.esize ++ leBytes 4 h.ecrc32) := by
    rw [encHeader_eta h, List.append_assoc]
    refine drop_append_len _ _ ?_
    simp [encNats_length, leBytes_length, hs, hr]
  rw [hd]
  exact take_append_len _ _ (leBytes_length 4 _)

theorem encHeader_length_of_lens (h : Header) (hs : h.signature.length = 8)
    (hr : h.revision.length = 4) (hg : h.guid.length = 16) :
    (encHeader h).length = 92 := by
  simp [encHeader, encNats_length, leBytes_length, encRange_length, hs, hr, hg]

theorem decNats_length (w n : Nat) (bs : List Nat) : (decNats w n bs).length = n := by
  induction n generalizing bs with
  | zero => rfl
  | succ n ih => simp [decNats, ih]

theorem decHeader_signature_length (bs : List Nat) :
    (decHeader bs).signature.length = 8 := decNats_length 1 8 bs

theorem decHeader_revision_length (bs : List Nat) :
    (decHeader bs).revision.length = 4 := decNats_length 1 4 _

theorem decHeader_guid_length (bs : List Nat) :
    (decHeader bs).guid.length = 16 := decNats_length 1 16 _

/-- The header block written by `save`: the encoded header followed by the
zero padding of the block buffer. -/
theorem hblockOf_eq (S : Nat) (h : Header) (hS : 92 ≤ S)
    (hlen : (encHeader h).length = 92) :
    hblockOf S h = encHeader h ++ List.replicate (S - 92) 0 := by
  simp only [hblockOf]
  rw [List.take_append_eq_append_take, List.take_of_length_le (by omega), hlen,
    List.take_replicate, show min (S - 92) S = S - 92 from by omega]

theorem hblockOf_length (S : Nat) (h : Header) (hS : 92 ≤ S)
    (hlen : (encHeader h).length = 92) : (hblockOf S h).length = S := by
  rw [hblockOf_eq S h hS hlen]
  simp only [List.length_append, hlen, List.length_replicate]
  omega

theorem hblockOf_mem_lt (S : Nat) (h : Header) (hS : 92 ≤ S)
    (hlen : (encHeader h).length = 92) : ∀ b ∈ hblockOf S h, b < 256 := by
  rw [hblockOf_eq S h hS hlen]
  intro b hb
  rcases List.mem_append.mp hb with hb | hb
  · exact encHeader_mem_lt h b hb
  · have := List.eq_of_mem_replicate hb
    omega

theorem decHeader_hblockOf (S : Nat) (h : Header) (hS : 92 ≤ S) (hw : h.WF) :
    decHeader (hblockOf S h) = h := by
  have hlen : (encHeader h).length = 92 :=
    encHeader_length_of_lens h hw.1 hw.2.2.1 hw.2.2.2.2.2.2.2.2.2.2.1
  rw [hblockOf_eq S h hS hlen]
  exact decHeader_encHeader_append h _ hw

/-- `load_table` accepts a header block written by `save` (empty entry
table). -/
theorem loadTable_saved (S : Nat) (dev : Dev) (i : Nat) (H : Header)
    (hS128 : 128 ≤ S) (hWF : H.WF)
    (hblk : dget dev i = hblockOf S H)
    (hsig : H.signature = Header.SIGNATURE)
    (hrev : H.revision = Header.REVISION)
    (hsize : H.size = Header.SIZE)
    (hesize : H.esize = Entry.SIZE)
    (hres : H.reserved = 0)
    (hcrc : H.crc32 = crc32 (encHeader { H with crc32 := 0 }))
    (hthis : H.this_lba = i)
    (hother : H.other_lba = (if i = 1 then dlen dev - 1 else 1))
    (hec : H.ecount = 0)
    (hecrc : H.ecrc32 = crc32 [])
    (hu1 : H.usable.first ≤ H.usable.last)
    (hu2 : 2 ≤ H.usable.first) (hu3 : H.usable.last ≤ dlen dev - 1 - 1)
    (he1 : 2 ≤ H.elba) (he2 : H.elba ≤ dlen dev - 1 - 1) :
    loadTable S dev i = .inr (some { header := H, entries := [] }) := by
  have hdec : decHeader (dget dev i) = H := by
    rw [hblk]
    exact decHeader_hblockOf S H (by omega) hWF
  have hepb : 0 < S / 128 := Nat.div_pos (by omega) (by norm_num)
  delta loadTable
  dsimp only
  rw [hdec]
  have hbc : (H.ecount + S / Entry.SIZE - 1) / (S / Entry.SIZE) = 0 := by
    rw [hec]
    apply Nat.div_eq_of_lt
    simp only [Entry.SIZE]
    omega
  rw [hbc]
  rw [if_neg (by simp [hsig])]
  rw [if_neg (by simp [hrev])]
  rw [if_neg (by simp [hsize])]
  rw [if_neg (by simp [hesize])]
  rw [if_neg (by simp [hres])]
  rw [if_neg (by simp [hcrc])]
  rw [if_neg (by simp [hthis])]
  rw [if_neg (by simp [hother])]
  rw [if_neg (by omega)]
  rw [if_neg (by simp [Range.contains, Range.includes]; omega)]
  rw [if_neg (by simp [Range.includes]; omega)]
  rw [if_neg (by simp)]
  rw [if_neg (by simp [hecrc])]
  simp only [List.range_zero, List.map_nil, List.flatten_nil, chunksOf,
    List.length_nil, Nat.zero_div, List.filter_nil, validate, List.enum_nil,
    validateOuter]

theorem decNats_one_replicate_zero (k n : Nat) (h : k ≤ n) :
    decNats 1 k (List.replicate n 0) = List.replicate k 0 := by
  induction k generalizing n with
  | zero => rfl
  | succ k ih =>
    match n with
    | n + 1 =>
      simp only [List.replicate_succ, decNats, List.take_succ_cons, List.take_zero,
        List.drop_succ_cons, List.drop_zero, ih n (by omega)]
      rfl

/-- A zeroed block fails the signature check: `load_table` returns
`Ok(None)`. -/
theorem loadTable_zero_block (S : Nat) (dev : Dev) (i : Nat) (hS : 8 ≤ S)
    (hblk : dget dev i = List.replicate S 0) :
    loadTable S dev i = .inr none := by
  have hsig : (decHeader (dget dev i)).signature = List.replicate 8 0 := by
    rw [hblk]
    exact decNats_one_replicate_zero 8 S hS
  delta loadTable
  dsimp only
  rw [if_pos (by rw [hsig]; decide)]

/-- The number of `S`-byte blocks the empty entry table occupies
(16 KiB / S rounded up). -/
def emptyK (S : Nat) : Nat := paddedLen S 0 / S

/-- The primary header `save` constructs for an empty entry table, before its
CRC is filled in. -/
def emptySaveHead0 (S L : Nat) (guid : List Nat) : Header :=
  { signature := Header.SIGNATURE, revision := Header.REVISION
    size := Header.SIZE, crc32 := 0, reserved := 0
    this_lba := 1, other_lba := L - 1
    usable := { first := 2 + emptyK S, last := L - 2 - emptyK S }
    guid := guid, elba := 2, ecount := 0, esize := Entry.SIZE
    ecrc32 := crc32 [] }

/-- The secondary header, before its CRC is filled in. -/
def emptySaveTail0 (S L : Nat) (guid : List Nat) : Header :=
  { signature := Header.SIGNATURE, revision := Header.REVISION
    size := Header.SIZE, crc32 := 0, reserved := 0
    this_lba := L - 1, other_lba := 1
    usable := { first := 2 + emptyK S, last := L - 2 - emptyK S }
    guid := guid, elba := L - 1 - emptyK S, ecount := 0, esize := Entry.SIZE
    ecrc32 := crc32 [] }

/-- The primary header with its CRC-32 filled in. -/
def emptySaveHead (S L : Nat) (guid : List Nat) : Header :=
  { emptySaveHead0 S L guid with
    crc32 := crc32 ((hblockOf S (emptySaveHead0 S L guid)).take 92) }

/-- The secondary header with its CRC-32 filled in. -/
def emptySaveTail (S L : Nat) (guid : List Nat) : Header :=
  { emptySaveTail0 S L guid with
    crc32 := crc32 ((hblockOf S (emptySaveTail0 S L guid)).take 92) }

theorem chunksOf_length (w : Nat) (bs : List Nat) :
    (chunksOf w bs).length = bs.length / w := by
  simp [chunksOf]

theorem savePlan_empty (S L : Nat) (guid : List Nat)
    (hL : 3 + emptyK S * 2 < L) :
    savePlan S L guid none [] = .inr
      ((1, hblockOf S (emptySaveHead S L guid)) ::
        ((List.range (emptyK S)).map fun j =>
          (2 + j, (chunksOf S (List.replicate (paddedLen S 0) 0)).getD j [])) ++
        ((List.range (emptyK S)).map fun j =>
          (L - 1 - emptyK S + j,
            (chunksOf S (List.replicate (paddedLen S 0) 0)).getD j [])) ++
        [(L - 1, hblockOf S (emptySaveTail S L guid))]) := by
  have hKlen : (chunksOf S (List.replicate (paddedLen S 0) 0)).length = emptyK S := by
    rw [chunksOf_length, List.length_replicate]
    rfl
  delta savePlan
  dsimp only [List.map_nil, List.flatten_nil, List.length_nil, Nat.sub_zero,
    List.nil_append]
  rw [hKlen]
  rw [if_neg (by omega)]
  rw [if_neg (by simp [Range.contains, Range.includes]; omega)]
  simp only [validate, List.enum_nil, validateOuter]
  rfl

theorem emptyK_pos (S : Nat) (hS : 0 < S) : 1 ≤ emptyK S := by
  have h1 : paddedLen S 0 = S * ((16384 + S - 1) / S) := by
    simp [paddedLen]
  have h2 : 1 ≤ (16384 + S - 1) / S := by
    rw [Nat.le_div_iff_mul_le hS]
    omega
  rw [emptyK, h1, Nat.mul_div_cancel_left _ hS]
  exact h2

theorem hblockOf_take92 (S : Nat) (h : Header) (hS : 92 ≤ S)
    (hlen : (encHeader h).length = 92) : (hblockOf S h).take 92 = encHeader h := by
  rw [hblockOf_eq S h hS hlen]
  exact take_append_len _ _ hlen

theorem SIGNATURE_lt : ∀ b ∈ Header.SIGNATURE, b < 256 := by decide

theorem REVISION_lt : ∀ b ∈ Header.REVISION, b < 256 := by decide

theorem emptySaveHead0_WF (S L : Nat) (guid : List Nat)
    (hg1 : guid.length = 16) (hg2 : ∀ b ∈ guid, b < 256)
    (hL : 3 + emptyK S * 2 < L) (hL64 : L < 2 ^ 64) :
    (emptySaveHead0 S L guid).WF := by
  refine ⟨rfl, SIGNATURE_lt, rfl, REVISION_lt, by norm_num [emptySaveHead0, Header.SIZE],
    by norm_num [emptySaveHead0], by norm_num [emptySaveHead0], by norm_num [emptySaveHead0],
    ?_, ⟨?_, ?_⟩, by simpa [emptySaveHead0] using hg1, by simpa [emptySaveHead0] using hg2,
    by norm_num [emptySaveHead0], by norm_num [emptySaveHead0],
    by norm_num [emptySaveHead0, Entry.SIZE], ?_⟩
  · show L - 1 < 2 ^ 64
    omega
  · show 2 + emptyK S < 2 ^ 64
    omega
  · show L - 2 - emptyK S < 2 ^ 64
    omega
  · show crc32 [] < 2 ^ 32
    exact crc32_bound [] (by simp)

theorem emptySaveTail0_WF (S L : Nat) (guid : List Nat)
    (hg1 : guid.length = 16) (hg2 : ∀ b ∈ guid, b < 256)
    (hL : 3 + emptyK S * 2 < L) (hL64 : L < 2 ^ 64) :
    (emptySaveTail0 S L guid).WF := by
  refine ⟨rfl, SIGNATURE_lt, rfl, REVISION_lt, by norm_num [emptySaveTail0, Header.SIZE],
    by norm_num [emptySaveTail0], by norm_num [emptySaveTail0], ?_,
    by norm_num [emptySaveTail0], ⟨?_, ?_⟩, by simpa [emptySaveTail0] using hg1,
    by simpa [emptySaveTail0] using hg2, ?_, by norm_num [emptySaveTail0],
    by norm_num [emptySaveTail0, Entry.SIZE], ?_⟩
  · show L - 1 < 2 ^ 64
    omega
  · show 2 + emptyK S < 2 ^ 64
    omega
  · show L - 2 - emptyK S < 2 ^ 64
    omega
  · show L - 1 - emptyK S < 2 ^ 64
    omega
  · show crc32 [] < 2 ^ 32
    exact crc32_bound [] (by simp)

theorem wf_with_crc (h : Header) (hw : h.WF) (c : Nat) (hc : c < 2 ^ 32) :
    ({ h with crc32 := c } : Header).WF := by
  obtain ⟨a1, a2, a3, a4, a5, _, a7, a8, a9, a10, a11, a12, a13, a14, a15, a16⟩ := hw
  exact ⟨a1, a2, a3, a4, a5, hc, a7, a8, a9, a10, a11, a12, a13, a14, a15, a16⟩

theorem encHeader_length_of_WF (h : Header) (hw : h.WF) : (encHeader h).length = 92 :=
  encHeader_length_of_lens h hw.1 hw.2.2.1 hw.2.2.2.2.2.2.2.2.2.2.1

theorem crc32_hblock_take_lt (S : Nat) (h : Header) (hS : 92 ≤ S) (hw : h.WF) :
    crc32 ((hblockOf S h).take 92) < 2 ^ 32 := by
  refine crc32_bound _ ?_
  intro b hb
  exact hblockOf_mem_lt S h hS (encHeader_length_of_WF h hw) b (List.mem_of_mem_take hb)

theorem emptySaveHead_WF (S L : Nat) (guid : List Nat)
    (hg1 : guid.length = 16) (hg2 : ∀ b ∈ guid, b < 256)
    (hL : 3 + emptyK S * 2 < L) (hL64 : L < 2 ^ 64) (hS : 92 ≤ S) :
    (emptySaveHead S L guid).WF :=
  wf_with_crc _ (emptySaveHead0_WF S L guid hg1 hg2 hL hL64) _
    (crc32_hblock_take_lt S _ hS (emptySaveHead0_WF S L guid hg1 hg2 hL hL64))

theorem emptySaveTail_WF (S L : Nat) (guid : List Nat)
    (hg1 : guid.length = 16) (hg2 : ∀ b ∈ guid, b < 256)
    (hL : 3 + emptyK S * 2 < L) (hL64 : L < 2 ^ 64) (hS : 92 ≤ S) :
    (emptySaveTail S L guid).WF :=
  wf_with_crc _ (emptySaveTail0_WF S L guid hg1 hg2 hL hL64) _
    (crc32_hblock_take_lt S _ hS (emptySaveTail0_WF S L guid hg1 hg2 hL hL64))

theorem saveDev_empty (S : Nat) (dev : Dev) (guid : List Nat)
    (hL : 3 + emptyK S * 2 < dlen dev) :
    ∃ d1, saveDev S dev guid none [] = .inr d1 ∧ dlen d1 = dlen dev ∧
      dget d1 1 = hblockOf S (emptySaveHead S (dlen dev) guid) ∧
      dget d1 (dlen dev - 1) = hblockOf S (emptySaveTail S (dlen dev) guid) := by
  have hK := savePlan_empty S (dlen dev) guid hL
  set eb := fun j => (chunksOf S (List.replicate (paddedLen S 0) 0)).getD j []
    with hebdef
  set ws : List (Nat × List Nat) :=
    (1, hblockOf S (emptySaveHead S (dlen dev) guid)) ::
      ((List.range (emptyK S)).map fun j => (2 + j, eb j)) ++
      ((List.range (emptyK S)).map fun j =>
        (dlen dev - 1 - emptyK S + j, eb j)) ++
      [(dlen dev - 1, hblockOf S (emptySaveTail S (dlen dev) guid))] with hwsdef
  refine ⟨applyWrites dev ws, ?_, dlen_applyWrites dev ws, ?_, ?_⟩
  · rw [saveDev, hK]
  · -- block 1 is the first write; nothing later touches index 1
    have hsplit : ws = [] ++ (1, hblockOf S (emptySaveHead S (dlen dev) guid)) ::
        (((List.range (emptyK S)).map fun j => (2 + j, eb j)) ++
          ((List.range (emptyK S)).map fun j =>
            (dlen dev - 1 - emptyK S + j, eb j)) ++
          [(dlen dev - 1, hblockOf S (emptySaveTail S (dlen dev) guid))]) := by
      rw [hwsdef]
      rfl
    rw [hsplit]
    refine dget_applyWrites_last _ _ _ _ _ (by omega) ?_
    intro w hw
    simp only [List.mem_append, List.mem_map, List.mem_range,
      List.mem_singleton] at hw
    rcases hw with (⟨j, hj, rfl⟩ | ⟨j, hj, rfl⟩) | rfl
    · simp only
      omega
    · simp only
      omega
    · simp only
      omega
  · -- the last write is the secondary header at block L-1
    have hsplit : ws = ((1, hblockOf S (emptySaveHead S (dlen dev) guid)) ::
        (((List.range (emptyK S)).map fun j => (2 + j, eb j)) ++
          ((List.range (emptyK S)).map fun j =>
            (dlen dev - 1 - emptyK S + j, eb j)))) ++
        (dlen dev - 1, hblockOf S (emptySaveTail S (dlen dev) guid)) :: [] := by
      rw [hwsdef]
      simp [List.append_assoc]
    rw [hsplit]
    refine dget_applyWrites_last _ _ _ _ _ (by omega) ?_
    intro w hw
    simp at hw

theorem loadTable_saved_head (S : Nat) (dev : Dev) (guid : List Nat)
    (hS128 : 128 ≤ S) (hg1 : guid.length = 16) (hg2 : ∀ b ∈ guid, b < 256)
    (hL : 3 + emptyK S * 2 < dlen dev) (hL64 : dlen dev < 2 ^ 64)
    (hblk : dget dev 1 = hblockOf S (emptySaveHead S (dlen dev) guid)) :
    loadTable S dev 1 =
      .inr (some { header := emptySaveHead S (dlen dev) guid, entries := [] }) := by
  have hwf0 := emptySaveHead0_WF S (dlen dev) guid hg1 hg2 hL hL64
  have hwf := emptySaveHead_WF S (dlen dev) guid hg1 hg2 hL hL64 (by omega)
  have hKpos := emptyK_pos S (by omega)
  refine loadTable_saved S dev 1 _ hS128 hwf hblk rfl rfl rfl rfl rfl ?_ rfl
    rfl rfl rfl ?_ ?_ ?_ ?_ ?_
  · show crc32 ((hblockOf S (emptySaveHead0 S (dlen dev) guid)).take 92) =
      crc32 (encHeader (emptySaveHead0 S (dlen dev) guid))
    rw [hblockOf_take92 S _ (by omega) (encHeader_length_of_WF _ hwf0)]
  · show 2 + emptyK S ≤ dlen dev - 2 - emptyK S
    omega
  · show 2 ≤ 2 + emptyK S
    omega
  · show dlen dev - 2 - emptyK S ≤ dlen dev - 1 - 1
    omega
  · show 2 ≤ 2
    omega
  · show 2 ≤ dlen dev - 1 - 1
    omega

theorem loadTable_saved_tail (S : Nat) (dev : Dev) (guid : List Nat)
    (hS128 : 128 ≤ S) (hg1 : guid.length = 16) (hg2 : ∀ b ∈ guid, b < 256)
    (hL : 3 + emptyK S * 2 < dlen dev) (hL64 : dlen dev < 2 ^ 64)
    (hblk : dget dev (dlen dev - 1) = hblockOf S (emptySaveTail S (dlen dev) guid)) :
    loadTable S dev (dlen dev - 1) =
      .inr (some { header := emptySaveTail S (dlen dev) guid, entries := [] }) := by
  have hwf0 := emptySaveTail0_WF S (dlen dev) guid hg1 hg2 hL hL64
  have hwf := emptySaveTail_WF S (dlen dev) guid hg1 hg2 hL hL64 (by omega)
  have hKpos := emptyK_pos S (by omega)
  refine loadTable_saved S dev (dlen dev - 1) _ hS128 hwf hblk rfl rfl rfl rfl rfl
    ?_ rfl ?_ rfl rfl ?_ ?_ ?_ ?_ ?_
  · show crc32 ((hblockOf S (emptySaveTail0 S (dlen dev) guid)).take 92) =
      crc32 (encHeader (emptySaveTail0 S (dlen dev) guid))
    rw [hblockOf_take92 S _ (by omega) (encHeader_length_of_WF _ hwf0)]
  · show (1 : Nat) = if dlen dev - 1 = 1 then dlen dev - 1 else 1
    rw [if_neg (by omega)]
  · show 2 + emptyK S ≤ dlen dev - 2 - emptyK S
    omega
  · show 2 ≤ 2 + emptyK S
    omega
  · show dlen dev - 2 - emptyK S ≤ dlen dev - 1 - 1
    omega
  · show 2 ≤ dlen dev - 1 - emptyK S
    omega
  · show dlen dev - 1 - emptyK S ≤ dlen dev - 1 - 1
    omega

theorem loadTable_ok_crc (S : Nat) (dev : Dev) (i : Nat) (t : Table)
    (h : loadTable S dev i = .inr (some t)) :
    crc32 (encHeader { decHeader (dget dev i) with crc32 := 0 }) =
      (decHeader (dget dev i)).crc32 := by
  delta loadTable at h
  dsimp only at h
  generalize hH : decHeader (dget dev i) = H at h ⊢
  by_cases hc1 : H.signature ≠ Header.SIGNATURE
  · rw [if_pos hc1] at h
    exact Option.noConfusion (Sum.inr.inj h)
  rw [if_neg hc1] at h
  by_cases hc2 : H.revision ≠ Header.REVISION
  · rw [if_pos hc2] at h
    exact Sum.noConfusion h
  rw [if_neg hc2] at h
  by_cases hc3 : H.size ≠ Header.SIZE
  · rw [if_pos hc3] at h
    exact Sum.noConfusion h
  rw [if_neg hc3] at h
  by_cases hc4 : H.esize ≠ Entry.SIZE
  · rw [if_pos hc4] at h
    exact Sum.noConfusion h
  rw [if_neg hc4] at h
  by_cases hc5 : H.reserved ≠ 0
  · rw [if_pos hc5] at h
    exact Sum.noConfusion h
  rw [if_neg hc5] at h
  by_cases hc6 : crc32 (encHeader
      { signature := H.signature, revision := H.revision, size := H.size,
        crc32 := 0, reserved := H.reserved, this_lba := H.this_lba,
        other_lba := H.other_lba, usable := H.usable, guid := H.guid,
        elba := H.elba, ecount := H.ecount, esize := H.esize,
        ecrc32 := H.ecrc32 }) ≠ H.crc32
  · rw [if_pos hc6] at h
    exact Sum.noConfusion h
  · simpa using hc6

theorem crc_slice_of_hblock (S : Nat) (H : Header) (hS : 92 ≤ S)
    (hwf : H.WF) : ((hblockOf S H).drop 16).take 4 = leBytes 4 H.crc32 := by
  have hlen92 := encHeader_length_of_WF H hwf
  rw [hblockOf_eq S H hS hlen92, List.drop_append_eq_append_drop,
    List.take_append_eq_append_take]
  have h1 : ((encHeader H).drop 16).length = 76 := by
    simp [hlen92]
  rw [h1, encHeader_crc_slice H hwf.1 hwf.2.2.1]
  simp

theorem hblock_getD_eq_enc (S : Nat) (H : Header) (hS : 92 ≤ S)
    (hwf : H.WF) (p : Nat) (hp : p < 92) :
    (hblockOf S H).getD p 0 = (encHeader H).getD p 0 := by
  have hlen92 := encHeader_length_of_WF H hwf
  rw [hblockOf_eq S H hS hlen92]
  have hpl : p < (encHeader H).length := by omega
  simp only [List.getD_eq_getD_get?]
  rw [List.get?_append hpl]

theorem loadTable_corrupt_not_some (S : Nat) (dev : Dev) (i : Nat) (H : Header)
    (hS : 92 ≤ S) (hwf : H.WF) (p v : Nat)
    (hblk : dget dev i = (hblockOf S H).set p v)
    (hcrcfield : H.crc32 = crc32 (encHeader { H with crc32 := 0 }))
    (hp : p < 92) (hv : v < 256) (hne : v ≠ (hblockOf S H).getD p 0) :
    ∀ t, loadTable S dev i ≠ .inr (some t) := by
  intro t h
  have hpass := loadTable_ok_crc S dev i t h
  rw [hblk] at hpass
  have hlen92 : (encHeader H).length = 92 := encHeader_length_of_WF H hwf
  have hsl := hwf.1
  have hrl := hwf.2.2.1
  have hcrclt : H.crc32 < 2 ^ 32 := hwf.2.2.2.2.2.1
  have hblen : (hblockOf S H).length = S := hblockOf_length S H hS hlen92
  have hbmem : ∀ b ∈ hblockOf S H, b < 256 := hblockOf_mem_lt S H hS hlen92
  have hlenb2 : ((hblockOf S H).set p v).length = S := by
    simpa using hblen
  have hmemb2 : ∀ b ∈ (hblockOf S H).set p v, b < 256 := by
    intro b hb
    rcases List.mem_or_eq_of_mem_set hb with hb2 | rfl
    · exact hbmem b hb2
    · exact hv
  have htake92 : ((hblockOf S H).set p v).take 92 = (encHeader H).set p v := by
    rw [List.set_take, hblockOf_take92 S H hS hlen92]
  have hdecenc : encHeader (decHeader ((hblockOf S H).set p v)) =
      (encHeader H).set p v := by
    rw [encHeader_decHeader _ (by omega) hmemb2, htake92]
  -- the computed CRC is over the corrupted bytes with the CRC field zeroed
  have hzc : encHeader { decHeader ((hblockOf S H).set p v) with crc32 := 0 } =
      ((encHeader H).set p v).take 16 ++ leBytes 4 0 ++
        ((encHeader H).set p v).drop 20 := by
    rw [encHeader_with_crc _ (decHeader_signature_length _)
      (decHeader_revision_length _) 0, hdecenc]
  have hzcH : H.crc32 = crc32 ((encHeader H).take 16 ++ leBytes 4 0 ++
      (encHeader H).drop 20) := by
    rw [hcrcfield, encHeader_with_crc H hsl hrl 0]
  have hstored : (decHeader ((hblockOf S H).set p v)).crc32 =
      fromLe ((((hblockOf S H).set p v).drop 16).take 4) := rfl
  have hslice : ((hblockOf S H).drop 16).take 4 = leBytes 4 H.crc32 :=
    crc_slice_of_hblock S H hS hwf
  have hfromle : fromLe (leBytes 4 H.crc32) = H.crc32 :=
    fromLe_leBytes 4 _ (by norm_num at hcrclt ⊢; omega)
  rcases Nat.lt_or_ge p 16 with hp16 | hp16
  · -- byte before the CRC field: stored CRC unchanged, computed CRC changes
    have hstored2 : (decHeader ((hblockOf S H).set p v)).crc32 = H.crc32 := by
      rw [hstored, List.drop_set_of_lt _ _ (by omega), hslice, hfromle]
    have harg : ((encHeader H).set p v).take 16 ++ leBytes 4 0 ++
        ((encHeader H).set p v).drop 20 =
        ((encHeader H).take 16 ++ leBytes 4 0 ++ (encHeader H).drop 20).set p v := by
      rw [List.set_take, List.drop_set_of_lt _ _ (by omega),
        List.set_append_left _ _ (by simp [hlen92]; omega),
        List.set_append_left _ _ (by simp [hlen92]; omega)]
    have hgd : ((encHeader H).take 16 ++ leBytes 4 0 ++
        (encHeader H).drop 20).getD p 0 = (hblockOf S H).getD p 0 := by
      rw [hblock_getD_eq_enc S H hS hwf p hp]
      simp only [List.getD_eq_getD_get?]
      rw [List.get?_append (by simp [hlen92]; omega),
        List.get?_append (by simp [hlen92]; omega), List.get?_take (by omega)]
    have hne2 : crc32 (((encHeader H).take 16 ++ leBytes 4 0 ++
        (encHeader H).drop 20).set p v) ≠
        crc32 ((encHeader H).take 16 ++ leBytes 4 0 ++ (encHeader H).drop 20) := by
      refine crc32_set_ne _ ?_ p ?_ v hv ?_
      · intro b hb
        rcases List.mem_append.mp hb with hb | hb
        · rcases List.mem_append.mp hb with hb | hb
          · exact encHeader_mem_lt H b (List.mem_of_mem_take hb)
          · have := leBytes_lt 4 0 b hb
            omega
        · exact encHeader_mem_lt H b (List.mem_of_mem_drop hb)
      · simp [hlen92]
        omega
      · rw [hgd]
        exact hne
    have hfinal : crc32 (encHeader
        { decHeader ((hblockOf S H).set p v) with crc32 := 0 }) = H.crc32 :=
      hpass.trans hstored2
    rw [hzc, harg, hzcH] at hfinal
    exact hne2 hfinal
  rcases Nat.lt_or_ge p 20 with hp20 | hp20
  · -- byte inside the CRC field: computed CRC unchanged, stored CRC changes
    have hcomp : encHeader { decHeader ((hblockOf S H).set p v) with crc32 := 0 } =
        (encHeader H).take 16 ++ leBytes 4 0 ++ (encHeader H).drop 20 := by
      rw [hzc, take_set_of_le _ _ _ _ (by omega), List.drop_set_of_lt _ _ (by omega)]
    have hstored2 : (decHeader ((hblockOf S H).set p v)).crc32 =
        fromLe ((leBytes 4 H.crc32).set (p - 16) v) := by
      rw [hstored, drop_set_of_le _ _ _ _ (by omega), List.set_take, hslice]
    have hlist : (leBytes 4 H.crc32).set (p - 16) v = leBytes 4 H.crc32 := by
      have heq : fromLe ((leBytes 4 H.crc32).set (p - 16) v) = H.crc32 := by
        rw [← hstored2, ← hpass, hcomp, ← hzcH]
      refine fromLe_injective _ _ ?_ ?_ ?_ (heq.trans hfromle.symm)
      · simp
      · intro b hb
        rcases List.mem_or_eq_of_mem_set hb with hb2 | rfl
        · exact leBytes_lt 4 _ b hb2
        · exact hv
      · exact fun b hb => leBytes_lt 4 _ b hb
    have hvp : v = (leBytes 4 H.crc32).getD (p - 16) 0 := by
      have hplen : p - 16 < (leBytes 4 H.crc32).length := by
        simp [leBytes_length]
        omega
      have h2 := congrArg (fun l => l.get? (p - 16)) hlist
      simp only at h2
      rw [List.get?_set_eq_of_lt _ hplen] at h2
      simp only [List.getD_eq_getD_get?, ← h2, Option.getD_some]
    have hgd2 : (hblockOf S H).getD p 0 = (leBytes 4 H.crc32).getD (p - 16) 0 := by
      rw [← hslice]
      simp only [List.getD_eq_getD_get?]
      rw [List.get?_take (by omega), List.get?_drop,
        show 16 + (p - 16) = p by omega]
    exact hne (hvp.trans hgd2.symm)
  · -- byte after the CRC field
    have hloc : ((encHeader H).take 16 ++ leBytes 4 0).length = 20 := by
      simp only [List.length_append, List.length_take, leBytes_length, hlen92]
      omega
    have hloc2 : ((encHeader H).take 16 ++ leBytes 4 0).length ≤ p := by
      rw [hloc]; exact hp20
    have hstored2 : (decHeader ((hblockOf S H).set p v)).crc32 = H.crc32 := by
      rw [hstored, drop_set_of_le _ _ _ _ (by omega),
        take_set_of_le _ _ _ _ (by omega), hslice, hfromle]
    have harg : ((encHeader H).set p v).take 16 ++ leBytes 4 0 ++
        ((encHeader H).set p v).drop 20 =
        ((encHeader H).take 16 ++ leBytes 4 0 ++ (encHeader H).drop 20).set p v := by
      rw [take_set_of_le _ _ _ _ (by omega), drop_set_of_le _ _ _ _ (by omega),
        List.set_append_right _ _ hloc2, hloc]
    have hgd : ((encHeader H).take 16 ++ leBytes 4 0 ++
        (encHeader H).drop 20).getD p 0 = (hblockOf S H).getD p 0 := by
      rw [hblock_getD_eq_enc S H hS hwf p hp]
      simp only [List.getD_eq_getD_get?]
      rw [List.get?_append_right hloc2, hloc]
      rw [List.get?_drop, show 20 + (p - 20) = p by omega]
    have hne2 : crc32 (((encHeader H).take 16 ++ leBytes 4 0 ++
        (encHeader H).drop 20).set p v) ≠
        crc32 ((encHeader H).take 16 ++ leBytes 4 0 ++ (encHeader H).drop 20) := by
      refine crc32_set_ne _ ?_ p ?_ v hv ?_
      · intro b hb
        rcases List.mem_append.mp hb with hb | hb
        · rcases List.mem_append.mp hb with hb | hb
          · exact encHeader_mem_lt H b (List.mem_of_mem_take hb)
          · have := leBytes_lt 4 0 b hb
            omega
        · exact encHeader_mem_lt H b (List.mem_of_mem_drop hb)
      · simp [hlen92, leBytes_length]
        omega
      · rw [hgd]
        exact hne
    have hfinal : crc32 (encHeader
        { decHeader ((hblockOf S H).set p v) with crc32 := 0 }) = H.crc32 :=
      hpass.trans hstored2
    rw [hzc, harg, hzcH] at hfinal
    exact hne2 hfinal

theorem diskLoad_both_some (S : Nat) (dev : Dev) (hS : S % Entry.SIZE = 0)
    (th tt : Table)
    (hh : loadTable S dev 1 = .inr (some th))
    (ht : loadTable S dev (dlen dev - 1) = .inr (some tt))
    (hg : th.header.guid = tt.header.guid)
    (he : th.header.ecrc32 = tt.header.ecrc32) :
    diskLoad S dev = .ok (some (diskOf th)) := by
  delta diskLoad
  dsimp only
  rw [if_neg (by simp [hS]), hh, ht]
  dsimp only
  rw [if_neg (by simp [hg]), if_neg (by simp [he])]

theorem diskLoad_both_none (S : Nat) (dev : Dev) (hS : S % Entry.SIZE = 0)
    (hh : loadTable S dev 1 = .inr none)
    (ht : loadTable S dev (dlen dev - 1) = .inr none) :
    diskLoad S dev = .ok none := by
  delta diskLoad
  dsimp only
  rw [if_neg (by simp [hS]), hh, ht]

theorem diskLoad_head_rescue (S : Nat) (dev : Dev) (hS : S % Entry.SIZE = 0)
    (th : Table)
    (hh : loadTable S dev 1 = .inr (some th))
    (ht : ∀ t, loadTable S dev (dlen dev - 1) ≠ .inr (some t)) :
    diskLoad S dev = .ok (some (diskOf th)) := by
  delta diskLoad
  dsimp only
  rw [if_neg (by simp [hS]), hh]
  cases hT : loadTable S dev (dlen dev - 1) with
  | inl e => rfl
  | inr ot =>
    cases ot with
    | none => rfl
    | some t => exact absurd hT (ht t)

theorem diskLoad_tail_rescue (S : Nat) (dev : Dev) (hS : S % Entry.SIZE = 0)
    (tt : Table)
    (hh : ∀ t, loadTable S dev 1 ≠ .inr (some t))
    (ht : loadTable S dev (dlen dev - 1) = .inr (some tt)) :
    diskLoad S dev = .ok (some (diskOf tt)) := by
  delta diskLoad
  dsimp only
  rw [if_neg (by simp [hS]), ht]
  cases hH : loadTable S dev 1 with
  | inl e => rfl
  | inr ot =>
    cases ot with
    | none => rfl
    | some t => exact absurd hH (hh t)

set_option maxHeartbeats 2000000 in
/-- **C2** (GPT dual-copy recovery): after `save` writes an empty GPT to a
device, `Disk::load` succeeds; zeroing block 1 alone recovers via the
secondary copy, zeroing block `L-1` alone recovers via the primary copy,
zeroing both yields `Ok(None)`, and changing any single byte of the 92-byte
header in either copy recovers via the peer copy; every successful recovery
reports the same disk GUID that was saved. -/
theorem C2_dual_copy (S : Nat) (dev : Dev) (guid : List Nat)
    (hS128 : 128 ≤ S) (hSmod : S % Entry.SIZE = 0)
    (hg1 : guid.length = 16) (hg2 : ∀ b ∈ guid, b < 256)
    (hL : 3 + emptyK S * 2 < dlen dev) (hL64 : dlen dev < 2 ^ 64) :
    ∃ d1, saveDev S dev guid none [] = .inr d1 ∧ dlen d1 = dlen dev ∧
      diskLoad S d1 =
        .ok (some (diskOf { header := emptySaveHead S (dlen dev) guid, entries := [] })) ∧
      diskLoad S (dset d1 1 (List.replicate S 0)) =
        .ok (some (diskOf { header := emptySaveTail S (dlen dev) guid, entries := [] })) ∧
      diskLoad S (dset d1 (dlen dev - 1) (List.replicate S 0)) =
        .ok (some (diskOf { header := emptySaveHead S (dlen dev) guid, entries := [] })) ∧
      diskLoad S (dset (dset d1 1 (List.replicate S 0)) (dlen dev - 1)
          (List.replicate S 0)) = .ok none ∧
      (∀ p, p < 92 → ∀ v, v < 256 → v ≠ (dget d1 1).getD p 0 →
        diskLoad S (dset d1 1 ((dget d1 1).set p v)) =
          .ok (some (diskOf
            { header := emptySaveTail S (dlen dev) guid, entries := [] }))) ∧
      (∀ p, p < 92 → ∀ v, v < 256 → v ≠ (dget d1 (dlen dev - 1)).getD p 0 →
        diskLoad S (dset d1 (dlen dev - 1) ((dget d1 (dlen dev - 1)).set p v)) =
          .ok (some (diskOf
            { header := emptySaveHead S (dlen dev) guid, entries := [] }))) ∧
      (diskOf { header := emptySaveHead S (dlen dev) guid, entries := [] }).guid = guid ∧
      (diskOf { header := emptySaveTail S (dlen dev) guid, entries := [] }).guid = guid := by
  obtain ⟨d1, hsave, hdlen, hblk1, hblkT⟩ := saveDev_empty S dev guid hL
  have hKpos := emptyK_pos S (by omega)
  have h1lt : 1 < dlen d1 := by omega
  have hTne : dlen dev - 1 ≠ 1 := by omega
  have hTlt : dlen dev - 1 < dlen d1 := by omega
  have hwfHH0 := emptySaveHead0_WF S (dlen dev) guid hg1 hg2 hL hL64
  have hwfHT0 := emptySaveTail0_WF S (dlen dev) guid hg1 hg2 hL hL64
  have hwfHH := emptySaveHead_WF S (dlen dev) guid hg1 hg2 hL hL64 (by omega)
  have hwfHT := emptySaveTail_WF S (dlen dev) guid hg1 hg2 hL hL64 (by omega)
  have hcrcHH : (emptySaveHead S (dlen dev) guid).crc32 =
      crc32 (encHeader { emptySaveHead S (dlen dev) guid with crc32 := 0 }) := by
    have he : ({ emptySaveHead S (dlen dev) guid with crc32 := 0 } : Header) =
        emptySaveHead0 S (dlen dev) guid := rfl
    rw [he]
    show crc32 ((hblockOf S (emptySaveHead0 S (dlen dev) guid)).take 92) = _
    rw [hblockOf_take92 S _ (by omega) (encHeader_length_of_WF _ hwfHH0)]
  have hcrcHT : (emptySaveTail S (dlen dev) guid).crc32 =
      crc32 (encHeader { emptySaveTail S (dlen dev) guid with crc32 := 0 }) := by
    have he : ({ emptySaveTail S (dlen dev) guid with crc32 := 0 } : Header) =
        emptySaveTail0 S (dlen dev) guid := rfl
    rw [he]
    show crc32 ((hblockOf S (emptySaveTail0 S (dlen dev) guid)).take 92) = _
    rw [hblockOf_take92 S _ (by omega) (encHeader_length_of_WF _ hwfHT0)]
  have hhead1 : loadTable S d1 1 =
      .inr (some { header := emptySaveHead S (dlen dev) guid, entries := [] }) := by
    have h := loadTable_saved_head S d1 guid hS128 hg1 hg2 (by rw [hdlen]; exact hL)
      (by rw [hdlen]; exact hL64) (by rw [hdlen]; exact hblk1)
    rw [hdlen] at h
    exact h
  have htail1 : loadTable S d1 (dlen dev - 1) =
      .inr (some { header := emptySaveTail S (dlen dev) guid, entries := [] }) := by
    have h := loadTable_saved_tail S d1 guid hS128 hg1 hg2 (by rw [hdlen]; exact hL)
      (by rw [hdlen]; exact hL64) (by rw [hdlen]; exact hblkT)
    rw [hdlen] at h
    exact h
  have hdlA : dlen (dset d1 1 (List.replicate S 0)) = dlen dev := by
    rw [dlen_dset, hdlen]
  have hheadA : loadTable S (dset d1 1 (List.replicate S 0)) 1 = .inr none :=
    loadTable_zero_block S _ 1 (by omega) (dget_dset_self d1 1 _ h1lt)
  have htailA : loadTable S (dset d1 1 (List.replicate S 0)) (dlen dev - 1) =
      .inr (some { header := emptySaveTail S (dlen dev) guid, entries := [] }) := by
    have h := loadTable_saved_tail S (dset d1 1 (List.replicate S 0)) guid hS128 hg1
      hg2 (by rw [hdlA]; exact hL) (by rw [hdlA]; exact hL64)
      (by rw [hdlA, dget_dset_ne d1 (dlen dev - 1) 1 _ (by omega)]; exact hblkT)
    rw [hdlA] at h
    exact h
  have hdlB : dlen (dset d1 (dlen dev - 1) (List.replicate S 0)) = dlen dev := by
    rw [dlen_dset, hdlen]
  have hheadB : loadTable S (dset d1 (dlen dev - 1) (List.replicate S 0)) 1 =
      .inr (some { header := emptySaveHead S (dlen dev) guid, entries := [] }) := by
    have h := loadTable_saved_head S (dset d1 (dlen dev - 1) (List.replicate S 0))
      guid hS128 hg1 hg2 (by rw [hdlB]; exact hL) (by rw [hdlB]; exact hL64)
      (by rw [hdlB, dget_dset_ne d1 1 (dlen dev - 1) _ hTne]; exact hblk1)
    rw [hdlB] at h
    exact h
  have htailB : loadTable S (dset d1 (dlen dev - 1) (List.replicate S 0))
      (dlen dev - 1) = .inr none :=
    loadTable_zero_block S _ (dlen dev - 1) (by omega)
      (dget_dset_self d1 (dlen dev - 1) _ hTlt)
  have hdlC : dlen (dset (dset d1 1 (List.replicate S 0)) (dlen dev - 1)
      (List.replicate S 0)) = dlen dev := by
    rw [dlen_dset, dlen_dset, hdlen]
  have hheadC : loadTable S (dset (dset d1 1 (List.replicate S 0)) (dlen dev - 1)
      (List.replicate S 0)) 1 = .inr none := by
    refine loadTable_zero_block S _ 1 (by omega) ?_
    rw [dget_dset_ne _ 1 (dlen dev - 1) _ hTne]
    exact dget_dset_self d1 1 _ h1lt
  have htailC : loadTable S (dset (dset d1 1 (List.replicate S 0)) (dlen dev - 1)
      (List.replicate S 0)) (dlen dev - 1) = .inr none := by
    refine loadTable_zero_block S _ (dlen dev - 1) (by omega) ?_
    exact dget_dset_self _ (dlen dev - 1) _ (by rw [dlen_dset]; omega)
  have hmain : diskLoad S d1 =
      .ok (some (diskOf { header := emptySaveHead S (dlen dev) guid, entries := [] })) := by
    have htail1w : loadTable S d1 (dlen d1 - 1) =
        .inr (some { header := emptySaveTail S (dlen dev) guid, entries := [] }) := by
      rw [hdlen]
      exact htail1
    exact diskLoad_both_some S d1 hSmod
      { header := emptySaveHead S (dlen dev) guid, entries := [] }
      { header := emptySaveTail S (dlen dev) guid, entries := [] }
      hhead1 htail1w rfl rfl
  have hA : diskLoad S (dset d1 1 (List.replicate S 0)) =
      .ok (some (diskOf { header := emptySaveTail S (dlen dev) guid, entries := [] })) := by
    have htailAw : loadTable S (dset d1 1 (List.replicate S 0))
        (dlen (dset d1 1 (List.replicate S 0)) - 1) =
        .inr (some { header := emptySaveTail S (dlen dev) guid, entries := [] }) := by
      rw [hdlA]
      exact htailA
    refine diskLoad_tail_rescue S (dset d1 1 (List.replicate S 0)) hSmod
      { header := emptySaveTail S (dlen dev) guid, entries := [] } ?_ htailAw
    intro t h
    rw [hheadA] at h
    exact Option.noConfusion (Sum.inr.inj h)
  have hB : diskLoad S (dset d1 (dlen dev - 1) (List.replicate S 0)) =
      .ok (some (diskOf { header := emptySaveHead S (dlen dev) guid, entries := [] })) := by
    refine diskLoad_head_rescue S (dset d1 (dlen dev - 1) (List.replicate S 0)) hSmod
      { header := emptySaveHead S (dlen dev) guid, entries := [] } hheadB ?_
    intro t h
    rw [hdlB, htailB] at h
    exact Option.noConfusion (Sum.inr.inj h)
  have hC : diskLoad S (dset (dset d1 1 (List.replicate S 0)) (dlen dev - 1)
      (List.replicate S 0)) = .ok none := by
    have htailCw : loadTable S (dset (dset d1 1 (List.replicate S 0)) (dlen dev - 1)
        (List.replicate S 0)) (dlen (dset (dset d1 1 (List.replicate S 0))
          (dlen dev - 1) (List.replicate S 0)) - 1) = .inr none := by
      rw [hdlC]
      exact htailC
    exact diskLoad_both_none S _ hSmod hheadC htailCw
  have hD : ∀ p, p < 92 → ∀ v, v < 256 → v ≠ (dget d1 1).getD p 0 →
      diskLoad S (dset d1 1 ((dget d1 1).set p v)) =
        .ok (some (diskOf { header := emptySaveTail S (dlen dev) guid, entries := [] })) := by
    intro p hp v hv hne
    have hdlD : dlen (dset d1 1 ((dget d1 1).set p v)) = dlen dev := by
      rw [dlen_dset, hdlen]
    have hblkD : dget (dset d1 1 ((dget d1 1).set p v)) 1 =
        (hblockOf S (emptySaveHead S (dlen dev) guid)).set p v := by
      rw [dget_dset_self d1 1 _ h1lt, hblk1]
    have hnotsome := loadTable_corrupt_not_some S (dset d1 1 ((dget d1 1).set p v)) 1
      (emptySaveHead S (dlen dev) guid) (by omega) hwfHH p v hblkD hcrcHH hp hv
      (by rw [← hblk1]; exact hne)
    have htailD : loadTable S (dset d1 1 ((dget d1 1).set p v))
        (dlen (dset d1 1 ((dget d1 1).set p v)) - 1) =
        .inr (some { header := emptySaveTail S (dlen dev) guid, entries := [] }) := by
      have h := loadTable_saved_tail S (dset d1 1 ((dget d1 1).set p v)) guid hS128
        hg1 hg2 (by rw [hdlD]; exact hL) (by rw [hdlD]; exact hL64)
        (by rw [hdlD, dget_dset_ne d1 (dlen dev - 1) 1 _ (by omega)]; exact hblkT)
      rw [hdlD] at h ⊢
      exact h
    exact diskLoad_tail_rescue S (dset d1 1 ((dget d1 1).set p v)) hSmod
      { header := emptySaveTail S (dlen dev) guid, entries := [] } hnotsome htailD
  have hE : ∀ p, p < 92 → ∀ v, v < 256 → v ≠ (dget d1 (dlen dev - 1)).getD p 0 →
      diskLoad S (dset d1 (dlen dev - 1) ((dget d1 (dlen dev - 1)).set p v)) =
        .ok (some (diskOf { header := emptySaveHead S (dlen dev) guid, entries := [] })) := by
    intro p hp v hv hne
    have hdlE : dlen (dset d1 (dlen dev - 1) ((dget d1 (dlen dev - 1)).set p v)) =
        dlen dev := by
      rw [dlen_dset, hdlen]
    have hblkE : dget (dset d1 (dlen dev - 1) ((dget d1 (dlen dev - 1)).set p v))
        (dlen dev - 1) = (hblockOf S (emptySaveTail S (dlen dev) guid)).set p v := by
      rw [dget_dset_self d1 (dlen dev - 1) _ hTlt, hblkT]
    have hnotsome := loadTable_corrupt_not_some S
      (dset d1 (dlen dev - 1) ((dget d1 (dlen dev - 1)).set p v)) (dlen dev - 1)
      (emptySaveTail S (dlen dev) guid) (by omega) hwfHT p v hblkE hcrcHT hp hv
      (by rw [← hblkT]; exact hne)
    have hheadE : loadTable S (dset d1 (dlen dev - 1)
        ((dget d1 (dlen dev - 1)).set p v)) 1 =
        .inr (some { header := emptySaveHead S (dlen dev) guid, entries := [] }) := by
      have h := loadTable_saved_head S (dset d1 (dlen dev - 1)
        ((dget d1 (dlen dev - 1)).set p v)) guid hS128 hg1 hg2
        (by rw [hdlE]; exact hL) (by rw [hdlE]; exact hL64)
        (by rw [hdlE, dget_dset_ne d1 1 (dlen dev - 1) _ hTne]; exact hblk1)
      rw [hdlE] at h
      exact h
    have hnotsome2 : ∀ t, loadTable S (dset d1 (dlen dev - 1)
        ((dget d1 (dlen dev - 1)).set p v))
        (dlen (dset d1 (dlen dev - 1) ((dget d1 (dlen dev - 1)).set p v)) - 1) ≠
        .inr (some t) := by
      intro t h
      rw [hdlE] at h
      exact hnotsome t h
    exact diskLoad_head_rescue S
      (dset d1 (dlen dev - 1) ((dget d1 (dlen dev - 1)).set p v)) hSmod
      { header := emptySaveHead S (dlen dev) guid, entries := [] } hheadE hnotsome2
  exact ⟨d1, hsave, hdlen, hmain, hA, hB, hC, hD, hE, rfl, rfl⟩

/-- A concrete backing device for the C2 witness: 128 blocks of 512 zero
bytes (the configuration of the source's own tests). -/
def C2dev : Dev := List.replicate 128 (List.replicate 512 0)

/-- A concrete well-formed 16-byte disk GUID. -/
def C2guid : List Nat := List.replicate 16 7

set_option maxRecDepth 10000 in
/-- Witness for C2 at `S = 512`, a 128-block device and a concrete GUID. -/
theorem C2_dual_copy_witness :
    (128 ≤ 512 ∧ 512 % Entry.SIZE = 0 ∧ C2guid.length = 16 ∧
      3 + emptyK 512 * 2 < dlen C2dev ∧ dlen C2dev < 2 ^ 64) ∧
    (∃ d1, saveDev 512 C2dev C2guid none [] = .inr d1 ∧ dlen d1 = dlen C2dev ∧
      diskLoad 512 d1 =
        .ok (some (diskOf { header := emptySaveHead 512 (dlen C2dev) C2guid, entries := [] })) ∧
      diskLoad 512 (dset d1 1 (List.replicate 512 0)) =
        .ok (some (diskOf { header := emptySaveTail 512 (dlen C2dev) C2guid, entries := [] })) ∧
      diskLoad 512 (dset d1 (dlen C2dev - 1) (List.replicate 512 0)) =
        .ok (some (diskOf { header := emptySaveHead 512 (dlen C2dev) C2guid, entries := [] })) ∧
      diskLoad 512 (dset (dset d1 1 (List.replicate 512 0)) (dlen C2dev - 1)
          (List.replicate 512 0)) = .ok none ∧
      (∀ p, p < 92 → ∀ v, v < 256 → v ≠ (dget d1 1).getD p 0 →
        diskLoad 512 (dset d1 1 ((dget d1 1).set p v)) =
          .ok (some (diskOf
            { header := emptySaveTail 512 (dlen C2dev) C2guid, entries := [] }))) ∧
      (∀ p, p < 92 → ∀ v, v < 256 → v ≠ (dget d1 (dlen C2dev - 1)).getD p 0 →
        diskLoad 512 (dset d1 (dlen C2dev - 1) ((dget d1 (dlen C2dev - 1)).set p v)) =
          .ok (some (diskOf
            { header := emptySaveHead 512 (dlen C2dev) C2guid, entries := [] }))) ∧
      (diskOf { header := emptySaveHead 512 (dlen C2dev) C2guid, entries := [] }).guid =
        C2guid ∧
      (diskOf { header := emptySaveTail 512 (dlen C2dev) C2guid, entries := [] }).guid =
        C2guid) :=
  ⟨⟨by decide, by decide, by decide, by decide, by decide⟩,
    C2_dual_copy 512 C2dev C2guid (by decide) (by decide) (by decide) (by decide)
      (by decide) (by decide)⟩

/-! ## C1: the journal's crash recovery

`Journal<T, LOWER, UPPER>` stores each `UPPER`-byte logical block as
`R = UPPER / LOWER` consecutive physical blocks.  Physical block region
`index` occupies device blocks `index * R .. index * R + R - 1`; region 0 is
the metadata, region 1 the shadow copy, and region `i + 2` holds logical
block `i`.  All u64 index arithmetic stays far below `2 ^ 64` under the
bounds hypotheses of the theorems, so plain `Nat` arithmetic coincides with
the source's wrapping arithmetic. -/

/-- `Journal::pull(index)`: read the `R` physical blocks of a region,
concatenated. -/
def jpull (R : Nat) (dev : Dev) (index : Nat) : List Nat :=
  ((List.range R).map fun i => dget dev (index * R + i)).flatten

/-- The physical writes performed by `Journal::push(index, block)`, in
order: chunk `i` of the block goes to device block `index * R + i`. -/
def jpushWrites (R LOWER : Nat) (index : Nat) (block : List Nat) :
    List (Nat × List Nat) :=
  (List.range R).map fun i => (index * R + i, (block.drop (i * LOWER)).take LOWER)

/-- The metadata block `Journal::set` builds: the little-endian target
index, the little-endian CRC-64 (ISO) of `index.to_le_bytes() ++ block`, and
zero padding up to `UPPER = R * LOWER` bytes. -/
def jmeta (LOWER R : Nat) (index : Nat) (block : List Nat) : List Nat :=
  leBytes 8 index ++ leBytes 8 (crc64 (leBytes 8 index ++ block)) ++
    List.replicate (R * LOWER - 16) 0

/-- The full ordered physical write sequence of `Journal::set(index, block)`:
metadata region, then shadow region, then the destination region. -/
def jsetWrites (LOWER R : Nat) (index : Nat) (block : List Nat) :
    List (Nat × List Nat) :=
  jpushWrites R LOWER 0 (jmeta LOWER R index block) ++
    jpushWrites R LOWER 1 block ++ jpushWrites R LOWER (index + 2) block

/-- A torn physical write: the first `tear` bytes of the new block followed
by the stored block's remaining bytes. -/
def tornWrite (dev : Dev) (i : Nat) (b : List Nat) (tear : Nat) : Dev :=
  dset dev i (b.take tear ++ (dget dev i).drop tear)

/-- The device state after a crash part-way through a write sequence: the
first `w` writes land completely, and the next write (if any) lands torn at
byte `tear`.  `tear = 0` models stopping between writes; `tear ≥ LOWER`
models a crash just after the `w + 1`-st write. -/
def crashState (dev : Dev) (ws : List (Nat × List Nat)) (w tear : Nat) : Dev :=
  let d := applyWrites dev (ws.take w)
  match ws.get? w with
  | none => d
  | some q => tornWrite d q.1 q.2 tear

/-- The index `Journal::load` decodes from the metadata region. -/
def jidxOf (R : Nat) (dev : Dev) : Nat := fromLe ((jpull R dev 0).take 8)

/-- The CRC-64 `Journal::load` decodes from the metadata region. -/
def jcrcOf (R : Nat) (dev : Dev) : Nat := fromLe (((jpull R dev 0).drop 8).take 8)

/-- The shadow data `Journal::load` reads. -/
def jdataOf (R : Nat) (dev : Dev) : List Nat := jpull R dev 1

/-- `Journal::load`'s recovery: if the CRC-64 of the re-encoded index and the
shadow data matches the stored CRC, replay the shadow data into region
`idx + 2`; otherwise leave the device alone. -/
def jload (LOWER R : Nat) (dev : Dev) : Dev :=
  if crc64 (leBytes 8 (jidxOf R dev) ++ jdataOf R dev) = jcrcOf R dev then
    applyWrites dev (jpushWrites R LOWER (jidxOf R dev + 2) (jdataOf R dev))
  else dev

/-- `Journal::len`: number of logical blocks. -/
def jlen (R : Nat) (dev : Dev) : Nat := dlen dev / R - 2

/-- `Journal::get(index)`: read logical block `index` from region
`index + 2`. -/
def jget (R : Nat) (dev : Dev) (index : Nat) : List Nat := jpull R dev (index + 2)

/-- A 16-byte block of `0x01` bytes: the value a previous, fully completed
`set(0, ...)` wrote. -/
def C1s : List Nat := List.replicate 16 1

/-- A 16-byte difference whose CRC-64 (ISO) contribution is zero: the
reflected generator polynomial `x^64 + x^4 + x^3 + x + 1` laid out in 9
bytes, padded with leading zeros. -/
def C1e : List Nat := [0, 0, 0, 0, 0, 0, 0, 1, 0, 0, 0, 0, 0, 0, 0xB0, 1]

/-- The new value for logical block 1: `C1s` with the zero-contribution
difference XORed in, so `crc64 (le 1 ++ C1b2) = crc64 (le 1 ++ C1s)`. -/
def C1b2 : List Nat := List.zipWith (fun a b => a ^^^ b) C1s C1e

/-- A steady journal device with `LOWER = UPPER = 16` (`R = 1`) and two
logical blocks, after `set(0, C1s)` completed: metadata for `(0, C1s)`,
shadow `C1s`, logical block 0 = `C1s`, logical block 1 = zeros. -/
def C1d0 : Dev :=
  [jmeta 16 1 0 C1s, C1s, C1s, List.replicate 16 0]

set_option maxRecDepth 10000 in
/-- Counterexample to C1 as stated: `set(1, C1b2)` crashes after completing
only the metadata write (one complete write, the next torn at byte 0, i.e.
not started).  `Journal::load`'s CRC-64 check passes spuriously — the stale
shadow `C1s` collides with the new metadata's CRC because `C1b2 = C1s ⊕ C1e`
and `C1e` contributes zero to the CRC — so recovery replays the stale shadow
into logical block 1, which afterwards equals neither its pre-operation
value (zeros) nor its post-operation value `C1b2`. -/
theorem C1_counterexample :
    jget 1 (jload 16 1 (crashState C1d0 (jsetWrites 16 1 1 C1b2) 1 0)) 1 ≠
        jget 1 C1d0 1 ∧
      jget 1 (jload 16 1 (crashState C1d0 (jsetWrites 16 1 1 C1b2) 1 0)) 1 ≠
        C1b2 ∧
      jget 1 (jload 16 1 (crashState C1d0 (jsetWrites 16 1 1 C1b2) 1 0)) 1 =
        C1s := by
  decide

theorem crc64_bound (m : List Nat) (hm : ∀ b ∈ m, b < 256) : crc64 m < 2 ^ 64 := by
  have h1 : crcFold 0xD800000000000000 0xFFFFFFFFFFFFFFFF m < 2 ^ 64 := by
    refine crcFold_lt (W := 64) (by norm_num) _ (by norm_num) m ?_
    intro b hb
    exact lt_trans (hm b hb) (by norm_num)
  exact Nat.xor_lt_two_pow h1 (by norm_num)

theorem flatten_chunks (L R : Nat) (b : List Nat) (hb : b.length = R * L) :
    ((List.range R).map fun t => (b.drop (t * L)).take L).flatten = b := by
  induction R generalizing b with
  | zero =>
    simp only [List.range_zero, List.map_nil, List.flatten_nil]
    have hz : b.length = 0 := by simpa using hb
    exact (List.eq_nil_of_length_eq_zero hz).symm
  | succ R ih =>
    rw [List.range_succ_eq_map, List.map_cons, List.map_map, List.flatten_cons]
    have hmap : (List.range R).map ((fun t => (b.drop (t * L)).take L) ∘ Nat.succ) =
        (List.range R).map fun t => ((b.drop L).drop (t * L)).take L := by
      refine List.map_congr_left fun t ht => ?_
      simp only [Function.comp]
      rw [List.drop_drop]
      congr 2
      rw [Nat.succ_mul]
      omega
    rw [hmap, ih (b.drop L) (by simp only [List.length_drop]; rw [Nat.succ_mul] at hb; omega)]
    simp only [Nat.zero_mul, List.drop_zero]
    exact List.take_append_drop L b

theorem jpushWrites_length (R L a : Nat) (x : List Nat) :
    (jpushWrites R L a x).length = R := by
  simp [jpushWrites]

theorem jpull_congr (R : Nat) (d d' : Dev) (a : Nat)
    (h : ∀ t, t < R → dget d' (a * R + t) = dget d (a * R + t)) :
    jpull R d' a = jpull R d a := by
  unfold jpull
  congr 1
  exact List.map_congr_left fun t ht => h t (List.mem_range.mp ht)

theorem region_key_ne (R a c t s : Nat) (ht : t < R) (hs : s < R)
    (hac : a ≠ c) : a * R + t ≠ c * R + s := by
  rcases Nat.lt_or_ge a c with h | h
  · have h2 : (a + 1) * R ≤ c * R := Nat.mul_le_mul_right R (by omega)
    rw [Nat.add_mul] at h2
    omega
  · have h4 : c < a := by omega
    have h2 : (c + 1) * R ≤ a * R := Nat.mul_le_mul_right R (by omega)
    rw [Nat.add_mul] at h2
    omega

theorem dget_crashState_not_mem (d : Dev) (ws : List (Nat × List Nat)) (w k i : Nat)
    (h : ∀ q ∈ ws, q.1 ≠ i) : dget (crashState d ws w k) i = dget d i := by
  unfold crashState
  dsimp only
  have hbase : dget (applyWrites d (ws.take w)) i = dget d i :=
    dget_applyWrites_not_mem d _ i fun q hq => h q (List.mem_of_mem_take hq)
  cases hq : ws.get? w with
  | none => exact hbase
  | some q =>
    unfold tornWrite
    rw [dget_dset_ne _ i q.1 _ (h q (List.get?_mem hq))]
    exact hbase

theorem dlen_crashState (d : Dev) (ws : List (Nat × List Nat)) (w k : Nat) :
    dlen (crashState d ws w k) = dlen d := by
  unfold crashState
  dsimp only
  cases hq : ws.get? w with
  | none => exact dlen_applyWrites d _
  | some q =>
    unfold tornWrite
    rw [dlen_dset, dlen_applyWrites]

theorem dget_applyWrites_length (L : Nat) (ws : List (Nat × List Nat)) (d : Dev)
    (hd : ∀ i, i < dlen d → (dget d i).length = L)
    (hws : ∀ q ∈ ws, q.2.length = L) :
    ∀ i, i < dlen d → (dget (applyWrites d ws) i).length = L := by
  induction ws generalizing d with
  | nil => exact hd
  | cons q ws ih =>
    intro i hi
    have hstep : ∀ i2, i2 < dlen (dset d q.1 q.2) →
        (dget (dset d q.1 q.2) i2).length = L := by
      intro i2 hi2
      rw [dlen_dset] at hi2
      by_cases he : i2 = q.1
      · subst he
        rw [dget_dset_self d _ _ hi2]
        exact hws q (by simp)
      · rw [dget_dset_ne d i2 q.1 _ fun hh => he hh.symm]
        exact hd i2 hi2
    have hres := ih (dset d q.1 q.2) hstep fun q2 hq2 => hws q2 (by simp [hq2])
    show (dget (applyWrites (dset d q.1 q.2) ws) i).length = L
    exact hres i (by rw [dlen_dset]; exact hi)

theorem dget_crashState_length (L : Nat) (d : Dev) (ws : List (Nat × List Nat))
    (w k : Nat) (hd : ∀ i, i < dlen d → (dget d i).length = L)
    (hws : ∀ q ∈ ws, q.2.length = L) :
    ∀ i, i < dlen d → (dget (crashState d ws w k) i).length = L := by
  intro i hi
  unfold crashState
  dsimp only
  have hbase := dget_applyWrites_length L (ws.take w) d hd
    fun q hq => hws q (List.mem_of_mem_take hq)
  cases hq : ws.get? w with
  | none => exact hbase i hi
  | some q =>
    unfold tornWrite
    by_cases he : i = q.1
    · subst he
      rw [dget_dset_self _ _ _ (by rw [dlen_applyWrites]; exact hi)]
      have h1 : q.2.length = L := hws q (List.get?_mem hq)
      have h2 : (dget (applyWrites d (ws.take w)) q.1).length = L := hbase q.1 hi
      simp only [List.length_append, List.length_take, List.length_drop, h1, h2]
      omega
    · rw [dget_dset_ne _ i q.1 _ fun hh => he hh.symm]
      exact hbase i hi

theorem jmeta_length (L R j : Nat) (b : List Nat) (h16 : 16 ≤ R * L) :
    (jmeta L R j b).length = R * L := by
  simp only [jmeta, List.length_append, leBytes_length, List.length_replicate]
  omega

theorem jpushWrites_snd_length (R L a : Nat) (x : List Nat) (hx : x.length = R * L) :
    ∀ q ∈ jpushWrites R L a x, q.2.length = L := by
  intro q hq
  simp only [jpushWrites, List.mem_map, List.mem_range] at hq
  obtain ⟨t, ht, rfl⟩ := hq
  simp only [List.length_take, List.length_drop, hx]
  have h2 : (t + 1) * L ≤ R * L := Nat.mul_le_mul_right L (by omega)
  rw [Nat.add_mul] at h2
  omega

theorem jsetWrites_snd_length (L R j : Nat) (b : List Nat) (h16 : 16 ≤ R * L)
    (hb : b.length = R * L) : ∀ q ∈ jsetWrites L R j b, q.2.length = L := by
  intro q hq
  simp only [jsetWrites, List.mem_append] at hq
  rcases hq with (hq | hq) | hq
  · exact jpushWrites_snd_length R L 0 _ (jmeta_length L R j b h16) q hq
  · exact jpushWrites_snd_length R L 1 b hb q hq
  · exact jpushWrites_snd_length R L (j + 2) b hb q hq

theorem jsetWrites_key (L R j : Nat) (b : List Nat) :
    ∀ q ∈ jsetWrites L R j b, ∃ a t, t < R ∧ q.1 = a * R + t ∧
      (a = 0 ∨ a = 1 ∨ a = j + 2) := by
  intro q hq
  simp only [jsetWrites, List.mem_append, jpushWrites, List.mem_map,
    List.mem_range] at hq
  rcases hq with (⟨t, ht, rfl⟩ | ⟨t, ht, rfl⟩) | ⟨t, ht, rfl⟩
  · exact ⟨0, t, ht, rfl, Or.inl rfl⟩
  · exact ⟨1, t, ht, rfl, Or.inr (Or.inl rfl)⟩
  · exact ⟨j + 2, t, ht, rfl, Or.inr (Or.inr rfl)⟩

theorem region_bound (R : Nat) (d : Dev) (i : Nat) (hi : i < jlen R d) :
    (i + 3) * R ≤ dlen d := by
  have h1 : i + 3 ≤ dlen d / R := by
    unfold jlen at hi
    omega
  calc (i + 3) * R ≤ dlen d / R * R := Nat.mul_le_mul_right R h1
    _ ≤ dlen d := Nat.div_mul_le_self _ _

theorem jpull_length (R L : Nat) (d : Dev) (a : Nat)
    (h : ∀ t, t < R → (dget d (a * R + t)).length = L) :
    (jpull R d a).length = R * L := by
  unfold jpull
  rw [List.length_flatten, List.map_map]
  have hmap : (List.range R).map (List.length ∘ fun i => dget d (a * R + i)) =
      (List.range R).map fun _ => L :=
    List.map_congr_left fun t ht => h t (List.mem_range.mp ht)
  rw [hmap, List.map_const', List.length_range, List.sum_replicate, smul_eq_mul]

theorem jget_crashState_ne (L R : Nat) (d : Dev) (j w k i : Nat) (b : List Nat)
    (hij : i ≠ j) :
    jget R (crashState d (jsetWrites L R j b) w k) i = jget R d i := by
  unfold jget
  refine jpull_congr R d _ (i + 2) fun t ht => ?_
  refine dget_crashState_not_mem d _ w k _ fun q hq => ?_
  obtain ⟨a, s, hs, hqk, ha⟩ := jsetWrites_key L R j b q hq
  rw [hqk]
  rcases ha with rfl | rfl | rfl
  · exact region_key_ne R 0 (i + 2) s t hs ht (by omega)
  · exact region_key_ne R 1 (i + 2) s t hs ht (by omega)
  · exact region_key_ne R (j + 2) (i + 2) s t hs ht (by omega)

theorem jpushWrites_split (R L a s : Nat) (x : List Nat) (hs : s < R) :
    jpushWrites R L a x =
      ((List.range' 0 s).map fun i => (a * R + i, (x.drop (i * L)).take L)) ++
        (a * R + s, (x.drop (s * L)).take L) ::
        ((List.range' (s + 1) (R - s - 1)).map
          fun i => (a * R + i, (x.drop (i * L)).take L)) := by
  unfold jpushWrites
  rw [List.range_eq_range' R]
  have h0 : R - s + s = R := by omega
  have h1 : List.range' 0 s ++ List.range' s (R - s) = List.range' 0 R := by
    have h2 := List.range'_append 0 s (R - s) 1
    simpa [h0] using h2
  have h3 : List.range' s (R - s) = s :: List.range' (s + 1) (R - s - 1) := by
    have h4 : R - s = R - s - 1 + 1 := by omega
    rw [h4]
    have h5 := List.range'_succ s (R - s - 1) 1
    simpa using h5
  rw [← h1, h3, List.map_append, List.map_cons]

theorem dget_applyWrites_mid_push (d : Dev) (head : List (Nat × List Nat))
    (R L a s : Nat) (x : List Nat) (tail : List (Nat × List Nat))
    (hs : s < R) (hlt : a * R + s < dlen d)
    (htail : ∀ q ∈ tail, q.1 ≠ a * R + s) :
    dget (applyWrites d (head ++ jpushWrites R L a x ++ tail)) (a * R + s) =
      (x.drop (s * L)).take L := by
  rw [jpushWrites_split R L a s x hs]
  have hassoc : head ++ (((List.range' 0 s).map fun i =>
      (a * R + i, (x.drop (i * L)).take L)) ++
      (a * R + s, (x.drop (s * L)).take L) ::
      ((List.range' (s + 1) (R - s - 1)).map fun i =>
        (a * R + i, (x.drop (i * L)).take L))) ++ tail =
      (head ++ (List.range' 0 s).map fun i =>
        (a * R + i, (x.drop (i * L)).take L)) ++
      (a * R + s, (x.drop (s * L)).take L) ::
      (((List.range' (s + 1) (R - s - 1)).map fun i =>
        (a * R + i, (x.drop (i * L)).take L)) ++ tail) := by
    simp [List.append_assoc]
  rw [hassoc]
  refine dget_applyWrites_last d _ _ _ _ hlt ?_
  intro q hq
  rcases List.mem_append.mp hq with hq | hq
  · simp only [List.mem_map] at hq
    obtain ⟨t, ht2, rfl⟩ := hq
    have ht3 := List.mem_range'_1.mp ht2
    simp only
    omega
  · exact htail q hq

theorem jpull_applyWrites_mid_push (d : Dev) (head : List (Nat × List Nat))
    (R L a : Nat) (x : List Nat) (tail : List (Nat × List Nat))
    (hx : x.length = R * L) (hlt : a * R + R ≤ dlen d)
    (htail : ∀ q ∈ tail, ∀ s, s < R → q.1 ≠ a * R + s) :
    jpull R (applyWrites d (head ++ jpushWrites R L a x ++ tail)) a = x := by
  unfold jpull
  have hmap : (List.range R).map (fun t =>
      dget (applyWrites d (head ++ jpushWrites R L a x ++ tail)) (a * R + t)) =
      (List.range R).map fun t => (x.drop (t * L)).take L := by
    refine List.map_congr_left fun t ht => ?_
    have ht2 := List.mem_range.mp ht
    exact dget_applyWrites_mid_push d head R L a t x tail ht2 (by omega)
      fun q hq => htail q hq t ht2
  rw [hmap]
  exact flatten_chunks L R x hx

theorem jpull_applyWrites_push_ne (d : Dev) (R L a c : Nat) (x : List Nat)
    (hac : c ≠ a) :
    jpull R (applyWrites d (jpushWrites R L a x)) c = jpull R d c := by
  refine jpull_congr R d _ c fun t ht => ?_
  refine dget_applyWrites_not_mem d _ _ fun q hq => ?_
  simp only [jpushWrites, List.mem_map, List.mem_range] at hq
  obtain ⟨s, hsR, rfl⟩ := hq
  exact region_key_ne R a c s t hsR ht fun h => hac h.symm

theorem jget_crashState_early (L R : Nat) (d : Dev) (j w k : Nat) (b : List Nat)
    (hw : w < 2 * R) :
    jget R (crashState d (jsetWrites L R j b) w k) j = jget R d j := by
  have hABlen : (jpushWrites R L 0 (jmeta L R j b) ++ jpushWrites R L 1 b).length =
      R + R := by
    rw [List.length_append, jpushWrites_length, jpushWrites_length]
  unfold jget
  refine jpull_congr R d _ (j + 2) fun t ht => ?_
  have hAB : ∀ q ∈ jpushWrites R L 0 (jmeta L R j b) ++ jpushWrites R L 1 b,
      q.1 ≠ (j + 2) * R + t := by
    intro q hq
    rcases List.mem_append.mp hq with hq | hq
    · simp only [jpushWrites, List.mem_map, List.mem_range] at hq
      obtain ⟨s, hsR, rfl⟩ := hq
      exact region_key_ne R 0 (j + 2) s t hsR ht (by omega)
    · simp only [jpushWrites, List.mem_map, List.mem_range] at hq
      obtain ⟨s, hsR, rfl⟩ := hq
      exact region_key_ne R 1 (j + 2) s t hsR ht (by omega)
  unfold crashState
  dsimp only
  have htakeAB : (jsetWrites L R j b).take w =
      (jpushWrites R L 0 (jmeta L R j b) ++ jpushWrites R L 1 b).take w := by
    unfold jsetWrites
    exact List.take_append_of_le_length (by rw [hABlen]; omega)
  have hbase : dget (applyWrites d ((jsetWrites L R j b).take w))
      ((j + 2) * R + t) = dget d ((j + 2) * R + t) := by
    rw [htakeAB]
    exact dget_applyWrites_not_mem d _ _ fun q hq =>
      hAB q (List.mem_of_mem_take hq)
  cases hget : (jsetWrites L R j b).get? w with
  | none => exact hbase
  | some q =>
    unfold tornWrite
    have hqmem : q ∈ jpushWrites R L 0 (jmeta L R j b) ++ jpushWrites R L 1 b := by
      have hget2 := hget
      unfold jsetWrites at hget2
      rw [List.get?_append (by rw [hABlen]; omega)] at hget2
      exact List.get?_mem hget2
    rw [dget_dset_ne _ _ q.1 _ (hAB q hqmem)]
    exact hbase

theorem jpull_crashState_late (L R : Nat) (d : Dev) (j w k : Nat) (b : List Nat)
    (h16 : 16 ≤ R * L) (hb : b.length = R * L)
    (hw : 2 * R ≤ w) (hdl : 2 * R ≤ dlen d) :
    jpull R (crashState d (jsetWrites L R j b) w k) 0 = jmeta L R j b ∧
    jpull R (crashState d (jsetWrites L R j b) w k) 1 = b := by
  have hABlen : (jpushWrites R L 0 (jmeta L R j b) ++ jpushWrites R L 1 b).length =
      R + R := by
    rw [List.length_append, jpushWrites_length, jpushWrites_length]
  have htake : (jsetWrites L R j b).take w =
      jpushWrites R L 0 (jmeta L R j b) ++ jpushWrites R L 1 b ++
        (jpushWrites R L (j + 2) b).take (w - (R + R)) := by
    unfold jsetWrites
    rw [List.take_append_eq_append_take,
      List.take_all_of_le (by rw [hABlen]; omega), hABlen]
  have hq_dest : ∀ q, (jsetWrites L R j b).get? w = some q →
      ∃ s, s < R ∧ q.1 = (j + 2) * R + s := by
    intro q hget
    unfold jsetWrites at hget
    rw [List.get?_append_right (by rw [hABlen]; omega)] at hget
    have hqmem := List.get?_mem hget
    simp only [jpushWrites, List.mem_map, List.mem_range] at hqmem
    obtain ⟨s, hsR, rfl⟩ := hqmem
    exact ⟨s, hsR, rfl⟩
  constructor
  · have hchunk : ∀ t, t < R →
        dget (crashState d (jsetWrites L R j b) w k) (0 * R + t) =
          ((jmeta L R j b).drop (t * L)).take L := by
      intro t ht
      unfold crashState
      dsimp only
      have hbase : dget (applyWrites d ((jsetWrites L R j b).take w)) (0 * R + t) =
          ((jmeta L R j b).drop (t * L)).take L := by
        rw [htake]
        have hsplit : jpushWrites R L 0 (jmeta L R j b) ++ jpushWrites R L 1 b ++
            (jpushWrites R L (j + 2) b).take (w - (R + R)) =
            [] ++ jpushWrites R L 0 (jmeta L R j b) ++
              (jpushWrites R L 1 b ++
                (jpushWrites R L (j + 2) b).take (w - (R + R))) := by
          simp [List.append_assoc]
        rw [hsplit]
        refine dget_applyWrites_mid_push d [] R L 0 t (jmeta L R j b) _ ht
          (by omega) ?_
        intro q hq
        rcases List.mem_append.mp hq with hq | hq
        · simp only [jpushWrites, List.mem_map, List.mem_range] at hq
          obtain ⟨s, hsR, rfl⟩ := hq
          exact region_key_ne R 1 0 s t hsR ht (by omega)
        · have hq2 := List.mem_of_mem_take hq
          simp only [jpushWrites, List.mem_map, List.mem_range] at hq2
          obtain ⟨s, hsR, rfl⟩ := hq2
          exact region_key_ne R (j + 2) 0 s t hsR ht (by omega)
      cases hget : (jsetWrites L R j b).get? w with
      | none => exact hbase
      | some q =>
        unfold tornWrite
        obtain ⟨s, hsR, hkey⟩ := hq_dest q hget
        rw [dget_dset_ne _ _ q.1 _
          (by rw [hkey]; exact region_key_ne R (j + 2) 0 s t hsR ht (by omega))]
        exact hbase
    unfold jpull
    rw [List.map_congr_left fun t ht => hchunk t (List.mem_range.mp ht)]
    exact flatten_chunks L R _ (jmeta_length L R j b h16)
  · have hchunk : ∀ t, t < R →
        dget (crashState d (jsetWrites L R j b) w k) (1 * R + t) =
          (b.drop (t * L)).take L := by
      intro t ht
      unfold crashState
      dsimp only
      have hbase : dget (applyWrites d ((jsetWrites L R j b).take w)) (1 * R + t) =
          (b.drop (t * L)).take L := by
        rw [htake]
        refine dget_applyWrites_mid_push d (jpushWrites R L 0 (jmeta L R j b))
          R L 1 t b _ ht (by omega) ?_
        intro q hq
        have hq2 := List.mem_of_mem_take hq
        simp only [jpushWrites, List.mem_map, List.mem_range] at hq2
        obtain ⟨s, hsR, rfl⟩ := hq2
        exact region_key_ne R (j + 2) 1 s t hsR ht (by omega)
      cases hget : (jsetWrites L R j b).get? w with
      | none => exact hbase
      | some q =>
        unfold tornWrite
        obtain ⟨s, hsR, hkey⟩ := hq_dest q hget
        rw [dget_dset_ne _ _ q.1 _
          (by rw [hkey]; exact region_key_ne R (j + 2) 1 s t hsR ht (by omega))]
        exact hbase
    unfold jpull
    rw [List.map_congr_left fun t ht => hchunk t (List.mem_range.mp ht)]
    exact flatten_chunks L R b hb

theorem jidx_of_meta (L R j : Nat) (b : List Nat) (d : Dev)
    (hmeta : jpull R d 0 = jmeta L R j b) (hj64 : j < 2 ^ 64) :
    jidxOf R d = j := by
  unfold jidxOf
  rw [hmeta]
  unfold jmeta
  rw [List.append_assoc, take_append_len _ _ (leBytes_length 8 j)]
  refine fromLe_leBytes 8 j ?_
  have h2 : (256 : Nat) ^ 8 = 2 ^ 64 := by norm_num
  omega

theorem jcrc_of_meta (L R j : Nat) (b : List Nat) (d : Dev)
    (hmeta : jpull R d 0 = jmeta L R j b) (hbB : ∀ x ∈ b, x < 256) :
    jcrcOf R d = crc64 (leBytes 8 j ++ b) := by
  unfold jcrcOf
  rw [hmeta]
  unfold jmeta
  rw [List.append_assoc, drop_append_len _ _ (leBytes_length 8 j),
    take_append_len _ _ (leBytes_length 8 _)]
  refine fromLe_leBytes 8 _ ?_
  have h2 : (256 : Nat) ^ 8 = 2 ^ 64 := by norm_num
  have h3 : crc64 (leBytes 8 j ++ b) < 2 ^ 64 := by
    refine crc64_bound _ ?_
    intro x hx
    rcases List.mem_append.mp hx with hx | hx
    · exact leBytes_lt 8 j x hx
    · exact hbB x hx
  omega

theorem jload_replay (L R : Nat) (d0 : Dev) (j w k : Nat) (b : List Nat)
    (hb : b.length = R * L) (hjr : (j + 3) * R ≤ dlen d0)
    (hload : jload L R (crashState d0 (jsetWrites L R j b) w k) =
      applyWrites (crashState d0 (jsetWrites L R j b) w k)
        (jpushWrites R L (j + 2) b)) :
    (∀ i, i ≠ j →
      jget R (jload L R (crashState d0 (jsetWrites L R j b) w k)) i =
        jget R d0 i) ∧
    jget R (jload L R (crashState d0 (jsetWrites L R j b) w k)) j = b := by
  constructor
  · intro i hij
    rw [hload]
    unfold jget
    rw [jpull_applyWrites_push_ne _ R L (j + 2) (i + 2) b (by omega)]
    exact jget_crashState_ne L R d0 j w k i b hij
  · rw [hload]
    unfold jget
    have hform : jpushWrites R L (j + 2) b =
        [] ++ jpushWrites R L (j + 2) b ++ [] := by simp
    rw [hform]
    refine jpull_applyWrites_mid_push _ [] R L (j + 2) b [] hb ?_ (by simp)
    rw [dlen_crashState]
    have h5 : (j + 2) * R + R = (j + 3) * R := by ring
    omega

/-- **C1** (amended journal crash-atomicity): a `set(j, b)` interrupted after
`w` complete physical writes, the next torn at byte `k`, followed by
`Journal::load` recovery, leaves every logical block `i ≠ j` unchanged and
logical block `j` equal to its complete pre-operation or complete
post-operation value — provided the CRC-64 check at `load` passes only
honestly: whenever it passes on the crash state, the decoded metadata is
either the interrupted operation's own `(j, b)` or an in-range index whose
shadow data already equals that block's current content (the claim as
originally stated omits this proviso, and a CRC-64 collision refutes it). -/
theorem C1_crash_atomic (LOWER R : Nat) (d0 : Dev) (j w k : Nat) (b : List Nat)
    (h16 : 16 ≤ R * LOWER)
    (hb : b.length = R * LOWER) (hbB : ∀ x ∈ b, x < 256)
    (hj : j < jlen R d0) (hj64 : j < 2 ^ 64)
    (hWF : ∀ i, i < dlen d0 → (dget d0 i).length = LOWER)
    (hH : crc64 (leBytes 8 (jidxOf R (crashState d0 (jsetWrites LOWER R j b) w k)) ++
          jdataOf R (crashState d0 (jsetWrites LOWER R j b) w k)) =
        jcrcOf R (crashState d0 (jsetWrites LOWER R j b) w k) →
      (jidxOf R (crashState d0 (jsetWrites LOWER R j b) w k) = j ∧
        jdataOf R (crashState d0 (jsetWrites LOWER R j b) w k) = b) ∨
      (jidxOf R (crashState d0 (jsetWrites LOWER R j b) w k) < jlen R d0 ∧
        jdataOf R (crashState d0 (jsetWrites LOWER R j b) w k) =
          jget R (crashState d0 (jsetWrites LOWER R j b) w k)
            (jidxOf R (crashState d0 (jsetWrites LOWER R j b) w k)))) :
    (∀ i, i < jlen R d0 → i ≠ j →
      jget R (jload LOWER R (crashState d0 (jsetWrites LOWER R j b) w k)) i =
        jget R d0 i) ∧
    (jget R (jload LOWER R (crashState d0 (jsetWrites LOWER R j b) w k)) j =
        jget R d0 j ∨
      jget R (jload LOWER R (crashState d0 (jsetWrites LOWER R j b) w k)) j = b) := by
  have hjr : (j + 3) * R ≤ dlen d0 := region_bound R d0 j hj
  have hdl2 : 2 * R ≤ dlen d0 := by
    have h1 : 2 * R ≤ (j + 3) * R := Nat.mul_le_mul_right R (by omega)
    omega
  rcases Nat.lt_or_ge w (2 * R) with hw | hw
  · have hpre : jget R (crashState d0 (jsetWrites LOWER R j b) w k) j =
        jget R d0 j := jget_crashState_early LOWER R d0 j w k b hw
    by_cases hchk : crc64
        (leBytes 8 (jidxOf R (crashState d0 (jsetWrites LOWER R j b) w k)) ++
          jdataOf R (crashState d0 (jsetWrites LOWER R j b) w k)) =
        jcrcOf R (crashState d0 (jsetWrites LOWER R j b) w k)
    · rcases hH hchk with ⟨hidx, hdata⟩ | ⟨hidxlt, hdata⟩
      · have hload : jload LOWER R (crashState d0 (jsetWrites LOWER R j b) w k) =
            applyWrites (crashState d0 (jsetWrites LOWER R j b) w k)
              (jpushWrites R LOWER (j + 2) b) := by
          unfold jload
          rw [if_pos hchk, hidx, hdata]
        obtain ⟨hother, hj2⟩ := jload_replay LOWER R d0 j w k b hb hjr hload
        exact ⟨fun i hi hij => hother i hij, Or.inr hj2⟩
      · have hload : jload LOWER R (crashState d0 (jsetWrites LOWER R j b) w k) =
            applyWrites (crashState d0 (jsetWrites LOWER R j b) w k)
              (jpushWrites R LOWER
                (jidxOf R (crashState d0 (jsetWrites LOWER R j b) w k) + 2)
                (jdataOf R (crashState d0 (jsetWrites LOWER R j b) w k))) := by
          unfold jload
          rw [if_pos hchk]
        have hdlen2 : dlen (crashState d0 (jsetWrites LOWER R j b) w k) = dlen d0 :=
          dlen_crashState d0 _ w k
        have hdatalen : (jdataOf R (crashState d0 (jsetWrites LOWER R j b) w k)).length =
            R * LOWER := by
          unfold jdataOf
          refine jpull_length R LOWER _ 1 fun t ht => ?_
          exact dget_crashState_length LOWER d0 _ w k hWF
            (jsetWrites_snd_length LOWER R j b h16 hb) _ (by omega)
        have hidxr : (jidxOf R (crashState d0 (jsetWrites LOWER R j b) w k) + 3) * R ≤
            dlen d0 := region_bound R d0 _ hidxlt
        have hsame : ∀ i,
            jget R (jload LOWER R (crashState d0 (jsetWrites LOWER R j b) w k)) i =
              jget R (crashState d0 (jsetWrites LOWER R j b) w k) i := by
          intro i
          rw [hload]
          by_cases hii : i = jidxOf R (crashState d0 (jsetWrites LOWER R j b) w k)
          · have hlt2 : (jidxOf R (crashState d0 (jsetWrites LOWER R j b) w k) + 2) * R +
                R ≤ dlen (crashState d0 (jsetWrites LOWER R j b) w k) := by
              rw [hdlen2]
              have h5 : (jidxOf R (crashState d0 (jsetWrites LOWER R j b) w k) + 2) * R +
                  R = (jidxOf R (crashState d0 (jsetWrites LOWER R j b) w k) + 3) * R := by
                ring
              omega
            have hres := jpull_applyWrites_mid_push
              (crashState d0 (jsetWrites LOWER R j b) w k) [] R LOWER
              (jidxOf R (crashState d0 (jsetWrites LOWER R j b) w k) + 2)
              (jdataOf R (crashState d0 (jsetWrites LOWER R j b) w k)) []
              hdatalen hlt2 (by simp)
            have hform : ([] : List (Nat × List Nat)) ++
                jpushWrites R LOWER
                  (jidxOf R (crashState d0 (jsetWrites LOWER R j b) w k) + 2)
                  (jdataOf R (crashState d0 (jsetWrites LOWER R j b) w k)) ++ [] =
                jpushWrites R LOWER
                  (jidxOf R (crashState d0 (jsetWrites LOWER R j b) w k) + 2)
                  (jdataOf R (crashState d0 (jsetWrites LOWER R j b) w k)) := by
              simp
            rw [hform] at hres
            rw [hii]
            unfold jget
            rw [hres]
            exact hdata
          · unfold jget
            rw [jpull_applyWrites_push_ne _ R LOWER _ (i + 2) _ (by omega)]
        constructor
        · intro i hi hij
          rw [hsame i]
          exact jget_crashState_ne LOWER R d0 j w k i b hij
        · left
          rw [hsame j]
          exact hpre
    · have hload : jload LOWER R (crashState d0 (jsetWrites LOWER R j b) w k) =
          crashState d0 (jsetWrites LOWER R j b) w k := by
        unfold jload
        rw [if_neg hchk]
      constructor
      · intro i hi hij
        rw [hload]
        exact jget_crashState_ne LOWER R d0 j w k i b hij
      · left
        rw [hload]
        exact hpre
  · obtain ⟨hmeta, hshadow⟩ :=
      jpull_crashState_late LOWER R d0 j w k b h16 hb hw hdl2
    have hidx := jidx_of_meta LOWER R j b _ hmeta hj64
    have hdata : jdataOf R (crashState d0 (jsetWrites LOWER R j b) w k) = b :=
      hshadow
    have hcrc := jcrc_of_meta LOWER R j b _ hmeta hbB
    have hchk : crc64
        (leBytes 8 (jidxOf R (crashState d0 (jsetWrites LOWER R j b) w k)) ++
          jdataOf R (crashState d0 (jsetWrites LOWER R j b) w k)) =
        jcrcOf R (crashState d0 (jsetWrites LOWER R j b) w k) := by
      rw [hidx, hdata, hcrc]
    have hload : jload LOWER R (crashState d0 (jsetWrites LOWER R j b) w k) =
        applyWrites (crashState d0 (jsetWrites LOWER R j b) w k)
          (jpushWrites R LOWER (j + 2) b) := by
      unfold jload
      rw [if_pos hchk, hidx, hdata]
    obtain ⟨hother, hj2⟩ := jload_replay LOWER R d0 j w k b hb hjr hload
    exact ⟨fun i hi hij => hother i hij, Or.inr hj2⟩

set_option maxRecDepth 10000 in
/-- Witness for the amended C1: a crash at `w = 0, k = 0` (nothing written)
during `set(1, 0x02…02)` on the steady device `C1d0` satisfies the honesty
proviso — the old metadata decodes to index 0 whose shadow already equals
logical block 0 — and recovery leaves both logical blocks at their
pre-operation values. -/
theorem C1_crash_atomic_witness :
    (1 < jlen 1 C1d0 ∧ (List.replicate 16 2).length = 1 * 16) ∧
    (∀ i, i < jlen 1 C1d0 → i ≠ 1 →
      jget 1 (jload 16 1
        (crashState C1d0 (jsetWrites 16 1 1 (List.replicate 16 2)) 0 0)) i =
        jget 1 C1d0 i) ∧
    (jget 1 (jload 16 1
        (crashState C1d0 (jsetWrites 16 1 1 (List.replicate 16 2)) 0 0)) 1 =
        jget 1 C1d0 1 ∨
      jget 1 (jload 16 1
        (crashState C1d0 (jsetWrites 16 1 1 (List.replicate 16 2)) 0 0)) 1 =
        List.replicate 16 2) :=
  ⟨⟨by decide, by decide⟩,
    C1_crash_atomic 16 1 C1d0 1 0 0 (List.replicate 16 2) (by decide) (by decide)
      (by decide) (by decide) (by decide) (by decide) (by decide)⟩
